import Mathlib

/-!
KnoerzerMa: Grotrian-diagram tools (`tmad_to_grotrian`, `toss_to_grotrian`), the
line-list converters (`adamant_to_toss`, `nist_to_toss`) and `toss_to_fplot`

Shallow embedding of the quantum-number codec (`det_L`, `get_L`), of the
multiplicity grouping, of the column-key pass and of the layout loop of
`main`, of the level and line readers of the two Grotrian tools, and of the
reading and conversion loops of the two converters, followed by the
properties proved about them.

Conventions of the embedding

* `int` fields are `Int`; `double` values are `Rat` (exact arithmetic, every
  finite double is a rational and `<`, `==` on finite doubles agree with the
  rational order; the energies the readers store are finite). The `int`
  counters of the layout stay far inside the `int` range, see `total_le_387`.
* In `nist_to_toss`, whose numbers come from `std::stof`, and for the f-values
  of `toss_to_fplot`, which are quotients by an `int` that may be zero, a
  `double` may be an infinity or a NaN: `Cxx.float_value`, `Fplot.fvalue`.
* `std::vector<T>` is `List T`; `std::find` is `List.findIdx` (the index
  `it - begin()`, equal to the length when `it == end()`).
* `std::sort(first, last, comp)` is a `StdSort comp`: any function whose result
  is a permutation of its argument in which no later element is `comp`-smaller
  than an earlier one. The standard leaves the order of equivalent elements
  open, so the theorems hold for every such function.
* The functions `det_L`, `get_L`, the grouping and the layout loop are the same
  text in `tmad_to_grotrian.cpp` and `toss_to_grotrian.cpp` (the TOSS variant
  adds the `off=` column offset, TMAD has none, i.e. offset `0`); one
  definition embeds both.
* `std::string` is `List Char` inside the readers and `String` in the fields of
  a level. A `std::stringstream` is a `Cxx.istream`: the unread text with
  `eofbit` and `failbit`; `ss.str(a); ss << b; ss.str()` is `Cxx.str_put a b`.
* The library functions whose values the text of the program does not fix
  (decimal conversion of `operator>>` and `std::stof`, `log10`, `pow`) are the
  fields of a `Cxx.Lib`; theorems hold for every such library, and
  `Cxx.decimal_lib` evaluates the samples in exact arithmetic.
* A local variable that is read before anything was assigned to it has an
  indeterminate value: the readers take that value as an argument (`junk`),
  one per input line, and the theorems hold for every such argument.
* An exception that leaves `main` (`std::out_of_range` of `substr`) is
  `stop.crash`, a `continue` of the reading loop is `stop.skip`.
* A run of a tool takes the argument list `argv` (program name first) and a
  function `fs` from file names to the lines of the files that can be opened.
-/

namespace Grotrian

/-! ## Quantum-number codec -/

/-- Function `int det_L(char c)`: the `switch` over the angular-momentum letter, `l = -1` by default. -/
def det_L (c : Char) : Int :=
  match c with
  | 's' | 'S' => 0
  | 'p' | 'P' => 1
  | 'd' | 'D' => 2
  | 'f' | 'F' => 3
  | 'g' | 'G' => 4
  | 'h' | 'H' => 5
  | 'i' | 'I' => 6
  | 'k' | 'K' => 7
  | 'l' | 'L' => 8
  | 'm' | 'M' => 9
  | 'n' | 'N' => 10
  | 'o' | 'O' => 11
  | 'q' | 'Q' => 12
  | 'r' | 'R' => 13
  | 't' | 'T' => 14
  | 'u' | 'U' => 15
  | 'v' | 'V' => 16
  | 'w' | 'W' => 17
  | 'x' | 'X' => 18
  | 'y' | 'Y' => 19
  | 'z' | 'Z' => 20
  | _ => -1

/-- Function `string get_L(int l)`: the `switch` over the code, `"?"` by default
(the diagnostic printed on the default branch is not modelled). -/
def get_L (l : Int) : String :=
  match l with
  | 0 => "S"
  | 1 => "P"
  | 2 => "D"
  | 3 => "F"
  | 4 => "G"
  | 5 => "H"
  | 6 => "I"
  | 7 => "K"
  | 8 => "L"
  | 9 => "M"
  | 10 => "N"
  | 11 => "O"
  | 12 => "Q"
  | 13 => "R"
  | 14 => "T"
  | 15 => "U"
  | 16 => "V"
  | 17 => "W"
  | 18 => "X"
  | 19 => "Y"
  | 20 => "Z"
  | _ => "?"

/-- The angular-momentum letters in the order of the specification. -/
def L_letters : List Char :=
  ['S', 'P', 'D', 'F', 'G', 'H', 'I', 'K', 'L', 'M', 'N', 'O', 'Q', 'R', 'T', 'U', 'V', 'W',
    'X', 'Y', 'Z']

/-- The same letters in lower case. -/
def L_letters_lower : List Char := L_letters.map Char.toLower

/-! ## Data model -/

/-- Record `struct level`. -/
structure level where
  mult : Int
  n : Int
  p : Int
  l : Int
  energy : Rat
  J : Rat
  name : String
  conf : String
  term : String
  L : String
  parity : String
deriving DecidableEq

/-- Comparator `sort_by_L`: by `l`, then by energy. -/
def sort_by_L (i j : level) : Bool :=
  if i.l = j.l then decide (i.energy < j.energy) else decide (i.l < j.l)

/-- Comparator `sort_by_E`: by energy. -/
def sort_by_E (i j : level) : Bool := decide (i.energy < j.energy)

/-- Record `struct mul_lp`: a column key (top label). -/
structure mul_lp where
  mult : Int
  l : Int
  p : Int
deriving DecidableEq

/-- Comparator `sort_by_lp`: `mul_lp::operator()`, by `l`, then by parity. -/
def sort_by_lp (i j : mul_lp) : Bool :=
  if i.l = j.l then decide (i.p < j.p) else decide (i.l < j.l)

/-- Equality `operator==(const mul_lp&, const mul_lp&)`: compares `l` and `p`, not `mult`. -/
def mul_lp_eq (lhs rhs : mul_lp) : Bool := decide (lhs.l = rhs.l) && decide (lhs.p = rhs.p)

/-- Record `struct levels_mult`: the levels of one multiplicity. -/
structure levels_mult where
  mult : Int
  multis : List mul_lp
  levels : List level
deriving DecidableEq

/-- Comparator `sort_by_mult`: `levels_mult::operator()`. -/
def sort_by_mult (i j : levels_mult) : Bool := decide (i.mult < j.mult)

/-- The contract of `std::sort(first, last, comp)`: the result is a permutation of the
argument and is sorted, that is no element is `comp`-smaller than one before it. -/
structure StdSort {α : Type} (comp : α → α → Bool) where
  run : List α → List α
  perm : ∀ xs, List.Perm (run xs) xs
  sorted : ∀ xs, List.Pairwise (fun a b => comp b a = false) (run xs)

/-- The four `std::sort` calls of the grouping and column-key code. -/
structure Sorters where
  byE : StdSort sort_by_E
  byMult : StdSort sort_by_mult
  byL : StdSort sort_by_L
  byLP : StdSort sort_by_lp

/-! ## Grouping by multiplicity -/

/-- One iteration of the grouping loop: `find(all_multiplets, i.mult)` walks the groups
from the front with `levels_mult::operator==(int)`; the first group of that multiplicity
gets `i` appended to its levels, and when the end is reached a new group
`{i.mult, {}, {i}}` is appended. -/
def push_level (i : level) : List levels_mult → List levels_mult
  | [] => [{ mult := i.mult, multis := [], levels := [i] }]
  | g :: rest =>
    if g.mult = i.mult then { g with levels := g.levels ++ [i] } :: rest
    else g :: push_level i rest

/-- The grouping loop `for (const auto& i : vec_levels)` starting from no group. -/
def group_levels (vec_levels : List level) : List levels_mult :=
  vec_levels.foldl (fun all i => push_level i all) []

/-- The grouping pass: `sort(vec_levels, sort_by_E)`, the loop, `sort(all_multiplets, sort_by_mult)`. -/
def grouping (S : Sorters) (vec_levels : List level) : List levels_mult :=
  S.byMult.run (group_levels (S.byE.run vec_levels))

/-! ## Column keys and total number of columns -/

/-- Index `it - multis.begin()` of `find(multis.begin(), multis.end(), lp)`;
the length of `multis` when nothing compares equal (`it == multis.end()`). -/
def find_lp (multis : List mul_lp) (lp : mul_lp) : Nat :=
  multis.findIdx (fun m => mul_lp_eq m lp)

/-- One iteration of the loop over the levels of a group: the key of `j` is appended to
`multis` unless `find` already finds an equal one. -/
def add_key (multis : List mul_lp) (j : level) : List mul_lp :=
  let mlp : mul_lp := { mult := j.mult, l := j.l, p := j.p }
  if find_lp multis mlp = multis.length then multis ++ [mlp] else multis

/-- Body of `for (auto& i : all_multiplets)`: sort the levels by `sort_by_L`, collect the
keys, sort them by `sort_by_lp`. -/
def column_keys (S : Sorters) (i : levels_mult) : levels_mult :=
  let levels := S.byL.run i.levels
  { mult := i.mult, multis := S.byLP.run (levels.foldl add_key i.multis), levels := levels }

/-- The vector `all_multiplets` after the column-key loop. -/
def all_multiplets (S : Sorters) (vec_levels : List level) : List levels_mult :=
  (grouping S vec_levels).map (column_keys S)

/-- The counter `total`: initialised with `all_multiplets.size()`, then
`total += i.multis.size()` for every group. -/
def total (S : Sorters) (vec_levels : List level) : Int :=
  (all_multiplets S vec_levels).foldl (fun t i => t + (i.multis.length : Int))
    ((grouping S vec_levels).length : Int)

/-- The column width `unit = 100.0 / total`. -/
def unit (S : Sorters) (vec_levels : List level) : Rat := 100 / (total S vec_levels : Rat)

/-! ## Layout loop -/

/-- The slot `pos = it - i.multis.begin() + before` of the key `lp` in a group whose
running offset is `before`. -/
def slot (before : Int) (multis : List mul_lp) (lp : mul_lp) : Int :=
  (find_lp multis lp : Int) + before

/-- What one iteration of the layout loop `for (const auto& i : all_multiplets)` computes
for the group `i` (the x coordinates and slots; the y coordinates are the level energies
and constants of the ionisation limit). -/
structure group_layout where
  /-- the group `i` -/
  group : levels_mult
  /-- value of `before` at the start of the iteration -/
  before : Int
  /-- `width = i.multis.size()` -/
  width : Int
  /-- separator position `xpos = unit * (0.5 + before + width + 0.5)` -/
  xpos : Rat
  /-- the separator line is written (`xpos < 100`) -/
  sep : Bool
  /-- x position of the spin label -/
  label_x : Rat
  /-- the printed spin `(i.mult - 1.0) * 0.5` -/
  spin : Rat
  /-- top labels: key, `before + top_offset`, `xlabelpos` -/
  top : List (mul_lp × Int × Rat)
  /-- level ticks: level, `pos`, `xlevelpos` -/
  ticks : List (level × Int × Rat)
deriving DecidableEq

/-- One iteration of the layout loop. In the levels loop the source leaves `lp.mult`
unset; `operator==` does not read it, here it carries the level's multiplicity. -/
def layout_group (unit offset : Rat) (before : Int) (i : levels_mult) : group_layout :=
  let width : Int := (i.multis.length : Int)
  let xpos : Rat := unit * (0.5 + (before : Rat) + (width : Rat) + 0.5)
  { group := i
    before := before
    width := width
    xpos := xpos
    sep := decide (xpos < 100)
    label_x := unit * (before : Rat) + (unit * (width : Rat) * 0.5) + unit * 0.5
    spin := ((i.mult : Rat) - 1.0) * 0.5
    top := i.multis.enum.map (fun tj =>
      (tj.2, before + (tj.1 : Int), unit * ((before : Rat) + (tj.1 : Rat) + 0.5 + 0.4)))
    ticks := i.levels.map (fun j =>
      let lp : mul_lp := { mult := j.mult, l := j.l, p := j.p }
      let pos : Int := slot before i.multis lp
      (j, pos, unit * ((pos : Rat) + 0.5 + 0.5) + offset * unit)) }

/-- The layout loop with its running offset: `before += width + 1` after each group. -/
def layout_loop (unit offset : Rat) : Int → List levels_mult → List group_layout
  | _, [] => []
  | before, i :: rest =>
    layout_group unit offset before i ::
      layout_loop unit offset (before + (i.multis.length : Int) + 1) rest

/-- The layout of a run: the loop started with `before = 0` on `all_multiplets`. -/
def layout (S : Sorters) (offset : Rat) (vec_levels : List level) : List group_layout :=
  layout_loop (unit S vec_levels) offset 0 (all_multiplets S vec_levels)

/-! ## A concrete `std::sort` -/

/-- Insertion sort meets the contract of `std::sort` for every comparator that is a
strict weak ordering (given here as totality and transitivity of "not greater"). -/
def insertion_sort {α : Type} (comp : α → α → Bool)
    (tot : ∀ a b, comp b a = false ∨ comp a b = false)
    (tr : ∀ a b c, comp b a = false → comp c b = false → comp c a = false) : StdSort comp :=
  { run := List.insertionSort (fun a b => comp b a = false)
    perm := fun xs => List.perm_insertionSort _ xs
    sorted := fun xs =>
      haveI : IsTotal α (fun a b => comp b a = false) := ⟨tot⟩
      haveI : IsTrans α (fun a b => comp b a = false) := ⟨tr⟩
      List.sorted_insertionSort (fun a b => comp b a = false) xs }

/-- The four sorts of the tool, realised by insertion sort. -/
def insertion_sorters : Sorters :=
  { byE := insertion_sort sort_by_E
      (by intro a b; simp only [sort_by_E, decide_eq_false_iff_not, not_lt]; exact le_total _ _)
      (by intro a b c; simp only [sort_by_E, decide_eq_false_iff_not, not_lt]; exact le_trans)
    byMult := insertion_sort sort_by_mult
      (by intro a b; simp only [sort_by_mult, decide_eq_false_iff_not, not_lt]; exact le_total _ _)
      (by intro a b c; simp only [sort_by_mult, decide_eq_false_iff_not, not_lt]; exact le_trans)
    byL := insertion_sort sort_by_L
      (by
        intro a b
        simp only [sort_by_L]
        rcases lt_trichotomy a.l b.l with h | h | h
        · left; simp [h.ne', h.le]
        · rcases le_total a.energy b.energy with h2 | h2
          · left; simp [h, not_lt.mpr h2]
          · right; simp [h, not_lt.mpr h2]
        · right; simp [h.ne', h.le])
      (by
        intro a b c
        simp only [sort_by_L]
        split_ifs <;> simp only [decide_eq_false_iff_not, not_lt] <;> intros <;>
          first | omega | (exact le_trans ‹_› ‹_›))
    byLP := insertion_sort sort_by_lp
      (by
        intro a b
        simp only [sort_by_lp]
        split_ifs <;> simp only [decide_eq_false_iff_not, not_lt] <;> omega)
      (by
        intro a b c
        simp only [sort_by_lp]
        split_ifs <;> simp only [decide_eq_false_iff_not, not_lt] <;> omega) }

/-! ## Sample data -/

/-- Five accepted levels: two singlet levels and three triplet levels, given in an order
that is sorted neither by energy nor by multiplicity. -/
def sample_levels : List level :=
  [{ mult := 3, n := 2, p := 1, l := 1, energy := 5, J := 0, name := "HE12P 3PO",
     conf := "2p", term := "3P", L := "P", parity := "o" },
   { mult := 1, n := 1, p := 0, l := 0, energy := 2, J := 0, name := "HE11S 1S",
     conf := "1s", term := "1S", L := "S", parity := "e" },
   { mult := 3, n := 3, p := 0, l := 1, energy := 7, J := 0, name := "HE13P 3P",
     conf := "3p", term := "3P", L := "P", parity := "e" },
   { mult := 1, n := 3, p := 0, l := 2, energy := 2, J := 0, name := "HE13D 1D",
     conf := "3d", term := "1D", L := "D", parity := "e" },
   { mult := 3, n := 2, p := 0, l := 0, energy := 9, J := 0, name := "HE12S 3S",
     conf := "2s", term := "3S", L := "S", parity := "e" }]

/-- The triplet group that the tool builds from `sample_levels`. -/
def sample_triplet : levels_mult :=
  { mult := 3
    multis := [{ mult := 3, l := 0, p := 0 }, { mult := 3, l := 1, p := 0 },
      { mult := 3, l := 1, p := 1 }]
    levels :=
      [{ mult := 3, n := 2, p := 0, l := 0, energy := 9, J := 0, name := "HE12S 3S",
         conf := "2s", term := "3S", L := "S", parity := "e" },
       { mult := 3, n := 2, p := 1, l := 1, energy := 5, J := 0, name := "HE12P 3PO",
         conf := "2p", term := "3P", L := "P", parity := "o" },
       { mult := 3, n := 3, p := 0, l := 1, energy := 7, J := 0, name := "HE13P 3P",
         conf := "3p", term := "3P", L := "P", parity := "e" }] }

/-- The singlet group that the tool builds from `sample_levels` (both levels have energy 2;
insertion sort keeps their input order). -/
def sample_singlet : levels_mult :=
  { mult := 1
    multis := [{ mult := 1, l := 0, p := 0 }, { mult := 1, l := 2, p := 0 }]
    levels :=
      [{ mult := 1, n := 1, p := 0, l := 0, energy := 2, J := 0, name := "HE11S 1S",
         conf := "1s", term := "1S", L := "S", parity := "e" },
       { mult := 1, n := 3, p := 0, l := 2, energy := 2, J := 0, name := "HE13D 1D",
         conf := "3d", term := "1D", L := "D", parity := "e" }] }

/-- Scenario 3 of the specification: the levels of one multiplicity group with two
column keys. -/
def scenario3_levels : List level :=
  [{ mult := 2, n := 2, p := 1, l := 1, energy := 3, J := 0, name := "LI12P 2PO",
     conf := "2p", term := "2P", L := "P", parity := "o" },
   { mult := 2, n := 2, p := 0, l := 0, energy := 0, J := 0, name := "LI12S 2S",
     conf := "2s", term := "2S", L := "S", parity := "e" }]

/-- The one group that the tool builds from `scenario3_levels`. -/
def scenario3_group : levels_mult :=
  { mult := 2
    multis := [{ mult := 2, l := 0, p := 0 }, { mult := 2, l := 1, p := 1 }]
    levels :=
      [{ mult := 2, n := 2, p := 0, l := 0, energy := 0, J := 0, name := "LI12S 2S",
         conf := "2s", term := "2S", L := "S", parity := "e" },
       { mult := 2, n := 2, p := 1, l := 1, energy := 3, J := 0, name := "LI12P 2PO",
         conf := "2p", term := "2P", L := "P", parity := "o" }] }

/-- Two levels whose discovery order differs from the multiplicity order: the triplet level
has the lower energy, so the grouping loop meets multiplicity 3 before multiplicity 1. -/
def discovery_levels : List level :=
  [{ mult := 1, n := 2, p := 1, l := 1, energy := 5, J := 0, name := "HE12P 1PO",
     conf := "2p", term := "1P", L := "P", parity := "o" },
   { mult := 3, n := 2, p := 0, l := 0, energy := 0, J := 0, name := "HE12S 3S",
     conf := "2s", term := "3S", L := "S", parity := "e" }]

end Grotrian

/-! ## The C++ library, as far as the tools use it -/

namespace Cxx

/-- The test `std::isspace` in the "C" locale: space, `\t`, `\n`, `\v`, `\f`, `\r`. -/
def isspace (c : Char) : Bool :=
  c = ' ' || c = Char.ofNat 9 || c = Char.ofNat 10 || c = Char.ofNat 11 ||
    c = Char.ofNat 12 || c = Char.ofNat 13

/-- Call `s.substr(pos, n)`: `none` stands for the exception `std::out_of_range`, thrown
when `pos > s.size()`. -/
def substr (s : List Char) (pos n : Nat) : Option (List Char) :=
  if pos > s.length then none else some ((s.drop pos).take n)

/-- Call `s.substr(pos)`, the rest of the string from `pos`; `none` when `pos > s.size()`.
The position `std::string::npos` is larger than every size. -/
def substr_from (s : List Char) (pos : Nat) : Option (List Char) :=
  if pos > s.length then none else some (s.drop pos)

/-- Function `ltrim` of toss_to_grotrian.cpp: erase the leading white space. -/
def ltrim (s : List Char) : List Char := s.dropWhile isspace

/-- Function `rtrim` of toss_to_grotrian.cpp: erase the trailing white space. -/
def rtrim (s : List Char) : List Char := (s.reverse.dropWhile isspace).reverse

/-- Function `trim` of toss_to_grotrian.cpp. -/
def trim (s : List Char) : List Char := rtrim (ltrim s)

/-- Reading side of a `std::stringstream`: the unread characters and the state bits. -/
structure istream where
  buf : List Char
  eofbit : Bool
  failbit : Bool
deriving DecidableEq

/-- A stream on the text `s` in good state: `stringstream ss(s)`, or `ss.str(s)` followed
by `ss.clear()`. -/
def istream.of (s : List Char) : istream := { buf := s, eofbit := false, failbit := false }

/-- Member `good()`: no state bit is set. -/
def istream.good (ss : istream) : Bool := !ss.eofbit && !ss.failbit

/-- What the sentry of a formatted extraction does: on a stream that is not good it sets
`failbit` and gives up (`none`); otherwise it skips white space, and when that reaches the
end of the text it sets `eofbit` and `failbit` and gives up. Otherwise the text from the
first character that is not white space is returned. -/
def sentry (ss : istream) : istream ⊕ List Char :=
  if ss.good then
    match ss.buf.dropWhile isspace with
    | [] => Sum.inl { buf := [], eofbit := true, failbit := true }
    | c :: cs => Sum.inr (c :: cs)
  else Sum.inl { ss with failbit := true }

/-- Extraction `ss >> v` for a `std::string v`: when the sentry gives up `v` keeps its value;
otherwise `v` becomes the characters up to the next white space, and `eofbit` is set when
the end of the text was reached while reading them. -/
def get_string (ss : istream) (v : List Char) : List Char × istream :=
  match sentry ss with
  | Sum.inl ss1 => (v, ss1)
  | Sum.inr r =>
    (r.takeWhile (fun c => !isspace c),
      { buf := r.dropWhile (fun c => !isspace c)
        eofbit := (r.dropWhile (fun c => !isspace c)).isEmpty
        failbit := false })

/-- Value of a string of decimal digits. -/
def digits_value (ds : List Char) : Nat :=
  ds.foldl (fun a c => 10 * a + (c.toNat - 48)) 0

/-- Extraction `ss >> v` for an `int v` (C++11): when the sentry gives up `v` keeps its
value; otherwise an optional sign and the decimal digits are read; without any digit
`failbit` is set and zero is stored; a value outside the `int` range stores the nearest
bound and sets `failbit`. -/
def get_int (ss : istream) (v : Int) : Int × istream :=
  match sentry ss with
  | Sum.inl ss1 => (v, ss1)
  | Sum.inr r =>
    let neg : Bool := r.head? = some '-'
    let r1 : List Char := if r.head? = some '-' ∨ r.head? = some '+' then r.drop 1 else r
    let ds : List Char := r1.takeWhile Char.isDigit
    let rest : List Char := r1.dropWhile Char.isDigit
    if ds.isEmpty then (0, { buf := rest, eofbit := rest.isEmpty, failbit := true })
    else
      let n : Int := if neg then -(digits_value ds : Int) else (digits_value ds : Int)
      if n > 2147483647 then
        (2147483647, { buf := rest, eofbit := rest.isEmpty, failbit := true })
      else if n < -2147483648 then
        (-2147483648, { buf := rest, eofbit := rest.isEmpty, failbit := true })
      else (n, { buf := rest, eofbit := rest.isEmpty, failbit := false })

/-- A value of the type `float` or `double` that may have left the finite numbers:
`std::stof` returns an infinity for the text `inf` and a NaN for the text `nan`. The two
zeros are one value here: they compare equal, and of the operations below only a division
by zero tells them apart, in which the divisor counts as `+0.0`. -/
inductive float_value where
  | finite (x : Rat)
  | inf (negative : Bool)
  | nan
deriving DecidableEq

/-- Comparison `a > b` in IEEE arithmetic: a comparison with NaN is false. -/
def float_value.gt : float_value → float_value → Bool
  | float_value.finite x, float_value.finite y => decide (x > y)
  | float_value.finite _, float_value.inf n => n
  | float_value.inf n, float_value.finite _ => !n
  | float_value.inf n, float_value.inf m => !n && m
  | _, _ => false

/-- Comparison `a <= b` in IEEE arithmetic: a comparison with NaN is false. -/
def float_value.le : float_value → float_value → Bool
  | float_value.finite x, float_value.finite y => decide (x ≤ y)
  | float_value.finite _, float_value.inf n => !n
  | float_value.inf n, float_value.finite _ => n
  | float_value.inf n, float_value.inf m => n || !m
  | _, _ => false

/-- Quotient `a / b` in IEEE arithmetic, without rounding: a number over zero is NaN for
zero and else the infinity with the sign of the number, a number over an infinity is zero,
an infinity over a number is an infinity, everything else is NaN. -/
def float_value.div : float_value → float_value → float_value
  | float_value.finite x, float_value.finite y =>
    if y = 0 then (if x = 0 then float_value.nan else float_value.inf (decide (x < 0)))
    else float_value.finite (x / y)
  | float_value.finite _, float_value.inf _ => float_value.finite 0
  | float_value.inf n, float_value.finite y => float_value.inf (n != decide (y < 0))
  | _, _ => float_value.nan

/-- Result of `std::stof`: the value returned, or the exception thrown. -/
inductive stof_result where
  | value (x : float_value)
  | invalid_argument
  | out_of_range
deriving DecidableEq

/-- The numeric library functions whose results are not fixed by the embedding: the
conversion of text to `double` done by `operator>>` (`num_get`), `std::stof`, `log10` and
`pow`. The theorems hold for every choice of them. -/
structure Lib where
  /-- conversion by `num_get` on the text after the skipped white space: the value and the
  unread rest, or `none` when the text does not start with a number -/
  num_get : List Char → Option (Rat × List Char)
  /-- the call `std::stof(s)` -/
  stof : List Char → stof_result
  /-- the call `log10(x)` -/
  log10 : Rat → Rat
  /-- the call `pow(x, y)` -/
  pow : Rat → Rat → Rat

/-- Extraction `ss >> v` for a `double v` (C++11): when the sentry gives up `v` keeps its
value; a failed conversion stores zero and sets `failbit`. -/
def get_double (lib : Lib) (ss : istream) (v : Rat) : Rat × istream :=
  match sentry ss with
  | Sum.inl ss1 => (v, ss1)
  | Sum.inr r =>
    match lib.num_get r with
    | none => (0, { buf := r, eofbit := false, failbit := true })
    | some (x, rest) => (x, { buf := rest, eofbit := rest.isEmpty, failbit := false })

/-- What `ss.str()` returns after `ss.str(a); ss << b;`: `str(a)` puts the write position at
the start of the text (the stream is not opened with `ios::ate`), so the characters of `b`
overwrite the first characters of `a`. -/
def str_put (a b : List Char) : List Char := b ++ a.drop b.length

/-- The decimal digits that `operator<<` writes for a natural number, least significant
digit first, with `fuel` bounding the number of digits. -/
def nat_digits_rev : Nat → Nat → List Char
  | 0, _ => []
  | fuel + 1, n =>
    if n < 10 then [Char.ofNat (48 + n)]
    else Char.ofNat (48 + n % 10) :: nat_digits_rev fuel (n / 10)

/-- The text that `operator<<` writes for an `int`. -/
def put_int (n : Int) : List Char :=
  if n < 0 then '-' :: (nat_digits_rev (n.natAbs + 1) n.natAbs).reverse
  else (nat_digits_rev (n.natAbs + 1) n.natAbs).reverse

end Cxx

namespace Grotrian

/-! ## Reading levels and lines (both Grotrian tools) -/

/-- Record `struct transition` of the Grotrian tools. -/
structure transition where
  low : level
  up : level
  wvl : Rat
  gf : Rat
  gA : Rat
  name : String
deriving DecidableEq

/-- Comparator `sort_by_wvl`: `transition::operator()`, by wavelength, then by `gf`. -/
def sort_by_wvl (i j : transition) : Bool :=
  if i.wvl = j.wvl then decide (i.gf < j.gf) else decide (i.wvl < j.wvl)

/-- The variables that the option loop of `main` sets (`offset` and `line_file` exist in
toss_to_grotrian only). -/
structure options where
  skip_e : Rat
  skip_n : Int
  skip_l : Int
  skip_conf : List String
  offset : Rat
  line_file : String

/-- The default values: `skip_e = 9.9e+30`, `skip_n = 26`, `skip_l = 23`, `offset = 0.0`. -/
def default_options : options :=
  { skip_e := 9900000000000000000000000000000
    skip_n := 26
    skip_l := 23
    skip_conf := []
    offset := 0
    line_file := "" }

/-- Why the body of the reading loop ends without a new level: `crash` is an uncaught
`std::out_of_range` from `substr` (the program terminates), `skip` is a `continue`. -/
inductive stop where
  | crash
  | skip
deriving DecidableEq

/-- A `substr` whose exception nothing catches. -/
def or_crash {α : Type} : Option α → Except stop α
  | some a => Except.ok a
  | none => Except.error stop.crash

/-- The threshold test `lev.energy >= skip_e || lev.n >= skip_n || lev.l >= skip_l`. -/
def skip_by_threshold (o : options) (lev : level) : Bool :=
  decide (lev.energy ≥ o.skip_e) || decide (lev.n ≥ o.skip_n) || decide (lev.l ≥ o.skip_l)

/-- The string `ss.str()` that the configuration filter compares with the `c=` tokens,
after `ss.str(lev.term); ss.clear(); ss << lev.parity;`. -/
def conf_key (lev : level) : String :=
  String.mk (Cxx.str_put lev.term.data lev.parity.data)

/-- The loop `for (const auto& x : skip_conf) if (x == ss.str()) { skip = true; break; }`. -/
def skip_by_conf (o : options) (lev : level) : Bool :=
  o.skip_conf.any (fun x => decide (x = conf_key lev))

/-- The two filters at the end of the loop body: a level that passed the field checks is
pushed to `vec_levels` unless one of them says `continue`. -/
def filter_level (o : options) (lev : level) : Except stop level :=
  if skip_by_threshold o lev then Except.error stop.skip
  else if skip_by_conf o lev then Except.error stop.skip
  else Except.ok lev

/-! ### toss_to_grotrian: the level file -/

/-- Position `line.find_first_of(" ")`; `none` is `std::string::npos`. -/
def find_first_of_space (line : List Char) : Option Nat :=
  if line.findIdx (fun c => c = ' ') < line.length then
    some (line.findIdx (fun c => c = ' '))
  else none

/-- The field extraction and field checks of one line of the TOSS level file (the loop body
up to the parity check). `junk` holds the indeterminate initial contents of the local
`level lev`, which an extraction that the sentry refuses leaves in place. -/
def toss_parse_level (lib : Cxx.Lib) (junk : level) (line0 : List Char) : Except stop level := do
  let line := Cxx.trim line0
  let energy := (Cxx.get_double lib (Cxx.istream.of line) junk.energy).1
  let rest0 ← or_crash ((find_first_of_space line).bind (fun pos => Cxx.substr_from line pos))
  let rest := Cxx.trim rest0
  let term0 ← or_crash (Cxx.substr rest 7 2)
  let term := term0.map Char.toUpper
  let conf0 ← or_crash (Cxx.substr rest 3 3)
  let conf := conf0.map Char.toLower
  let jtext ← or_crash (Cxx.substr rest 6 1)
  let J := (Cxx.get_double lib (Cxx.istream.of jtext) junk.J).1
  let mtext ← or_crash (Cxx.substr term 0 1)
  let mult := (Cxx.get_int (Cxx.istream.of mtext) junk.mult).1
  if mult < 1 ∨ mult > 9 then Except.error stop.skip
  else do
    let L ← or_crash (Cxx.substr term 1 1)
    let l := det_L (L.headD (Char.ofNat 0))
    if l < 0 then Except.error stop.skip
    else do
      let ntext ← or_crash (Cxx.substr conf 0 2)
      let n := (Cxx.get_int (Cxx.istream.of ntext) junk.n).1
      let p ← or_crash (Cxx.substr rest 9 1)
      if p = ['O'] ∨ p = ['o'] then
        Except.ok { mult := mult, n := n, p := 1, l := l, energy := energy, J := J,
                    name := String.mk rest, conf := String.mk conf, term := String.mk term,
                    L := String.mk L, parity := "o" }
      else if p = [' '] ∨ p.length = 0 then
        Except.ok { mult := mult, n := n, p := 0, l := l, energy := energy, J := J,
                    name := String.mk rest, conf := String.mk conf, term := String.mk term,
                    L := String.mk L, parity := "e" }
      else Except.error stop.skip

/-- The whole body of `while (getline(in, line))` for the level file. -/
def toss_read_level (lib : Cxx.Lib) (o : options) (junk : level) (line : List Char) :
    Except stop level :=
  (toss_parse_level lib junk line).bind (filter_level o)

/-- The loop `while (getline(in, line))` over the lines of the level file; `junk k` is the
indeterminate `lev` of iteration `k`. The result is `none` when a line crashes the
program. -/
def toss_read_levels (lib : Cxx.Lib) (o : options) (junk : Nat → level) :
    Nat → List (List Char) → List level → Option (List level)
  | _, [], vec_levels => some vec_levels
  | k, line :: rest, vec_levels =>
    match toss_read_level lib o (junk k) line with
    | Except.ok lev => toss_read_levels lib o junk (k + 1) rest (vec_levels ++ [lev])
    | Except.error stop.skip => toss_read_levels lib o junk (k + 1) rest vec_levels
    | Except.error stop.crash => none

/-! ### toss_to_grotrian: the line file -/

/-- The indeterminate initial contents of the `double` locals of one iteration of the
line-file loop of toss_to_grotrian. -/
structure line_junk where
  wvl : Rat
  e_low : Rat
  j_low : Rat
  e_up : Rat
  j_up : Rat
  loggf : Rat
  gA : Rat

/-- The chain of extractions
`ss >> tr.wvl >> e_low >> p_low >> j_low >> e_up >> p_up >> j_up >> loggf >> tr.gA` of the
line-file loop of toss_to_grotrian: the values of the `double` locals after it. -/
def toss_extract_line (lib : Cxx.Lib) (junk : line_junk) (line : List Char) : line_junk :=
  let r1 := Cxx.get_double lib (Cxx.istream.of line) junk.wvl
  let r2 := Cxx.get_double lib r1.2 junk.e_low
  let r3 := Cxx.get_string r2.2 []
  let r4 := Cxx.get_double lib r3.2 junk.j_low
  let r5 := Cxx.get_double lib r4.2 junk.e_up
  let r6 := Cxx.get_string r5.2 []
  let r7 := Cxx.get_double lib r6.2 junk.j_up
  let r8 := Cxx.get_double lib r7.2 junk.loggf
  let r9 := Cxx.get_double lib r8.2 junk.gA
  { wvl := r1.1, e_low := r2.1, j_low := r4.1, e_up := r5.1, j_up := r7.1, loggf := r8.1,
    gA := r9.1 }

/-- Body of the loop over the line file of toss_to_grotrian: the extractions, then the two
searches `find(vec_levels, e_low)`, `find(vec_levels, e_up)` with
`level::operator==(const double&)`. The result is `none` when a search fails
(`continue`). -/
def toss_read_line (lib : Cxx.Lib) (vec_levels : List level) (junk : line_junk)
    (line : List Char) : Option transition :=
  match vec_levels.find? (fun x => decide (x.energy = (toss_extract_line lib junk line).e_low))
    with
  | none => none
  | some low =>
    match vec_levels.find?
      (fun x => decide (x.energy = (toss_extract_line lib junk line).e_up)) with
    | none => none
    | some up =>
      some { low := low, up := up, wvl := (toss_extract_line lib junk line).wvl,
             gf := lib.pow 10 (toss_extract_line lib junk line).loggf,
             gA := (toss_extract_line lib junk line).gA, name := String.mk line }

/-- The loop over the lines of the line file. -/
def toss_read_lines (lib : Cxx.Lib) (vec_levels : List level) (junk : Nat → line_junk) :
    Nat → List (List Char) → List transition → List transition
  | _, [], vec_lines => vec_lines
  | k, line :: rest, vec_lines =>
    match toss_read_line lib vec_levels (junk k) line with
    | some tr => toss_read_lines lib vec_levels junk (k + 1) rest (vec_lines ++ [tr])
    | none => toss_read_lines lib vec_levels junk (k + 1) rest vec_lines

/-! ### tmad_to_grotrian: the state machine -/

/-- The states `enum state`. -/
inductive state where
  | SEARCH_ATOM
  | READ_ATOM
  | SEARCH_CONTENT
  | READ_LEVELS
  | READ_RBB
deriving DecidableEq

/-- The variables of `main` of tmad_to_grotrian that live across the lines of the file. -/
structure tmad_vars where
  s : state
  atom : List Char
  alen : Int
  charge : Int
  ionlimit : Rat
  vec_levels : List level
  vec_lines : List transition

/-- The indeterminate initial contents of the locals of one iteration: the numeric fields
of `level le` and the variables `eHz`, `g`, `tr.gf`. -/
structure tmad_junk where
  le : level
  eHz : Rat
  g : Rat
  gf : Rat

/-- The constant `c = 2.99792458e10`. -/
def c_light : Rat := 29979245800

/-- An `int` or negative count converted to `size_t` (64 bit). -/
def to_size_t (n : Int) : Nat := (n % 18446744073709551616).toNat

/-- The field extraction and field checks of one line in state `READ_LEVELS`, up to the
extraction of `eHz` and `g`: the level without its energy, and `eHz`. -/
def tmad_parse_level (lib : Cxx.Lib) (alen : Int) (junk : tmad_junk) (line : List Char) :
    Except stop (level × Rat) := do
  let ctext ← or_crash (Cxx.substr line (to_size_t alen) (to_size_t (7 - alen)))
  let conf := ((Cxx.get_string (Cxx.istream.of ctext) []).1).map Char.toLower
  let n := (Cxx.get_int (Cxx.istream.of (conf.take 2)) junk.le.n).1
  let ttext ← or_crash (Cxx.substr line 7 3)
  let term0 := (Cxx.get_string (Cxx.istream.of ttext) []).1
  if term0.length = 2 ∨ term0.length = 3 then
    let term := term0.take 2
    let mult := (Cxx.get_int (Cxx.istream.of (term.take 1)) junk.le.mult).1
    if mult < 1 ∨ mult > 9 then Except.error stop.skip
    else
      let L := (term.drop 1).take 1
      let l := det_L (L.headD (Char.ofNat 0))
      if l < 0 then Except.error stop.skip
      else do
        let rtext ← or_crash (Cxx.substr_from line 20)
        let r1 := Cxx.get_double lib (Cxx.istream.of rtext) junk.eHz
        let r2 := Cxx.get_double lib r1.2 junk.g
        Except.ok
          ({ mult := mult, n := n, p := if term0.length = 2 then 0 else 1, l := l,
             energy := junk.le.energy, J := (r2.1 - 1) / 2,
             name := String.mk (line.take 10), conf := String.mk conf,
             term := String.mk term, L := String.mk L,
             parity := if term0.length = 2 then "e" else "o" }, r1.1)
  else Except.error stop.skip

/-- Case `READ_LEVELS` for a line other than `"0"`: the ionisation limit is taken from the
line while `vec_levels` is empty, the energy is set, the filters decide. `none` is a
crash. -/
def tmad_read_level (lib : Cxx.Lib) (o : options) (junk : tmad_junk) (v : tmad_vars)
    (line : List Char) : Option tmad_vars :=
  match tmad_parse_level lib v.alen junk line with
  | Except.error stop.crash => none
  | Except.error stop.skip => some v
  | Except.ok (le0, eHz) =>
    let ionlimit := if v.vec_levels.length = 0 then eHz / c_light else v.ionlimit
    let le : level := { le0 with energy := ionlimit - eHz / c_light }
    match filter_level o le with
    | Except.ok lev => some { v with ionlimit := ionlimit, vec_levels := v.vec_levels ++ [lev] }
    | Except.error _ => some { v with ionlimit := ionlimit }

/-- Case `READ_RBB` for a line other than `"0"`: the two searches by name with
`level::operator==(const string&)`, then the transition. `none` is a crash. -/
def tmad_read_rbb (lib : Cxx.Lib) (junk : tmad_junk) (v : tmad_vars) (line : List Char) :
    Option tmad_vars :=
  match v.vec_levels.find? (fun x => decide (x.name = String.mk (line.take 10))) with
  | none => some v
  | some low =>
    match Cxx.substr line 10 10 with
    | none => none
    | some n2 =>
      match v.vec_levels.find? (fun x => decide (x.name = String.mk n2)) with
      | none => some v
      | some up =>
        match Cxx.substr_from line 20 with
        | none => none
        | some rtext =>
          let wvl := lib.pow 10 8 / (up.energy - low.energy)
          let r1 := Cxx.get_double lib (Cxx.istream.of rtext) junk.gf
          let r2 := Cxx.get_double lib r1.2 r1.1
          let r3 := Cxx.get_double lib r2.2 r2.1
          let gf := (low.J * 2 + 1) * r3.1
          some { v with vec_lines := v.vec_lines ++
            [{ low := low, up := up, wvl := wvl, gf := gf,
               gA := gf / (149919 / 1000000000000000000000) / wvl / wvl,
               name := String.mk line }] }

/-- Case `READ_ATOM`: `ss >> atom; ss >> charge;`, then the length of the element code. -/
def tmad_read_atom (v : tmad_vars) (line : List Char) : tmad_vars :=
  let r1 := Cxx.get_string (Cxx.istream.of line) v.atom
  let r2 := Cxx.get_int r1.2 v.charge
  if r1.1.length = 2 then
    { v with atom := r1.1, charge := r2.1, alen := 3, s := state.SEARCH_CONTENT }
  else
    { v with atom := r1.1 ++ Cxx.put_int (r2.1 + 1), charge := r2.1,
             alen := ((r1.1 ++ Cxx.put_int (r2.1 + 1)).length : Int),
             s := state.SEARCH_CONTENT }

/-- One iteration of `while (getline(in, line))` of tmad_to_grotrian; `none` is a crash. -/
def tmad_step (lib : Cxx.Lib) (o : options) (junk : tmad_junk) (v : tmad_vars)
    (line : List Char) : Option tmad_vars :=
  if line.take 1 = ['.'] then some v
  else
    match v.s with
    | state.SEARCH_ATOM =>
      if line.take 4 = ['A', 'T', 'O', 'M'] then some { v with s := state.READ_ATOM }
      else some v
    | state.READ_ATOM => some (tmad_read_atom v line)
    | state.SEARCH_CONTENT =>
      if line = ['L'] then some { v with s := state.READ_LEVELS }
      else if line = ['L', 'T', 'E'] then some { v with s := state.READ_LEVELS }
      else if line = ['R', 'B', 'B'] then some { v with s := state.READ_RBB }
      else some v
    | state.READ_LEVELS =>
      if line = ['0'] then some { v with s := state.SEARCH_CONTENT }
      else tmad_read_level lib o junk v line
    | state.READ_RBB =>
      if line = ['0'] then some { v with s := state.SEARCH_CONTENT }
      else tmad_read_rbb lib junk v line

/-- The loop over the lines of the TMAD file. -/
def tmad_read (lib : Cxx.Lib) (o : options) (junk : Nat → tmad_junk) :
    Nat → List (List Char) → tmad_vars → Option tmad_vars
  | _, [], v => some v
  | k, line :: rest, v =>
    match tmad_step lib o (junk k) v line with
    | some v1 => tmad_read lib o junk (k + 1) rest v1
    | none => none

/-- The variables before the first line: `s = SEARCH_ATOM`, empty vectors, and the
indeterminate `alen`, `charge`, `ionlimit`. -/
def tmad_init (alen charge : Int) (ionlimit : Rat) : tmad_vars :=
  { s := state.SEARCH_ATOM, atom := [], alen := alen, charge := charge,
    ionlimit := ionlimit, vec_levels := [], vec_lines := [] }

/-! ### The diagram and `main` -/

/-- The lambda `getxpos`: walk the groups, at the group of the level's multiplicity return
the index of its key plus `ibefore`; `res = 0` when no group matches. -/
def getxpos_loop (lev : level) : Int → List levels_mult → Int
  | _, [] => 0
  | ibefore, j :: rest =>
    if lev.mult = j.mult then
      (find_lp j.multis { mult := lev.mult, l := lev.l, p := lev.p } : Int) + ibefore
    else getxpos_loop lev (ibefore + (j.multis.length : Int) + 1) rest

/-- The call `getxpos(lev)`. -/
def getxpos (all : List levels_mult) (lev : level) : Int := getxpos_loop lev 0 all

/-- What `main` computes for the plot once at least one level is accepted. -/
structure diagram where
  ionlimit : Rat
  all_multiplets : List levels_mult
  total : Int
  unit : Rat
  layout : List group_layout
  /-- connecting lines: `lowpos`, `low.energy`, `highpos`, `up.energy` -/
  lines : List (Rat × Rat × Rat × Rat)

/-- The part of `main` after the no-levels check: grouping, column keys, `total`, `unit`,
the layout loop and the connecting lines. -/
def draw (S : Sorters) (offset ionlimit : Rat) (vec_levels : List level)
    (vec_lines : List transition) : diagram :=
  { ionlimit := ionlimit
    all_multiplets := all_multiplets S vec_levels
    total := total S vec_levels
    unit := unit S vec_levels
    layout := layout S offset vec_levels
    lines := vec_lines.map (fun i =>
      (unit S vec_levels * ((getxpos (all_multiplets S vec_levels) i.low : Rat) + 0.85),
        i.low.energy,
        unit S vec_levels * ((getxpos (all_multiplets S vec_levels) i.up : Rat) + 0.85),
        i.up.energy)) }

/-- What a run writes. -/
inductive output where
  | usage
  | could_not_open
  | found_no_levels
  | plot (d : diagram)

/-- How a run ends: terminated by an uncaught exception, or `return code`. -/
inductive run_result where
  | crash
  | exit (code : Int) (out : output)

/-- Function `main` of tmad_to_grotrian after the option loop; `file` is `none` when the
file cannot be opened, else its lines. -/
def tmad_main (lib : Cxx.Lib) (S : Sorters) (o : options) (file : Option (List (List Char)))
    (alen charge : Int) (ionlimit : Rat) (junk : Nat → tmad_junk) : run_result :=
  match file with
  | none => run_result.exit 0 output.could_not_open
  | some lines =>
    match tmad_read lib o junk 0 lines (tmad_init alen charge ionlimit) with
    | none => run_result.crash
    | some v =>
      if v.vec_levels.length < 1 then run_result.exit 0 output.found_no_levels
      else run_result.exit 0 (output.plot (draw S 0 v.ionlimit v.vec_levels v.vec_lines))

/-- Function `main` of toss_to_grotrian after the option loop; `ionlimit` is the value read
from `argv[2]`, `W` the sort of the lines by `sort_by_wvl`. -/
def toss_main (lib : Cxx.Lib) (S : Sorters) (W : StdSort sort_by_wvl) (o : options)
    (ionlimit : Rat) (level_file line_file : Option (List (List Char)))
    (junk : Nat → level) (ljunk : Nat → line_junk) : run_result :=
  match level_file with
  | none => run_result.exit (-1) output.could_not_open
  | some lines =>
    match toss_read_levels lib o junk 0 lines [] with
    | none => run_result.crash
    | some vec_levels =>
      if vec_levels.length < 1 then run_result.exit (-1) output.found_no_levels
      else
        let vec_lines :=
          match line_file with
          | none => []
          | some ll => toss_read_lines lib vec_levels ljunk 0 ll []
        run_result.exit 0 (output.plot (draw S o.offset ionlimit vec_levels
          (if vec_lines.length < 1 then [] else W.run vec_lines)))

end Grotrian

/-! ## adamant_to_toss -/

namespace Adamant

/-- Record `struct level` of adamant_to_toss.cpp. -/
structure level where
  id : Int
  config : List Char
  energy : Rat
  J : Rat
  parity : List Char
deriving DecidableEq

/-- The default constructor `level()`: id 0, empty config, energy 0, J 0, parity `"?"`. -/
def level_default : level :=
  { id := 0, config := [], energy := 0, J := 0, parity := ['?'] }

/-- Record `struct transition` of adamant_to_toss.cpp. -/
structure transition where
  wvl : Rat
  low : level
  up : level
  loggf : Rat
  gA : Rat
deriving DecidableEq

/-- The indeterminate initial contents of the locals `id`, `E`, `J` of the level loop. -/
structure level_junk where
  id : Int
  E : Rat
  J : Rat

/-- Body of the level loop: `s >> id >> E >> J >> P >> conf >> conf`, then
`level{id, conf, E, J, P}`. -/
def read_level (lib : Cxx.Lib) (junk : level_junk) (line : List Char) : level :=
  let r1 := Cxx.get_int (Cxx.istream.of line) junk.id
  let r2 := Cxx.get_double lib r1.2 junk.E
  let r3 := Cxx.get_double lib r2.2 junk.J
  let r4 := Cxx.get_string r3.2 []
  let r5 := Cxx.get_string r4.2 []
  let r6 := Cxx.get_string r5.2 r5.1
  { id := r1.1, config := r6.1, energy := r2.1, J := r3.1, parity := r4.1 }

/-- The level table: one level per line of the level file. -/
def read_levels (lib : Cxx.Lib) (junk : Nat → level_junk) (lines : List (List Char)) :
    List level :=
  lines.enum.map (fun kl => read_level lib (junk kl.1) kl.2)

/-- The numeric locals of one iteration of the transition loop (`id_low`, `id_up`, `wvl`,
`A`, `gf`): their indeterminate initial contents, or their values after the extraction. -/
structure line_vars where
  id_low : Int
  id_up : Int
  wvl : Rat
  A : Rat
  gf : Rat

/-- The extraction `s >> id_low >> s1 >> id_up >> s1 >> s1 >> wvl >> A >> gf`. -/
def read_line (lib : Cxx.Lib) (junk : line_vars) (line : List Char) : line_vars :=
  let r1 := Cxx.get_int (Cxx.istream.of line) junk.id_low
  let r2 := Cxx.get_string r1.2 []
  let r3 := Cxx.get_int r2.2 junk.id_up
  let r4 := Cxx.get_string r3.2 r2.1
  let r5 := Cxx.get_string r4.2 r4.1
  let r6 := Cxx.get_double lib r5.2 junk.wvl
  let r7 := Cxx.get_double lib r6.2 junk.A
  let r8 := Cxx.get_double lib r7.2 junk.gf
  { id_low := r1.1, id_up := r3.1, wvl := r6.1, A := r7.1, gf := r8.1 }

/-- The variables `found`, `l_low`, `l_up` of the search loop. -/
structure search where
  found : Int
  l_low : level
  l_up : level
deriving DecidableEq

/-- Body of `for (const level& elem : vec_levels)`; after `found == 2` the loop has left
(`break`), so nothing changes any more. -/
def search_step (id_low id_up : Int) (st : search) (elem : level) : search :=
  if st.found = 2 then st
  else if id_low = elem.id ∨ id_up = elem.id then
    if st.found + 1 = 1 then { found := st.found + 1, l_low := elem, l_up := st.l_up }
    else if st.l_low.energy > elem.energy then
      { found := st.found + 1, l_low := elem, l_up := st.l_low }
    else { found := st.found + 1, l_low := st.l_low, l_up := elem }
  else st

/-- The search loop, started with `found = 0` and two default-constructed levels. -/
def search_levels (vec_levels : List level) (id_low id_up : Int) : search :=
  vec_levels.foldl (search_step id_low id_up)
    { found := 0, l_low := level_default, l_up := level_default }

/-- The transition loop on the extracted values of the lines: `none` is `return 1`
(`found != 2`), otherwise the vector `vec_lines` after the last line. -/
def add_lines (lib : Cxx.Lib) (vec_levels : List level) :
    List line_vars → List transition → Option (List transition)
  | [], vec_lines => some vec_lines
  | lv :: rest, vec_lines =>
    if (search_levels vec_levels lv.id_low lv.id_up).found ≠ 2 then none
    else
      add_lines lib vec_levels rest (vec_lines ++
        [{ wvl := lv.wvl
           low := (search_levels vec_levels lv.id_low lv.id_up).l_low
           up := (search_levels vec_levels lv.id_low lv.id_up).l_up
           loggf := lib.log10 lv.gf
           gA := lv.A * (2 * (search_levels vec_levels lv.id_low lv.id_up).l_up.J + 1) }])

/-- The lambda of the final `std::sort`: `lhs.wvl < rhs.wvl`. -/
def by_wvl (lhs rhs : transition) : Bool := decide (lhs.wvl < rhs.wvl)

/-- Function `main` after the argument check, on the level table and the extracted values
of the lines of the line file (`none`: the file cannot be opened): the exit code and the
rows written. -/
def run (lib : Cxx.Lib) (W : Grotrian.StdSort by_wvl) (vec_levels : Option (List level))
    (lines : Option (List line_vars)) : Int × List transition :=
  match vec_levels with
  | none => (-1, [])
  | some levels =>
    match lines with
    | none => (-1, [])
    | some ls =>
      match add_lines lib levels ls [] with
      | none => (1, [])
      | some vec_lines => (0, W.run vec_lines)

/-- Function `main` after the argument check, on the lines of the two files. -/
def main (lib : Cxx.Lib) (W : Grotrian.StdSort by_wvl)
    (level_file line_file : Option (List (List Char)))
    (junk : Nat → level_junk) (ljunk : Nat → line_vars) : Int × List transition :=
  run lib W (level_file.map (read_levels lib junk))
    (line_file.map (fun ls => ls.enum.map (fun kl => read_line lib (ljunk kl.1) kl.2)))

end Adamant

/-! ## nist_to_toss -/

namespace Nist

/-- Record `struct level` of nist_to_toss.cpp. -/
structure level where
  name : List Char
  config : List Char
  term : List Char
  energy : Cxx.float_value
  J : Cxx.float_value
  parity : List Char
deriving DecidableEq

/-- Record `struct transition` of nist_to_toss.cpp. -/
structure transition where
  wvl : Cxx.float_value
  low : level
  up : level
  log_gf : Cxx.float_value
  gA : Cxx.float_value
deriving DecidableEq

/-- The locals of the loop over one line: `bars`, `energies`, `l_low`, `l_up`, `t`. -/
structure line_state where
  bars : Int
  energies : Int
  l_low : level
  l_up : level
  t : transition
deriving DecidableEq

/-- What the body of the token loop does with the line. -/
inductive token_result where
  /-- go on with the next token -/
  | next (st : line_state)
  /-- a `break` without a stored transition -/
  | done
  /-- the block `if (50 == bars)`: the two levels and the transition pushed -/
  | stored (l_low l_up : level) (t : transition)
  /-- an exception that no handler catches (`std::out_of_range` of `std::stof`) -/
  | crash
deriving DecidableEq

/-- The block `if (50 == bars)`: reverse the levels if necessary, store them in the
transition. -/
def finish (st : line_state) : token_result :=
  if st.l_low.energy.gt st.l_up.energy then
    token_result.stored st.l_up st.l_low { st.t with low := st.l_up, up := st.l_low }
  else
    token_result.stored st.l_low st.l_up { st.t with low := st.l_low, up := st.l_up }

/-- The tests after the `switch`: `50 == bars` finishes the line, `99 == bars` leaves it. -/
def after_switch (st : line_state) : token_result :=
  if st.bars = 50 then finish st
  else if st.bars = 99 then token_result.done
  else token_result.next st

/-- A `try { x = std::stof(tmp); } catch (std::invalid_argument) { bars = 99; }`. -/
def try_stof (lib : Cxx.Lib) (tmp : List Char) (st : line_state)
    (set : Cxx.float_value → line_state) : token_result :=
  match lib.stof tmp with
  | Cxx.stof_result.value x => after_switch (set x)
  | Cxx.stof_result.invalid_argument => after_switch { st with bars := 99 }
  | Cxx.stof_result.out_of_range => token_result.crash

/-- The `try` block of the cases 11 and 14: a token with `/` is converted as the quotient
of the parts before and after it, another token by `std::stof`. The result is `none` for
`std::invalid_argument`, and `some none` for `std::out_of_range`. -/
def parse_J (lib : Cxx.Lib) (tmp : List Char) : Option (Option Cxx.float_value) :=
  if tmp.findIdx (fun c => c = '/') < tmp.length then
    match lib.stof (tmp.take (tmp.findIdx (fun c => c = '/'))),
      lib.stof (tmp.drop (tmp.findIdx (fun c => c = '/') + 1)) with
    | Cxx.stof_result.value a, Cxx.stof_result.value b => some (some (a.div b))
    | Cxx.stof_result.out_of_range, _ => some none
    | _, Cxx.stof_result.out_of_range => some none
    | _, _ => none
  else
    match lib.stof tmp with
    | Cxx.stof_result.value a => some (some a)
    | Cxx.stof_result.invalid_argument => none
    | Cxx.stof_result.out_of_range => some none

/-- Body of `while (!ss.eof())` after `ss >> tmp`. -/
def token_step (lib : Cxx.Lib) (st : line_state) (tmp : List Char) : token_result :=
  if tmp.length > 10 ∧ (tmp.drop 1).take 5 = ['-', '-', '-', '-', '-'] then token_result.done
  else if tmp = ['|'] then token_result.next { st with bars := st.bars + 1 }
  else if st.bars = 0 then
    try_stof lib tmp st (fun x => { st with t := { st.t with wvl := x } })
  else if st.bars = 5 then
    try_stof lib tmp st (fun x => { st with t := { st.t with gA := x } })
  else if st.bars = 6 then
    try_stof lib tmp st (fun x => { st with t := { st.t with log_gf := x } })
  else if st.bars = 8 then
    match lib.stof tmp with
    | Cxx.stof_result.value d =>
      if st.energies = 0 then
        after_switch { st with l_low := { st.l_low with energy := d },
                               energies := st.energies + 1 }
      else if st.energies = 1 then
        after_switch { st with l_up := { st.l_up with energy := d },
                               energies := st.energies + 1 }
      else after_switch { st with bars := 99, energies := st.energies + 1 }
    | Cxx.stof_result.invalid_argument => after_switch st
    | Cxx.stof_result.out_of_range => token_result.crash
  else if st.bars = 9 then
    after_switch { st with l_low := { st.l_low with config := tmp.filter (fun c => c ≠ '?') } }
  else if st.bars = 10 then
    after_switch { st with l_low := { st.l_low with
      term := tmp, parity := if '*' ∈ tmp then ['o'] else ['e'] } }
  else if st.bars = 11 then
    match parse_J lib tmp with
    | some (some x) =>
      after_switch { st with l_low := { st.l_low with
        J := x, name := st.l_low.config ++ ['_'] ++ st.l_low.term } }
    | none => after_switch { st with bars := 99 }
    | some none => token_result.crash
  else if st.bars = 12 then
    after_switch { st with l_up := { st.l_up with config := tmp.filter (fun c => c ≠ '?') } }
  else if st.bars = 13 then
    after_switch { st with l_up := { st.l_up with
      term := tmp, parity := if '*' ∈ tmp then ['o'] else ['e'] } }
  else if st.bars = 14 then
    match parse_J lib tmp with
    | some (some x) =>
      after_switch { st with bars := 50, l_up := { st.l_up with
        J := x, name := st.l_up.config ++ ['_'] ++ st.l_up.term } }
    | none => after_switch { st with bars := 99 }
    | some none => token_result.crash
  else after_switch st

/-- The loop `while (!ss.eof()) { ss >> tmp; ... }`; every iteration either reads at least
one character or sets `eofbit`, so `fuel` larger than the length of the line is never
used up. The result is `next` when the line ends without `break`. -/
def token_loop (lib : Cxx.Lib) : Nat → Cxx.istream → List Char → line_state → token_result
  | 0, _, _, st => token_result.next st
  | fuel + 1, ss, tmp, st =>
    if ss.eofbit then token_result.next st
    else
      match token_step lib st (Cxx.get_string ss tmp).1 with
      | token_result.next st1 =>
        token_loop lib fuel (Cxx.get_string ss tmp).2 (Cxx.get_string ss tmp).1 st1
      | r => r

/-- The indeterminate initial contents of the `double` members of `l_low`, `l_up`, `t`. -/
structure line_junk where
  e_low : Cxx.float_value
  J_low : Cxx.float_value
  e_up : Cxx.float_value
  J_up : Cxx.float_value
  wvl : Cxx.float_value
  log_gf : Cxx.float_value
  gA : Cxx.float_value

/-- The locals at the start of a line: counters 0, empty strings, indeterminate numbers. -/
def line_init (junk : line_junk) : line_state :=
  { bars := 0
    energies := 0
    l_low := { name := [], config := [], term := [], energy := junk.e_low, J := junk.J_low,
               parity := [] }
    l_up := { name := [], config := [], term := [], energy := junk.e_up, J := junk.J_up,
              parity := [] }
    t := { wvl := junk.wvl
           low := { name := [], config := [], term := [], energy := junk.e_low,
                    J := junk.J_low, parity := [] }
           up := { name := [], config := [], term := [], energy := junk.e_up, J := junk.J_up,
                   parity := [] }
           log_gf := junk.log_gf
           gA := junk.gA } }

/-- One line of the file. -/
def read_line (lib : Cxx.Lib) (junk : line_junk) (line : List Char) : token_result :=
  token_loop lib (line.length + 2) (Cxx.istream.of line) [] (line_init junk)

/-- The loop over the lines: the vectors `vec_levels` and `vec_trans`, or `none` when a
line crashes the program. -/
def read_lines (lib : Cxx.Lib) (junk : Nat → line_junk) :
    Nat → List (List Char) → List level × List transition →
      Option (List level × List transition)
  | _, [], acc => some acc
  | k, line :: rest, acc =>
    match read_line lib (junk k) line with
    | token_result.stored l_low l_up t =>
      read_lines lib junk (k + 1) rest (acc.1 ++ [l_low, l_up], acc.2 ++ [t])
    | token_result.crash => none
    | _ => read_lines lib junk (k + 1) rest acc

end Nist

/-! ## A concrete numeric library and sample files -/

namespace Cxx

/-- Exact value of a decimal number at the start of `r`: optional sign, digits, optional
fraction, optional exponent `e` or `E` with optional sign and digits. The unread rest is
returned with it; `none` when there is no digit, or no digit after the exponent letter. -/
def decimal_get (r : List Char) : Option (Rat × List Char) :=
  let neg : Bool := r.head? = some '-'
  let r1 : List Char := if r.head? = some '-' ∨ r.head? = some '+' then r.drop 1 else r
  let ip : List Char := r1.takeWhile Char.isDigit
  let r2 : List Char := r1.dropWhile Char.isDigit
  let fp : List Char := if r2.head? = some '.' then (r2.drop 1).takeWhile Char.isDigit else []
  let r3 : List Char := if r2.head? = some '.' then (r2.drop 1).dropWhile Char.isDigit else r2
  if ip.isEmpty && fp.isEmpty then none
  else
    let m : Rat := (digits_value (ip ++ fp) : Rat) / (10 : Rat) ^ fp.length
    let v : Rat := if neg then -m else m
    if r3.head? = some 'e' ∨ r3.head? = some 'E' then
      let r4 : List Char := r3.drop 1
      let eneg : Bool := r4.head? = some '-'
      let r5 : List Char := if r4.head? = some '-' ∨ r4.head? = some '+' then r4.drop 1 else r4
      let ed : List Char := r5.takeWhile Char.isDigit
      if ed.isEmpty then none
      else if eneg then some (v / (10 : Rat) ^ digits_value ed, r5.dropWhile Char.isDigit)
      else some (v * (10 : Rat) ^ digits_value ed, r5.dropWhile Char.isDigit)
    else some (v, r3)

/-- The texts that `strtof`, on which `std::stof` rests, takes for an infinity or a NaN: an
optional sign followed by `inf` or by `nan`, in any case of the letters, at the start of
`r`. -/
def special_get (r : List Char) : Option float_value :=
  let neg : Bool := r.head? = some '-'
  let r1 : List Char := if r.head? = some '-' ∨ r.head? = some '+' then r.drop 1 else r
  if (r1.take 3).map Char.toLower = ['n', 'a', 'n'] then some float_value.nan
  else if (r1.take 3).map Char.toLower = ['i', 'n', 'f'] then some (float_value.inf neg)
  else none

/-- A numeric library in exact arithmetic: decimal conversion without rounding, `stof` on
the leading number of the text or on a leading `inf` or `nan`, `log10` exact on the powers
of ten from 1/100 to 100 (zero elsewhere), `pow` exact for integer exponents (zero
elsewhere). -/
def decimal_lib : Lib :=
  { num_get := decimal_get
    stof := fun s =>
      match decimal_get (s.dropWhile isspace) with
      | some (x, _) => stof_result.value (float_value.finite x)
      | none =>
        match special_get (s.dropWhile isspace) with
        | some v => stof_result.value v
        | none => stof_result.invalid_argument
    log10 := fun x =>
      if x = 1 / 100 then -2 else if x = 1 / 10 then -1 else if x = 1 then 0
      else if x = 10 then 1 else if x = 100 then 2 else 0
    pow := fun x y => if y.den = 1 then x ^ y.num else 0 }

end Cxx

namespace Grotrian

/-- A `level` whose numeric members are all zero, standing for the indeterminate contents
of a local before the first assignment. -/
def level_zero : level :=
  { mult := 0, n := 0, p := 0, l := 0, energy := 0, J := 0, name := "", conf := "",
    term := "", L := "", parity := "" }

/-- A TOSS level line with the name `HE13p_03PO`: configuration `3p_`, J 0, term `3P`,
parity marker `O`. -/
def toss_line_3Po : List Char := "5000.0 HE13p_03PO".data

/-- A TOSS level line whose multiplicity character (character 7 of the name) is blank. -/
def toss_line_blank_mult : List Char := "5000.0 HE13p_0 PO".data

/-- A TMAD file: helium-like header, a level section with the levels `3PO` (raw value
2c) and `3S` (raw value c), and a transition section whose only line names the level
`HE12S  3S ` first and the level `HE12P  3PO` second. -/
def tmad_file : List (List Char) :=
  ["ATOM".data,
   "HE 1".data,
   "L".data,
   "HE12P  3PO          59958491600 3".data,
   "HE12S  3S           29979245800 3".data,
   "0".data,
   "RBB".data,
   "HE12S  3S HE12P  3PO 3 3 0.5".data,
   "0".data]

/-- The sort of the lines of toss_to_grotrian, realised by insertion sort. -/
def insertion_by_wvl : StdSort sort_by_wvl :=
  insertion_sort sort_by_wvl
    (by
      intro a b
      simp only [sort_by_wvl]
      rcases lt_trichotomy a.wvl b.wvl with h | h | h
      · left; simp [h.ne', h.le]
      · rcases le_total a.gf b.gf with h2 | h2
        · left; simp [h, not_lt.mpr h2]
        · right; simp [h, not_lt.mpr h2]
      · right; simp [h.ne', h.le])
    (by
      have key : ∀ x y : transition, sort_by_wvl x y = false ↔
          (y.wvl < x.wvl ∨ (x.wvl = y.wvl ∧ y.gf ≤ x.gf)) := by
        intro x y
        simp only [sort_by_wvl]
        split_ifs with h
        · simp [h]
        · simp only [decide_eq_false_iff_not, not_lt]
          constructor
          · intro h2
            exact Or.inl (lt_of_le_of_ne h2 (Ne.symm h))
          · rintro (h2 | ⟨h2, _⟩)
            · exact h2.le
            · exact absurd h2 h
      intro a b c
      rw [key, key, key]
      rintro (h1 | ⟨e1, g1⟩) (h2 | ⟨e2, g2⟩)
      · left; exact lt_trans h1 h2
      · left; rw [e2]; exact h1
      · left; rw [← e1]; exact h2
      · right; exact ⟨e2.trans e1, le_trans g1 g2⟩)

/-- Indeterminate locals of the TMAD loop, all zero. -/
def tmad_junk_zero : tmad_junk := { le := level_zero, eHz := 0, g := 0, gf := 0 }

/-- Indeterminate locals of the TOSS line loop, all zero. -/
def line_junk_zero : line_junk :=
  { wvl := 0, e_low := 0, j_low := 0, e_up := 0, j_up := 0, loggf := 0, gA := 0 }

/-- The level that the TOSS reader builds from `toss_line_3Po`. -/
def toss_level_3Po : level :=
  { mult := 3, n := 3, p := 1, l := 1, energy := 5000, J := 0, name := "HE13p_03PO",
    conf := "3p_", term := "3P", L := "P", parity := "o" }

/-- The level that the TOSS reader builds from `toss_line_blank_mult` when the unset
`lev.mult` happens to hold 3. -/
def toss_level_blank : level :=
  { mult := 3, n := 3, p := 1, l := 1, energy := 5000, J := 0, name := "HE13p_0 PO",
    conf := "3p_", term := " P", L := "P", parity := "o" }

/-- Indeterminate contents of `lev` as a compiler that reuses the stack slot leaves them:
zero in the first iteration, afterwards the level of the line before. -/
def toss_stale_junk (k : Nat) : level := if k = 0 then level_zero else toss_level_3Po

end Grotrian

namespace Adamant

/-- The final sort of adamant_to_toss, realised by insertion sort. -/
def insertion_by_wvl : Grotrian.StdSort by_wvl :=
  Grotrian.insertion_sort by_wvl
    (by intro a b; simp only [by_wvl, decide_eq_false_iff_not, not_lt]; exact le_total _ _)
    (by intro a b c; simp only [by_wvl, decide_eq_false_iff_not, not_lt]; exact le_trans)

/-- Scenario 1 of the specification: the level file. -/
def scenario1_level_file : List (List Char) :=
  ["1 0.0 0.5 e config1".data, "2 1000.0 1.5 o config2".data]

/-- Scenario 1 of the specification: a line file with one transition between the ids 1 and
2, wavelength 5000.0, A = 1e7, gf = 0.1. -/
def scenario1_line_file : List (List Char) := ["1 - 2 - - 5000.0 1e7 0.1".data]

/-- Level 1 of scenario 1. -/
def scenario1_level1 : level :=
  { id := 1, config := "config1".data, energy := 0, J := 1 / 2, parity := "e".data }

/-- Level 2 of scenario 1. -/
def scenario1_level2 : level :=
  { id := 2, config := "config2".data, energy := 1000, J := 3 / 2, parity := "o".data }

/-- The row of scenario 1. -/
def scenario1_row : transition :=
  { wvl := 5000, low := scenario1_level1, up := scenario1_level2, loggf := -1,
    gA := 40000000 }

/-- The extracted values of a line that gives the id 1 as lower and as upper id. -/
def self_line : line_vars := { id_low := 1, id_up := 1, wvl := 5000, A := 1, gf := 1 }

/-- The extracted values of a line that references the id 3, absent from scenario 1. -/
def missing_line : line_vars := { id_low := 1, id_up := 3, wvl := 5000, A := 1, gf := 1 }

/-- Indeterminate locals of the level loop, all zero. -/
def level_junk_zero : level_junk := { id := 0, E := 0, J := 0 }

/-- Indeterminate locals of the transition loop, all zero. -/
def line_vars_zero : line_vars := { id_low := 0, id_up := 0, wvl := 0, A := 0, gf := 0 }

end Adamant

namespace Nist

/-- Indeterminate locals of a line, all zero. -/
def line_junk_zero : line_junk :=
  { e_low := Cxx.float_value.finite 0, J_low := Cxx.float_value.finite 0
    e_up := Cxx.float_value.finite 0, J_up := Cxx.float_value.finite 0
    wvl := Cxx.float_value.finite 0, log_gf := Cxx.float_value.finite 0
    gA := Cxx.float_value.finite 0 }

end Nist

namespace Grotrian

/-- The transition that tmad_to_grotrian stores for the transition line of `tmad_file`:
`low` is the level named first (energy 1), `up` the level named second (energy 0). -/
def tmad_file_line : transition :=
  { low := { mult := 3, n := 2, p := 0, l := 0, energy := 1, J := 1, name := "HE12S  3S ",
             conf := "2s", term := "3S", L := "S", parity := "e" }
    up := { mult := 3, n := 2, p := 1, l := 1, energy := 0, J := 1, name := "HE12P  3PO",
            conf := "2p", term := "3P", L := "P", parity := "o" }
    wvl := -100000000
    gf := 3 / 2
    gA := 50000 / 49973
    name := "HE12S  3S HE12P  3PO 3 3 0.5" }

/-- A TOSS level file with a singlet S level of energy 0 and the level of
`toss_line_3Po`. -/
def toss_level_file : List (List Char) := ["0.0 HE11s_01S".data, toss_line_3Po]

/-- The first level of `toss_level_file`. -/
def toss_level_1S : level :=
  { mult := 1, n := 1, p := 0, l := 0, energy := 0, J := 0, name := "HE11s_01S",
    conf := "1s_", term := "1S", L := "S", parity := "e" }

/-- A line of a TOSS line file that gives the energy 5000 first and the energy 0
second. -/
def toss_reversed_line : List Char := "2000.0 5000.0 (o) 1.0 0.0 (e) 0.0 -1.0 4.0e7".data

/-- The transition that toss_to_grotrian stores for `toss_reversed_line`. -/
def toss_reversed_stored : transition :=
  { low := toss_level_3Po, up := toss_level_1S, wvl := 2000, gf := 1 / 10, gA := 40000000,
    name := "2000.0 5000.0 (o) 1.0 0.0 (e) 0.0 -1.0 4.0e7" }

/-- The state that the amended claim C20 gives after a line: the raw line decides, a line
starting with `.` is a comment, `ATOM` is matched as a prefix, `L`, `LTE`, `RBB` and `0`
must be the whole line, and the line after the atom header always ends `READ_ATOM`. -/
def amended_next_state (s : state) (line : List Char) : state :=
  if line.head? = some '.' then s
  else
    match s with
    | state.SEARCH_ATOM =>
      if ['A', 'T', 'O', 'M'].isPrefixOf line then state.READ_ATOM else state.SEARCH_ATOM
    | state.READ_ATOM => state.SEARCH_CONTENT
    | state.SEARCH_CONTENT =>
      if line = ['L'] ∨ line = ['L', 'T', 'E'] then state.READ_LEVELS
      else if line = ['R', 'B', 'B'] then state.READ_RBB
      else state.SEARCH_CONTENT
    | state.READ_LEVELS => if line = ['0'] then state.SEARCH_CONTENT else state.READ_LEVELS
    | state.READ_RBB => if line = ['0'] then state.SEARCH_CONTENT else state.READ_RBB

/-- The invariant of a level in the data model of the specification: multiplicity in 1..9,
`l` in 0..20, parity code 0 or 1. -/
def level_invariant (x : level) : Prop :=
  (1 ≤ x.mult ∧ x.mult ≤ 9) ∧ (0 ≤ x.l ∧ x.l ≤ 20) ∧ (x.p = 0 ∨ x.p = 1)

/-! ### The option loop and `main` with its arguments -/

/-- Body of the option loop of tmad_to_grotrian for the argument `s`: `s.substr(0, 2)` is
compared with the four keys, the value is read from `s.substr(2)`. -/
def tmad_option (lib : Cxx.Lib) (o : options) (s : List Char) : options :=
  if s.take 2 = ['e', '='] then
    { o with skip_e := (Cxx.get_double lib (Cxx.istream.of (s.drop 2)) o.skip_e).1 }
  else if s.take 2 = ['n', '='] then
    { o with skip_n := (Cxx.get_int (Cxx.istream.of (s.drop 2)) o.skip_n).1 }
  else if s.take 2 = ['l', '='] then
    { o with skip_l := (Cxx.get_int (Cxx.istream.of (s.drop 2)) o.skip_l).1 }
  else if s.take 2 = ['c', '='] then
    { o with skip_conf := o.skip_conf ++ [String.mk (s.drop 2)] }
  else o

/-- The option loop of tmad_to_grotrian, `for (int i = 3; i < argc; i++)`, started from the
default values; `argv` holds the program name and the arguments. -/
def tmad_options (lib : Cxx.Lib) (argv : List (List Char)) : options :=
  (argv.drop 3).foldl (tmad_option lib) default_options

/-- Body of the option loop of toss_to_grotrian for the argument `s`. -/
def toss_option (lib : Cxx.Lib) (o : options) (s : List Char) : options :=
  if s.take 3 = ['l', 'f', '='] then { o with line_file := String.mk (s.drop 3) }
  else if s.take 2 = ['e', '='] then
    { o with skip_e := (Cxx.get_double lib (Cxx.istream.of (s.drop 2)) o.skip_e).1 }
  else if s.take 2 = ['n', '='] then
    { o with skip_n := (Cxx.get_int (Cxx.istream.of (s.drop 2)) o.skip_n).1 }
  else if s.take 2 = ['l', '='] then
    { o with skip_l := (Cxx.get_int (Cxx.istream.of (s.drop 2)) o.skip_l).1 }
  else if s.take 2 = ['c', '='] then
    { o with skip_conf := o.skip_conf ++ [String.mk (s.drop 2)] }
  else if s.take 4 = ['o', 'f', 'f', '='] then
    { o with offset := (Cxx.get_double lib (Cxx.istream.of (s.drop 4)) o.offset).1 }
  else o

/-- The option loop of toss_to_grotrian, `for (int i = 3; i < argc; i++)`. -/
def toss_options (lib : Cxx.Lib) (argv : List (List Char)) : options :=
  (argv.drop 3).foldl (toss_option lib) default_options

/-- Function `main` of tmad_to_grotrian: the usage text for `argc < 2`, else the option
loop and the rest of `main` on the file `argv[1]`; `fs` gives the lines of a file that can
be opened. -/
def tmad_program (lib : Cxx.Lib) (S : Sorters) (argv : List (List Char))
    (fs : List Char → Option (List (List Char))) (alen charge : Int) (ionlimit : Rat)
    (junk : Nat → tmad_junk) : run_result :=
  if argv.length < 2 then run_result.exit 0 output.usage
  else
    tmad_main lib S (tmad_options lib argv) (fs (argv.getD 1 [])) alen charge ionlimit junk

/-- Function `main` of toss_to_grotrian: the usage text for `argc < 3`, else the
ionisation limit from `argv[2]` (`ionjunk` is the indeterminate content of the variable),
the option loop and the rest of `main` on the level file `argv[1]` and the line file of
the option `lf=`. -/
def toss_program (lib : Cxx.Lib) (S : Sorters) (W : StdSort sort_by_wvl)
    (argv : List (List Char)) (fs : List Char → Option (List (List Char))) (ionjunk : Rat)
    (junk : Nat → level) (ljunk : Nat → line_junk) : run_result :=
  if argv.length < 3 then run_result.exit 0 output.usage
  else
    toss_main lib S W (toss_options lib argv)
      (Cxx.get_double lib (Cxx.istream.of (argv.getD 2 [])) ionjunk).1
      (fs (argv.getD 1 [])) (fs (toss_options lib argv).line_file.data) junk ljunk

/-- The line that the levels loop writes to `ss_levels` for a tick of the layout: from
`xlevelpos - unit * 0.3` to `xlevelpos`, both ends at the energy of the level. -/
def tick_line (unit : Rat) (t : level × Int × Rat) : Rat × Rat × Rat × Rat :=
  (t.2.2 - unit * 0.3, t.1.energy, t.2.2, t.1.energy)

/-- A file system without any file that can be opened. -/
def no_files : List Char → Option (List (List Char)) := fun _ => none

end Grotrian

namespace Adamant

/-- Function `main` of adamant_to_toss: the usage text for `argc < 3`, else the rest of
`main` on the files `argv[1]` and `argv[2]`. -/
def program (lib : Cxx.Lib) (W : Grotrian.StdSort by_wvl) (argv : List (List Char))
    (fs : List Char → Option (List (List Char))) (junk : Nat → level_junk)
    (ljunk : Nat → line_vars) : Int × List transition :=
  if argv.length < 3 then (0, [])
  else main lib W (fs (argv.getD 1 [])) (fs (argv.getD 2 [])) junk ljunk

end Adamant

namespace Nist

/-- What a run of nist_to_toss writes: the usage text, the message that the file cannot be
opened, or the rows of the output file (the listing of the levels on the terminal is not
part of the model). -/
inductive output where
  | usage
  | could_not_open
  | rows (vec_trans : List transition)
deriving DecidableEq

/-- How a run ends: terminated by an uncaught exception, or `return code`. -/
inductive run_result where
  | crash
  | exit (code : Int) (out : output)
deriving DecidableEq

/-- Function `main` of nist_to_toss. -/
def main (lib : Cxx.Lib) (argv : List (List Char))
    (fs : List Char → Option (List (List Char))) (junk : Nat → line_junk) : run_result :=
  if argv.length < 2 then run_result.exit 0 output.usage
  else
    match fs (argv.getD 1 []) with
    | none => run_result.exit 0 output.could_not_open
    | some lines =>
      match read_lines lib junk 0 lines ([], []) with
      | none => run_result.crash
      | some r => run_result.exit 0 (output.rows r.2)

end Nist

/-! ## toss_to_fplot -/

namespace Fplot

/-- The `double` locals of one iteration of the reading loop that the extraction chain
sets. -/
structure line_vars where
  wvl : Rat
  j_low : Rat
  j_up : Rat
  loggf : Rat
  gA : Rat
deriving DecidableEq

/-- The chain `ss >> wvl >> dump >> dump >> j_low >> dump >> dump >> j_up >> loggf >> gA`;
`junk` holds the indeterminate initial contents of the locals. -/
def read_line (lib : Cxx.Lib) (junk : line_vars) (line : List Char) : line_vars :=
  let r1 := Cxx.get_double lib (Cxx.istream.of line) junk.wvl
  let r2 := Cxx.get_string r1.2 []
  let r3 := Cxx.get_string r2.2 r2.1
  let r4 := Cxx.get_double lib r3.2 junk.j_low
  let r5 := Cxx.get_string r4.2 r3.1
  let r6 := Cxx.get_string r5.2 r5.1
  let r7 := Cxx.get_double lib r6.2 junk.j_up
  let r8 := Cxx.get_double lib r7.2 junk.loggf
  let r9 := Cxx.get_double lib r8.2 junk.gA
  { wvl := r1.1, j_low := r4.1, j_up := r7.1, loggf := r8.1, gA := r9.1 }

/-- Conversion of a `double` to `int`: truncation toward zero (for a value in the `int`
range; the conversion is undefined outside of it). -/
def to_int (x : Rat) : Int := x.num.tdiv (x.den : Int)

/-- A `double` that may have left the finite numbers. -/
inductive fvalue where
  | finite (x : Rat)
  | inf (negative : Bool)
  | nan
deriving DecidableEq

/-- The quotient `a / g` of a finite `double` and an `int` in IEEE arithmetic: a division
by zero gives NaN for `a = 0` and else the infinity with the sign of `a`. -/
def fdiv (a : Rat) (g : Int) : fvalue :=
  if g = 0 then (if a = 0 then fvalue.nan else fvalue.inf (decide (a < 0)))
  else fvalue.finite (a / (g : Rat))

/-- The test `diff > 0.5` with `ratio = f / f2` and `diff = abs(1 - ratio)` in IEEE
arithmetic. Two finite values with `f2` not zero give the finite ratio; a zero `f2` gives
an infinite ratio (the test holds) unless `f` is zero too (NaN); a finite `f` over an
infinite `f2` gives the ratio zero and `diff = 1`; an infinite `f` over a finite `f2` gives
an infinite ratio; every other case gives NaN, and a comparison with NaN is false. -/
def deviates : fvalue → fvalue → Bool
  | fvalue.finite x, fvalue.finite y =>
    if y = 0 then decide (x ≠ 0) else decide (|1 - x / y| > 1 / 2)
  | fvalue.finite _, fvalue.inf _ => true
  | fvalue.inf _, fvalue.finite _ => true
  | _, _ => false

/-- An element of the vector `values`: wavelength, f-value and the text of `loggf`. -/
structure entry where
  wvl : Rat
  f : fvalue
  text : List Char
deriving DecidableEq

/-- Body of the reading loop after the extraction: `g_low = (2 * j_low) + 1`,
`f = pow(10, loggf) / g_low`, `f2 = gA * 1.49919E-16 * wvl * wvl / g_low`; a deviating
line is reported (`none`), another one gives the element pushed to `values`. The function
`to_string` is `std::to_string(double)`. -/
def line_entry (lib : Cxx.Lib) (to_string : Rat → List Char) (v : line_vars) : Option entry :=
  if deviates (fdiv (lib.pow 10 v.loggf) (to_int (2 * v.j_low + 1)))
      (fdiv (v.gA * (149919 / 1000000000000000000000) * v.wvl * v.wvl)
        (to_int (2 * v.j_low + 1))) then none
  else
    some { wvl := v.wvl, f := fdiv (lib.pow 10 v.loggf) (to_int (2 * v.j_low + 1)),
           text := to_string v.loggf }

/-- The loop `while (getline(in, line))`: the vector `values` after it. -/
def read_values (lib : Cxx.Lib) (to_string : Rat → List Char) (junk : Nat → line_vars) :
    Nat → List (List Char) → List entry → List entry
  | _, [], values => values
  | k, line :: rest, values =>
    match line_entry lib to_string (read_line lib (junk k) line) with
    | some e => read_values lib to_string junk (k + 1) rest (values ++ [e])
    | none => read_values lib to_string junk (k + 1) rest values

/-- Function `main` of toss_to_fplot up to the end of the reading loop: the exit code of
the run and the vector `values` that is sorted and printed before the `return`. The scale
factor and the unit flag of `argv[2]`, `argv[3]` only enter the printed text. -/
def main (lib : Cxx.Lib) (to_string : Rat → List Char) (argv : List (List Char))
    (fs : List Char → Option (List (List Char))) (junk : Nat → line_vars) :
    Int × List entry :=
  if argv.length < 2 then (0, [])
  else
    match fs (argv.getD 1 []) with
    | none => (0, [])
    | some lines => (0, read_values lib to_string junk 0 lines [])

end Fplot

namespace Cxx

/-- The library `decimal_lib` with a `std::stof` that throws `std::out_of_range` for a
number of magnitude 2^128 or more, which no `float` holds. -/
def float_lib : Lib :=
  { decimal_lib with
    stof := fun s =>
      match decimal_get (s.dropWhile isspace) with
      | some (x, _) =>
        if |x| ≥ 340282366920938463463374607431768211456 then stof_result.out_of_range
        else stof_result.value (float_value.finite x)
      | none =>
        match special_get (s.dropWhile isspace) with
        | some v => stof_result.value v
        | none => stof_result.invalid_argument }

end Cxx

namespace Nist

/-- A NIST line whose first energy (column 8) is the text `abc`. -/
def bad_energy_line : List Char :=
  "5000.0 | a | b | c | d | 4.0e7 | -1.0 | e | abc - 2000.0 | 2s | 3S | 1 | 2p | 3P* | 3/2 |".data

/-- A NIST line whose wavelength (column 0) is `1e40`, beyond the range of `float`. -/
def overflow_line : List Char :=
  "1e40 | a | b | c | d | 4.0e7 | -1.0 | e | 0.0 - 1000.0 | 2s | 3S | 1 | 2p | 3P* | 3/2 |".data

/-- A well-formed NIST line. -/
def good_line : List Char :=
  "5000.0 | a | b | c | d | 4.0e7 | -1.0 | e | 0.0 - 1000.0 | 2s | 3S | 1 | 2p | 3P* | 3/2 |".data

/-- The lower level that nist_to_toss reads from `bad_energy_line`: its energy is the
second number of column 8. -/
def bad_energy_low : level :=
  { name := "2s_3S".data, config := "2s".data, term := "3S".data
    energy := Cxx.float_value.finite 2000, J := Cxx.float_value.finite 1, parity := "e".data }

/-- The upper level that nist_to_toss reads from `bad_energy_line`: its energy is the
indeterminate content `e` of `l_up.energy`. -/
def bad_energy_up (e : Rat) : level :=
  { name := "2p_3P*".data, config := "2p".data, term := "3P*".data
    energy := Cxx.float_value.finite e, J := Cxx.float_value.finite (3 / 2)
    parity := "o".data }

/-- The transition stored for `bad_energy_line` when the indeterminate `l_up.energy` is
`e` and `e` is not below 2000. -/
def bad_energy_stored (e : Rat) : transition :=
  { wvl := Cxx.float_value.finite 5000, low := bad_energy_low, up := bad_energy_up e
    log_gf := Cxx.float_value.finite (-1), gA := Cxx.float_value.finite 40000000 }

end Nist

namespace Grotrian

/-- A TMAD file whose level section holds a line of five characters. -/
def tmad_short_file : List (List Char) :=
  ["ATOM".data, "HE 1".data, "L".data, "HE12P".data,
   "HE12S  3S           29979245800 3".data, "0".data]

/-- The arguments of the call `tmad_to_grotrian levels e=1`. -/
def tmad_args_e1 : List (List Char) := ["tmad_to_grotrian".data, "levels".data, "e=1".data]

/-- The diagram of a run that ends with the plot. -/
def run_result.diagram : run_result → Option diagram
  | run_result.exit _ (output.plot d) => some d
  | _ => none

/-- A TOSS line file with one transition between the levels of energy 0 and 5000. -/
def toss_line_file : List (List Char) :=
  ["2000.0 0.0 (e) 0.0 5000.0 (o) 1.0 -1.0 4.0e7".data]

/-- A file system with the level file `levels` and the line file `lines`. -/
def toss_files (name : List Char) : Option (List (List Char)) :=
  if name = "levels".data then some toss_level_file
  else if name = "lines".data then some toss_line_file
  else none

/-- The arguments of the call `toss_to_grotrian levels 100000 lf=lines off=1`. -/
def toss_args_off1 : List (List Char) :=
  ["toss_to_grotrian".data, "levels".data, "100000".data, "lf=lines".data, "off=1".data]

/-- Two doublet levels with the same `l` and the same energy, of odd and of even
parity. -/
def tie_levels : List level :=
  [{ mult := 2, n := 2, p := 1, l := 1, energy := 3, J := 0, name := "LI12P 2PO",
     conf := "2p", term := "2P", L := "P", parity := "o" },
   { mult := 2, n := 3, p := 0, l := 1, energy := 3, J := 0, name := "LI13P 2P",
     conf := "3p", term := "2P", L := "P", parity := "e" }]

/-- The triplet S level of the sample TMAD file as it is accepted when the option `l=1`
removes the P level before it: its energy is 0. -/
def tmad_file_3S_zero : level :=
  { mult := 3, n := 2, p := 0, l := 0, energy := 0, J := 1, name := "HE12S  3S ",
    conf := "2s", term := "3S", L := "S", parity := "e" }

/-- The variables of tmad_to_grotrian after the sample TMAD file was read with the option
`l=1`. -/
def tmad_file_l1_vars : tmad_vars :=
  { s := state.SEARCH_CONTENT, atom := ['H', 'E'], alen := 3, charge := 1, ionlimit := 1,
    vec_levels := [tmad_file_3S_zero], vec_lines := [] }

/-- The level `x` was read from a line of `lines` with the raw value `raw`: the field
checks of some line gave `raw` and a level that agrees with `x` in every field but the
energy. -/
def read_with_raw (lib : Cxx.Lib) (junk : Nat → tmad_junk) (lines : List (List Char))
    (x : level) (raw : Rat) : Prop :=
  ∃ (k : Nat) (alen : Int) (line : List Char) (le0 : level), line ∈ lines ∧
    tmad_parse_level lib alen (junk k) line = Except.ok (le0, raw) ∧
    x = { le0 with energy := x.energy }

/-- The state of the ionisation limit while a TMAD file is read: nothing is said while no
level is accepted; afterwards the limit is `raw / c` of the first accepted level, that
level has the energy 0, and every accepted level has the energy
`(raw_first - raw) / c`. -/
def ionlimit_invariant (lib : Cxx.Lib) (junk : Nat → tmad_junk) (lines : List (List Char))
    (v : tmad_vars) : Prop :=
  ∀ first rest, v.vec_levels = first :: rest →
    ∃ raw_first : Rat, v.ionlimit = raw_first / c_light ∧ first.energy = 0 ∧
      read_with_raw lib junk lines first raw_first ∧
      ∀ x ∈ v.vec_levels, ∃ raw : Rat, read_with_raw lib junk lines x raw ∧
        x.energy = (raw_first - raw) / c_light

end Grotrian

namespace Fplot

/-- Comparison `<` of two `double` values that may be infinite or NaN: a comparison with
NaN is false. -/
def fvalue.lt : fvalue → fvalue → Bool
  | fvalue.finite x, fvalue.finite y => decide (x < y)
  | fvalue.finite _, fvalue.inf n => !n
  | fvalue.inf n, fvalue.finite _ => n
  | fvalue.inf n, fvalue.inf m => n && !m
  | _, _ => false

/-- Comparison `operator<` of `std::tuple<double, double, string>`: lexicographic, by the
wavelength, then by the f-value, then by the text. -/
def entry_lt (a b : entry) : Bool :=
  decide (a.wvl < b.wvl) ||
    (!decide (b.wvl < a.wvl) &&
      (a.f.lt b.f || (!b.f.lt a.f && decide (String.mk a.text < String.mk b.text))))

/-- The contract of `std::sort(values.begin(), values.end())` for a vector without NaN, on
which `operator<` is a strict weak ordering: the result is a permutation of the argument in
which no element is smaller than one before it. For a vector with a NaN the standard
guarantees nothing. -/
structure tuple_sort where
  run : List entry → List entry
  perm : ∀ xs, (∀ e ∈ xs, e.f ≠ fvalue.nan) → List.Perm (run xs) xs
  sorted : ∀ xs, (∀ e ∈ xs, e.f ≠ fvalue.nan) →
    List.Pairwise (fun a b => entry_lt b a = false) (run xs)

/-- Function `main` of toss_to_fplot: the exit code, and the elements of `values` in the
order in which the output loop writes their two lines (`IDLENG` with the f-value times the
scale factor, `IDENT` with the wavelength and the text). -/
def program (lib : Cxx.Lib) (to_string : Rat → List Char) (W : tuple_sort)
    (argv : List (List Char)) (fs : List Char → Option (List (List Char)))
    (junk : Nat → line_vars) : Int × List entry :=
  ((main lib to_string argv fs junk).1, W.run (main lib to_string argv fs junk).2)

/-- The condition of the specification, `|1 - f / f2| <= 0.5`, evaluated in IEEE arithmetic
as the program's `double` values are: it holds for two finite values with `f2` not zero
whose ratio is within 0.5 of 1, and in no other case (an infinite ratio, the ratio 0 of a
finite over an infinite value, and NaN do not satisfy it). -/
def within_half : fvalue → fvalue → Bool
  | fvalue.finite x, fvalue.finite y =>
    if y = 0 then false else decide (|1 - x / y| ≤ 1 / 2)
  | _, _ => false

/-- The rank of an f-value in a total order that agrees with `<` on the values that are not
NaN: minus infinity (and NaN), the finite values, plus infinity. -/
def fvalue.rank : fvalue → Int ×ₗ Rat
  | fvalue.finite x => toLex (2, x)
  | fvalue.inf true => toLex (1, 0)
  | fvalue.inf false => toLex (3, 0)
  | fvalue.nan => toLex (1, 0)

/-- The key of an element in the lexicographic order of wavelength, rank and text. -/
def entry_key (e : entry) : Rat ×ₗ (Int ×ₗ Rat) ×ₗ String :=
  toLex (e.wvl, toLex (e.f.rank, String.mk e.text))

/-- A total comparison that agrees with `entry_lt` on elements without NaN. -/
def entry_lt_total (a b : entry) : Bool := decide (entry_key a < entry_key b)

/-- A sort by `entry_lt_total`, realised by insertion sort. -/
def insertion_total : Grotrian.StdSort entry_lt_total :=
  Grotrian.insertion_sort entry_lt_total
    (by
      intro a b
      simp only [entry_lt_total, decide_eq_false_iff_not, not_lt]
      exact le_total _ _)
    (by
      intro a b c
      simp only [entry_lt_total, decide_eq_false_iff_not, not_lt]
      exact le_trans)

/-- A `std::sort` of `values`, realised by insertion sort with `entry_lt_total`. -/
def insertion_tuple_sort : tuple_sort :=
  { run := insertion_total.run
    perm := fun xs _ => insertion_total.perm xs
    sorted := fun xs hx => by
      have hrank : ∀ x y : fvalue, x ≠ fvalue.nan → y ≠ fvalue.nan →
          (x.lt y = true ↔ x.rank < y.rank) := by
        intro x y hx hy
        cases x with
        | nan => exact absurd rfl hx
        | finite a =>
          cases y with
          | nan => exact absurd rfl hy
          | finite b => simp [fvalue.lt, fvalue.rank, Prod.Lex.lt_iff]
          | inf m => cases m <;> simp [fvalue.lt, fvalue.rank, Prod.Lex.lt_iff]
        | inf n =>
          cases y with
          | nan => exact absurd rfl hy
          | finite b => cases n <;> simp [fvalue.lt, fvalue.rank, Prod.Lex.lt_iff]
          | inf m => cases n <;> cases m <;> simp [fvalue.lt, fvalue.rank, Prod.Lex.lt_iff]
      have hmem : ∀ e ∈ insertion_total.run xs, e.f ≠ fvalue.nan := fun e he =>
        hx e ((insertion_total.perm xs).mem_iff.1 he)
      refine List.Pairwise.imp_of_mem ?_ (insertion_total.sorted xs)
      intro a b ha hb h
      have h1 := hrank b.f a.f (hmem b hb) (hmem a ha)
      have h2 := hrank a.f b.f (hmem a ha) (hmem b hb)
      simp only [entry_lt_total, entry_key, decide_eq_false_iff_not, Prod.Lex.lt_iff,
        ofLex_toLex] at h
      rw [Bool.eq_false_iff]
      intro hlt
      apply h
      simp only [entry_lt, Bool.or_eq_true, Bool.and_eq_true, Bool.not_eq_true',
        decide_eq_true_eq, decide_eq_false_iff_not, h1, Bool.eq_false_iff, ne_eq, h2] at hlt
      rcases hlt with h3 | ⟨h3, h4 | ⟨h4, h5⟩⟩
      · exact Or.inl h3
      · rcases lt_trichotomy b.wvl a.wvl with h6 | h6 | h6
        · exact Or.inl h6
        · exact Or.inr ⟨h6, Or.inl h4⟩
        · exact absurd h6 h3
      · rcases lt_trichotomy b.wvl a.wvl with h6 | h6 | h6
        · exact Or.inl h6
        · rcases lt_trichotomy b.f.rank a.f.rank with h7 | h7 | h7
          · exact Or.inr ⟨h6, Or.inl h7⟩
          · exact Or.inr ⟨h6, Or.inr ⟨h7, h5⟩⟩
          · exact absurd h7 h4
        · exact absurd h6 h3 }

/-- A TOSS line whose lower J is -0.5, so that `g_low` is 0. -/
def zero_g_line : List Char := "5000.0 0.0 (e) -0.5 20000.0 (o) 0.5 -1.0 1e7".data

/-- A TOSS line with consistent values: loggf = 0, gA * 1.49919E-16 * wvl * wvl = 1 up to
rounding of the decimal text. -/
def fitting_line : List Char := "6000.0 0.0 (e) 0.0 20000.0 (o) 1.0 0.0 1.853e8".data

/-- A TOSS line that fits like `fitting_line`, at the same wavelength 6000, with a lower J
of 0.5: `g_low` is 2 and the f-value 1/2. -/
def fitting_line_half : List Char := "6000.0 0.0 (e) 0.5 20000.0 (o) 1.5 0.0 1.853e8".data

/-- A TOSS line whose gA is ten times too high for its log(gf). -/
def deviating_line : List Char := "4000.0 0.0 (e) 0.0 20000.0 (o) 1.0 0.0 4.17e9".data

/-- Indeterminate locals of the reading loop, all zero. -/
def line_vars_zero : line_vars := { wvl := 0, j_low := 0, j_up := 0, loggf := 0, gA := 0 }

end Fplot

namespace Grotrian

/-! ## Codec theorems -/

/-- C1: for every letter of the list S,P,D,...,Z, given in upper or in lower case,
`get_L (det_L c)` is the one-character string holding the upper-case form of `c`, and that
upper-case form is a letter of the list. -/
theorem get_L_det_L_round_trip (c : Char) (hc : c ∈ L_letters ∨ c ∈ L_letters_lower) :
    get_L (det_L c) = String.singleton c.toUpper ∧ c.toUpper ∈ L_letters := by
  simp only [L_letters_lower, L_letters, List.map, List.mem_cons, List.mem_singleton,
    List.not_mem_nil, or_false] at hc
  rcases hc with
    (h | h | h | h | h | h | h | h | h | h | h | h | h | h | h | h | h | h | h | h | h) |
    (h | h | h | h | h | h | h | h | h | h | h | h | h | h | h | h | h | h | h | h | h) <;>
  subst h <;> decide

/-- Witness of C1 at the lower-case letter `d`. -/
theorem get_L_det_L_round_trip_witness :
    ('d' ∈ L_letters ∨ 'd' ∈ L_letters_lower) ∧
      (get_L (det_L 'd') = String.singleton 'd'.toUpper ∧ 'd'.toUpper ∈ L_letters) :=
  ⟨by decide, get_L_det_L_round_trip 'd' (by decide)⟩

/-- C2: `det_L` sends the i-th letter of the list (upper case and lower case alike) to `i`:
the decoded values in list order are exactly 0, 1, ..., 20, hence strictly increasing
without gap, and `det_L` is injective on the upper-case letters of the list. -/
theorem det_L_letters_enumeration :
    L_letters.map det_L = (List.range 21).map (fun i => (i : Int)) ∧
    L_letters_lower.map det_L = (List.range 21).map (fun i => (i : Int)) ∧
    List.Pairwise (fun a b => a < b) (L_letters.map det_L) ∧
    (∀ a ∈ L_letters, ∀ b ∈ L_letters, det_L a = det_L b → a = b) := by
  refine ⟨by decide, by decide, by decide, by decide⟩

/-- C3: `det_L c = -1` exactly when `c` is none of the 21 letters in either case; `j` and
`J` decode to `-1`; every result is `-1` or lies in `0..20`. -/
theorem det_L_error_iff (c : Char) :
    (det_L c = -1 ↔ ¬ (c ∈ L_letters ∨ c ∈ L_letters_lower)) ∧
    det_L 'j' = -1 ∧ det_L 'J' = -1 ∧
    (det_L c = -1 ∨ (0 ≤ det_L c ∧ det_L c ≤ 20)) := by
  refine ⟨?_, by decide, by decide, ?_⟩
  · unfold det_L
    split <;> simp_all [L_letters, L_letters_lower]
  · unfold det_L
    split <;> simp

/-- C4: for `0 ≤ n ≤ 20`, `get_L n` is a one-character string whose character decodes to
`n`; for every other integer `get_L n = "?"`; and `det_L '?' = -1`. -/
theorem get_L_inverse_of_det_L (n : Int) :
    ((0 ≤ n ∧ n ≤ 20) → ∃ c : Char, get_L n = String.singleton c ∧ det_L c = n) ∧
    ((n < 0 ∨ 20 < n) → get_L n = "?") ∧
    det_L '?' = -1 := by
  refine ⟨?_, ?_, by decide⟩
  · rintro ⟨h0, h20⟩
    interval_cases n <;> exact ⟨_, rfl, rfl⟩
  · intro h
    unfold get_L
    split <;> first | rfl | omega

/-- Witness of C4 at the code 2 and at the out-of-range code 21. -/
theorem get_L_inverse_of_det_L_witness :
    (∃ c : Char, get_L 2 = String.singleton c ∧ det_L c = 2) ∧ get_L 21 = "?" :=
  ⟨(get_L_inverse_of_det_L 2).1 ⟨by decide, by decide⟩,
    (get_L_inverse_of_det_L 21).2.1 (Or.inr (by decide))⟩

/-! ## Grouping lemmas -/

theorem push_level_levels_perm (i : level) (all : List levels_mult) :
    List.Perm ((push_level i all).flatMap levels_mult.levels)
      (all.flatMap levels_mult.levels ++ [i]) := by
  induction all with
  | nil => simp [push_level]
  | cons g rest ih =>
    simp only [push_level]
    split_ifs with h
    · simp only [List.flatMap_cons, List.append_assoc]
      exact List.Perm.append_left _ List.perm_append_comm
    · simp only [List.flatMap_cons, List.append_assoc]
      exact List.Perm.append_left _ ih

theorem push_level_mults (i : level) (all : List levels_mult) :
    (push_level i all).map levels_mult.mult =
      if i.mult ∈ all.map levels_mult.mult then all.map levels_mult.mult
      else all.map levels_mult.mult ++ [i.mult] := by
  induction all with
  | nil => simp [push_level]
  | cons g rest ih =>
    simp only [push_level]
    by_cases h : g.mult = i.mult
    · simp [h]
    · have h' : ¬ i.mult = g.mult := fun e => h e.symm
      simp only [h, if_false, List.map_cons, ih, List.mem_cons, h', false_or]
      split_ifs <;> simp

theorem push_level_mem (i : level) (all : List levels_mult) (g : levels_mult)
    (hg : g ∈ push_level i all) :
    g ∈ all ∨ (g.mult = i.mult ∧ g.multis = [] ∧ g.levels = [i]) ∨
      (g.mult = i.mult ∧ ∃ g0 ∈ all, g0.mult = g.mult ∧ g.multis = g0.multis ∧
        g.levels = g0.levels ++ [i]) := by
  induction all with
  | nil =>
    simp only [push_level, List.mem_singleton] at hg
    subst hg
    simp
  | cons g1 rest ih =>
    simp only [push_level] at hg
    split_ifs at hg with h
    · rcases List.mem_cons.mp hg with e | e
      · subst e
        exact Or.inr (Or.inr ⟨h, g1, List.mem_cons_self _ _, rfl, rfl, rfl⟩)
      · exact Or.inl (List.mem_cons_of_mem _ e)
    · rcases List.mem_cons.mp hg with e | e
      · subst e
        exact Or.inl (List.mem_cons_self _ _)
      · rcases ih e with h1 | h1 | ⟨hm, g0, hg0, h2⟩
        · exact Or.inl (List.mem_cons_of_mem _ h1)
        · exact Or.inr (Or.inl h1)
        · exact Or.inr (Or.inr ⟨hm, g0, List.mem_cons_of_mem _ hg0, h2⟩)

theorem foldl_push_level_perm (vec : List level) (all : List levels_mult) :
    List.Perm ((vec.foldl (fun all i => push_level i all) all).flatMap levels_mult.levels)
      (all.flatMap levels_mult.levels ++ vec) := by
  induction vec generalizing all with
  | nil => simp
  | cons x xs ih =>
    simp only [List.foldl_cons]
    refine (ih (push_level x all)).trans ?_
    refine ((push_level_levels_perm x all).append_right xs).trans ?_
    simp

theorem foldl_push_level_mults_mem (vec : List level) (all : List levels_mult) (m : Int) :
    m ∈ (vec.foldl (fun all i => push_level i all) all).map levels_mult.mult ↔
      m ∈ all.map levels_mult.mult ∨ ∃ x ∈ vec, x.mult = m := by
  induction vec generalizing all with
  | nil => simp
  | cons x xs ih =>
    simp only [List.foldl_cons]
    rw [ih (push_level x all), push_level_mults]
    split_ifs with h
    · constructor
      · rintro (h1 | ⟨y, hy, e⟩)
        · exact Or.inl h1
        · exact Or.inr ⟨y, List.mem_cons_of_mem _ hy, e⟩
      · rintro (h1 | ⟨y, hy, e⟩)
        · exact Or.inl h1
        · rcases List.mem_cons.mp hy with e1 | e1
          · subst e1; exact Or.inl (e ▸ h)
          · exact Or.inr ⟨y, e1, e⟩
    · constructor
      · rintro (h1 | ⟨y, hy, e⟩)
        · rcases List.mem_append.mp h1 with h2 | h2
          · exact Or.inl h2
          · exact Or.inr ⟨x, List.mem_cons_self _ _, (List.mem_singleton.mp h2).symm⟩
        · exact Or.inr ⟨y, List.mem_cons_of_mem _ hy, e⟩
      · rintro (h1 | ⟨y, hy, e⟩)
        · exact Or.inl (List.mem_append_left _ h1)
        · rcases List.mem_cons.mp hy with e1 | e1
          · subst e1; exact Or.inl (List.mem_append_right _ (List.mem_singleton.mpr e.symm))
          · exact Or.inr ⟨y, e1, e⟩

theorem foldl_push_level_inv (vec : List level) (all : List levels_mult)
    (hnd : (all.map levels_mult.mult).Nodup)
    (hall : ∀ g ∈ all, g.multis = [] ∧ g.levels ≠ [] ∧ ∀ x ∈ g.levels, x.mult = g.mult) :
    ((vec.foldl (fun all i => push_level i all) all).map levels_mult.mult).Nodup ∧
    ∀ g ∈ vec.foldl (fun all i => push_level i all) all,
      g.multis = [] ∧ g.levels ≠ [] ∧ ∀ x ∈ g.levels, x.mult = g.mult := by
  induction vec generalizing all with
  | nil => exact ⟨hnd, hall⟩
  | cons x xs ih =>
    simp only [List.foldl_cons]
    apply ih
    · rw [push_level_mults]
      split_ifs with h
      · exact hnd
      · refine List.Nodup.append hnd (List.nodup_singleton _) ?_
        intro a ha hb
        rw [List.mem_singleton] at hb
        exact h (hb ▸ ha)
    · intro g hg
      rcases push_level_mem x all g hg with h1 | ⟨hm, h2, h3⟩ | ⟨hm, g0, hg0, e1, e2, e3⟩
      · exact hall g h1
      · refine ⟨h2, by simp [h3], ?_⟩
        intro y hy
        rw [h3, List.mem_singleton] at hy
        rw [hy, hm]
      · refine ⟨by rw [e2]; exact (hall g0 hg0).1, by simp [e3], ?_⟩
        intro y hy
        rw [e3, List.mem_append, List.mem_singleton] at hy
        rcases hy with hy | hy
        · rw [(hall g0 hg0).2.2 y hy, e1]
        · rw [hy, hm]

theorem group_levels_perm (vec : List level) :
    List.Perm ((group_levels vec).flatMap levels_mult.levels) vec := by
  simpa [group_levels] using foldl_push_level_perm vec []

theorem group_levels_inv (vec : List level) :
    ((group_levels vec).map levels_mult.mult).Nodup ∧
    ∀ g ∈ group_levels vec,
      g.multis = [] ∧ g.levels ≠ [] ∧ ∀ x ∈ g.levels, x.mult = g.mult :=
  foldl_push_level_inv vec [] List.nodup_nil (by simp)

theorem group_levels_mults_mem (vec : List level) (m : Int) :
    m ∈ (group_levels vec).map levels_mult.mult ↔ ∃ x ∈ vec, x.mult = m := by
  simpa [group_levels] using foldl_push_level_mults_mem vec [] m

/-- The groups after the grouping pass: every fact of the unsorted groups survives the two
sorts, which only permute. -/
theorem grouping_inv (S : Sorters) (vec : List level) :
    List.Perm ((grouping S vec).flatMap levels_mult.levels) vec ∧
    ((grouping S vec).map levels_mult.mult).Nodup ∧
    (∀ g ∈ grouping S vec,
      g.multis = [] ∧ g.levels ≠ [] ∧ ∀ x ∈ g.levels, x.mult = g.mult) ∧
    (∀ m, m ∈ (grouping S vec).map levels_mult.mult ↔ ∃ x ∈ vec, x.mult = m) := by
  have hp := S.byMult.perm (group_levels (S.byE.run vec))
  have hE := S.byE.perm vec
  have hi := group_levels_inv (S.byE.run vec)
  refine ⟨?_, ?_, ?_, ?_⟩
  · exact ((hp.flatMap_right _).trans (group_levels_perm _)).trans hE
  · exact ((hp.map _).nodup_iff).2 hi.1
  · intro g hg
    exact hi.2 g (hp.mem_iff.1 hg)
  · intro m
    rw [grouping, (hp.map levels_mult.mult).mem_iff, group_levels_mults_mem]
    constructor
    · rintro ⟨x, hx, e⟩; exact ⟨x, hE.mem_iff.1 hx, e⟩
    · rintro ⟨x, hx, e⟩; exact ⟨x, hE.mem_iff.2 hx, e⟩

theorem grouping_strict (S : Sorters) (vec : List level) :
    List.Pairwise (fun a b : levels_mult => a.mult < b.mult) (grouping S vec) := by
  have hs := S.byMult.sorted (group_levels (S.byE.run vec))
  have hnd := (grouping_inv S vec).2.1
  rw [List.Nodup, List.pairwise_map] at hnd
  refine (hs.and hnd).imp ?_
  intro a b h
  simp only [sort_by_mult, decide_eq_false_iff_not, not_lt] at h
  exact lt_of_le_of_ne h.1 h.2

/-! ## Column-key lemmas -/

theorem find_lp_eq_length_iff (multis : List mul_lp) (lp : mul_lp) :
    find_lp multis lp = multis.length ↔ ∀ m ∈ multis, mul_lp_eq m lp = false := by
  unfold find_lp
  rw [List.findIdx_eq_length]

theorem mul_lp_eq_iff (a b : mul_lp) : mul_lp_eq a b = true ↔ a.l = b.l ∧ a.p = b.p := by
  simp [mul_lp_eq]

theorem mul_lp_eq_false_iff (a b : mul_lp) :
    mul_lp_eq a b = false ↔ ¬ (a.l = b.l ∧ a.p = b.p) := by
  rw [← mul_lp_eq_iff]
  simp

theorem foldl_add_key_distinct (levels : List level) (init : List mul_lp)
    (h : List.Pairwise (fun a b => mul_lp_eq a b = false) init) :
    List.Pairwise (fun a b => mul_lp_eq a b = false) (levels.foldl add_key init) := by
  induction levels generalizing init with
  | nil => exact h
  | cons j js ih =>
    simp only [List.foldl_cons]
    apply ih
    unfold add_key
    simp only
    split_ifs with hf
    · rw [find_lp_eq_length_iff] at hf
      rw [List.pairwise_append]
      refine ⟨h, List.pairwise_singleton _ _, ?_⟩
      intro a ha b hb
      rw [List.mem_singleton] at hb
      subst hb
      exact hf a ha
    · exact h

theorem foldl_add_key_mem (levels : List level) (init : List mul_lp) (k : mul_lp)
    (hk : k ∈ levels.foldl add_key init) :
    k ∈ init ∨ ∃ j ∈ levels, k = { mult := j.mult, l := j.l, p := j.p } := by
  induction levels generalizing init with
  | nil => exact Or.inl hk
  | cons j js ih =>
    simp only [List.foldl_cons] at hk
    rcases ih _ hk with h1 | ⟨j2, hj2, e⟩
    · unfold add_key at h1
      simp only at h1
      split_ifs at h1 with hf
      · rcases List.mem_append.mp h1 with h2 | h2
        · exact Or.inl h2
        · exact Or.inr ⟨j, List.mem_cons_self _ _, List.mem_singleton.mp h2⟩
      · exact Or.inl h1
    · exact Or.inr ⟨j2, List.mem_cons_of_mem _ hj2, e⟩

theorem foldl_add_key_subset (levels : List level) (init : List mul_lp) (k : mul_lp)
    (hk : k ∈ init) : k ∈ levels.foldl add_key init := by
  induction levels generalizing init with
  | nil => exact hk
  | cons j js ih =>
    simp only [List.foldl_cons]
    apply ih
    unfold add_key
    simp only
    split_ifs
    · exact List.mem_append_left _ hk
    · exact hk

theorem foldl_add_key_covers (levels : List level) (init : List mul_lp) (j : level)
    (hj : j ∈ levels) : ∃ k ∈ levels.foldl add_key init, k.l = j.l ∧ k.p = j.p := by
  induction levels generalizing init with
  | nil => cases hj
  | cons j1 js ih =>
    simp only [List.foldl_cons]
    rcases List.mem_cons.mp hj with e | e
    · subst e
      by_cases hf : find_lp init { mult := j.mult, l := j.l, p := j.p } = init.length
      · refine ⟨{ mult := j.mult, l := j.l, p := j.p }, foldl_add_key_subset _ _ _ ?_, rfl, rfl⟩
        unfold add_key
        simp only [hf, if_true]
        exact List.mem_append_right _ (List.mem_singleton.mpr rfl)
      · have hex : ∃ m ∈ init, mul_lp_eq m { mult := j.mult, l := j.l, p := j.p } = true := by
          by_contra hne
          apply hf
          rw [find_lp_eq_length_iff]
          intro m hm
          by_contra hm2
          exact hne ⟨m, hm, by simpa using hm2⟩
        obtain ⟨m, hm, hme⟩ := hex
        rw [mul_lp_eq_iff] at hme
        refine ⟨m, foldl_add_key_subset _ _ _ ?_, hme.1, hme.2⟩
        unfold add_key
        simp only [hf, if_false]
        exact hm
    · exact ih _ e

/-- Facts about a group after the column-key pass, for a group that enters it without
keys and whose levels all carry the group's multiplicity. -/
theorem column_keys_spec (S : Sorters) (g : levels_mult) (hm : g.multis = [])
    (hl : ∀ x ∈ g.levels, x.mult = g.mult) :
    (column_keys S g).mult = g.mult ∧
    List.Perm (column_keys S g).levels g.levels ∧
    List.Pairwise (fun a b : mul_lp => a.l < b.l ∨ (a.l = b.l ∧ a.p < b.p))
      (column_keys S g).multis ∧
    (∀ k ∈ (column_keys S g).multis,
      k.mult = g.mult ∧ ∃ j ∈ g.levels, j.l = k.l ∧ j.p = k.p) ∧
    (∀ j ∈ g.levels, ∃ k ∈ (column_keys S g).multis, k.l = j.l ∧ k.p = j.p) := by
  have hL := S.byL.perm g.levels
  have hP := S.byLP.perm ((S.byL.run g.levels).foldl add_key g.multis)
  refine ⟨rfl, hL, ?_, ?_, ?_⟩
  · have hs := S.byLP.sorted ((S.byL.run g.levels).foldl add_key g.multis)
    have hd : List.Pairwise (fun a b => mul_lp_eq a b = false)
        ((S.byL.run g.levels).foldl add_key g.multis) :=
      foldl_add_key_distinct _ _ (by rw [hm]; exact List.Pairwise.nil)
    have hd2 : List.Pairwise (fun a b => mul_lp_eq a b = false)
        (S.byLP.run ((S.byL.run g.levels).foldl add_key g.multis)) := by
      refine hP.symm.pairwise hd ?_
      intro a b hab
      rw [mul_lp_eq_false_iff] at hab ⊢
      rintro ⟨h1, h2⟩
      exact hab ⟨h1.symm, h2.symm⟩
    refine (hs.and hd2).imp ?_
    intro a b h
    obtain ⟨h1, h2⟩ := h
    rw [mul_lp_eq_false_iff] at h2
    simp only [sort_by_lp] at h1
    split_ifs at h1 with e
    · simp only [decide_eq_false_iff_not, not_lt] at h1
      right
      refine ⟨e.symm, lt_of_le_of_ne h1 ?_⟩
      intro e2
      exact h2 ⟨e.symm, e2⟩
    · simp only [decide_eq_false_iff_not, not_lt] at h1
      left
      exact lt_of_le_of_ne h1 (fun e2 => e e2.symm)
  · intro k hk
    have hk2 := hP.mem_iff.1 hk
    rcases foldl_add_key_mem _ _ _ hk2 with h1 | ⟨j, hj, e⟩
    · rw [hm] at h1
      cases h1
    · have hj2 := hL.mem_iff.1 hj
      subst e
      exact ⟨hl j hj2, j, hj2, rfl, rfl⟩
  · intro j hj
    obtain ⟨k, hk, e⟩ := foldl_add_key_covers (S.byL.run g.levels) g.multis j (hL.mem_iff.2 hj)
    exact ⟨k, hP.mem_iff.2 hk, e⟩

theorem all_multiplets_mults (S : Sorters) (vec : List level) :
    (all_multiplets S vec).map levels_mult.mult = (grouping S vec).map levels_mult.mult := by
  simp only [all_multiplets, List.map_map]
  apply List.map_congr_left
  intro g _
  rfl

theorem all_multiplets_mem (S : Sorters) (vec : List level) (g : levels_mult)
    (hg : g ∈ all_multiplets S vec) :
    ∃ g0 ∈ grouping S vec, g = column_keys S g0 ∧ g0.multis = [] ∧ g0.levels ≠ [] ∧
      ∀ x ∈ g0.levels, x.mult = g0.mult := by
  simp only [all_multiplets, List.mem_map] at hg
  obtain ⟨g0, hg0, e⟩ := hg
  exact ⟨g0, hg0, e.symm, (grouping_inv S vec).2.2.1 g0 hg0⟩

theorem all_multiplets_levels_perm (S : Sorters) (vec : List level) :
    List.Perm ((all_multiplets S vec).flatMap levels_mult.levels) vec := by
  refine List.Perm.trans ?_ (grouping_inv S vec).1
  simp only [all_multiplets, List.flatMap_map]
  apply List.Perm.flatMap_left
  intro g _
  exact S.byL.perm g.levels

theorem all_multiplets_strict (S : Sorters) (vec : List level) :
    List.Pairwise (fun a b : levels_mult => a.mult < b.mult) (all_multiplets S vec) := by
  simp only [all_multiplets, List.pairwise_map]
  exact (grouping_strict S vec).imp (fun h => h)

/-! ## Grouping and column-key theorems -/

/-- C5: grouping is a partition. After the grouping pass (and still after the column-key
pass, which re-sorts the levels inside each group) the concatenation of the groups' level
lists is a permutation of the accepted-level list, every level stored in a group has the
group's multiplicity, and a level is found in one group only. It holds for every list,
the non-empty ones in particular. -/
theorem grouping_is_partition (S : Sorters) (vec_levels : List level) :
    (List.Perm ((grouping S vec_levels).flatMap levels_mult.levels) vec_levels ∧
      (∀ g ∈ grouping S vec_levels, ∀ x ∈ g.levels, x.mult = g.mult) ∧
      (∀ g1 ∈ grouping S vec_levels, ∀ g2 ∈ grouping S vec_levels,
        ∀ x, x ∈ g1.levels → x ∈ g2.levels → g1 = g2)) ∧
    (List.Perm ((all_multiplets S vec_levels).flatMap levels_mult.levels) vec_levels ∧
      (∀ g ∈ all_multiplets S vec_levels, ∀ x ∈ g.levels, x.mult = g.mult) ∧
      (∀ g1 ∈ all_multiplets S vec_levels, ∀ g2 ∈ all_multiplets S vec_levels,
        ∀ x, x ∈ g1.levels → x ∈ g2.levels → g1 = g2)) := by
  have hi := grouping_inv S vec_levels
  have hm : ∀ g ∈ all_multiplets S vec_levels, ∀ x ∈ g.levels, x.mult = g.mult := by
    intro g hg x hx
    obtain ⟨g0, _, e, hk, _, hl⟩ := all_multiplets_mem S vec_levels g hg
    subst e
    have hs := column_keys_spec S g0 hk hl
    rw [hs.1]
    exact hl x (hs.2.1.mem_iff.1 hx)
  refine ⟨⟨hi.1, fun g hg => (hi.2.2.1 g hg).2.2, ?_⟩, all_multiplets_levels_perm S vec_levels,
    hm, ?_⟩
  · intro g1 h1 g2 h2 x hx1 hx2
    apply List.inj_on_of_nodup_map hi.2.1 h1 h2
    rw [← (hi.2.2.1 g1 h1).2.2 x hx1, ← (hi.2.2.1 g2 h2).2.2 x hx2]
  · intro g1 h1 g2 h2 x hx1 hx2
    have hnd : ((all_multiplets S vec_levels).map levels_mult.mult).Nodup := by
      rw [all_multiplets_mults]
      exact hi.2.1
    apply List.inj_on_of_nodup_map hnd h1 h2
    rw [← hm g1 h1 x hx1, ← hm g2 h2 x hx2]

theorem strict_ascending_unique (l1 l2 : List Int)
    (h1 : List.Pairwise (fun a b => a < b) l1) (h2 : List.Pairwise (fun a b => a < b) l2)
    (hmem : ∀ m, m ∈ l1 ↔ m ∈ l2) : l1 = l2 := by
  have n1 : l1.Nodup := h1.imp (fun h => ne_of_lt h)
  have n2 : l2.Nodup := h2.imp (fun h => ne_of_lt h)
  have hp : List.Perm l1 l2 := (List.perm_ext_iff_of_nodup n1 n2).2 hmem
  exact List.eq_of_perm_of_sorted hp h1 h2

/-- C6: the list of multiplicity groups is strictly ascending in the multiplicity value;
a multiplicity has a group exactly when some accepted level carries it (so there is exactly
one group per multiplicity present); and the sequence of group multiplicities is the same
for every reordering of the accepted levels and every behaviour of the sorts on ties. -/
theorem groups_strictly_ascending (S : Sorters) (vec_levels : List level) :
    List.Pairwise (fun a b : levels_mult => a.mult < b.mult) (grouping S vec_levels) ∧
    List.Pairwise (fun a b : levels_mult => a.mult < b.mult) (all_multiplets S vec_levels) ∧
    (∀ m, (∃ g ∈ all_multiplets S vec_levels, g.mult = m) ↔ ∃ x ∈ vec_levels, x.mult = m) ∧
    (∀ (S2 : Sorters) (vec2 : List level), List.Perm vec2 vec_levels →
      (all_multiplets S2 vec2).map levels_mult.mult =
        (all_multiplets S vec_levels).map levels_mult.mult) := by
  have hmem : ∀ (S1 : Sorters) (v : List level) (m : Int),
      m ∈ (all_multiplets S1 v).map levels_mult.mult ↔ ∃ x ∈ v, x.mult = m := by
    intro S1 v m
    rw [all_multiplets_mults]
    exact (grouping_inv S1 v).2.2.2 m
  have hstr : ∀ (S1 : Sorters) (v : List level),
      List.Pairwise (fun a b => a < b) ((all_multiplets S1 v).map levels_mult.mult) := by
    intro S1 v
    rw [List.pairwise_map]
    exact all_multiplets_strict S1 v
  refine ⟨grouping_strict S vec_levels, all_multiplets_strict S vec_levels, ?_, ?_⟩
  · intro m
    rw [← hmem S vec_levels m, List.mem_map]
  · intro S2 vec2 hp
    apply strict_ascending_unique _ _ (hstr S2 vec2) (hstr S vec_levels)
    intro m
    rw [hmem, hmem]
    constructor
    · rintro ⟨x, hx, e⟩; exact ⟨x, hp.mem_iff.1 hx, e⟩
    · rintro ⟨x, hx, e⟩; exact ⟨x, hp.mem_iff.2 hx, e⟩

/-- Witness of C6: in `discovery_levels` the grouping loop creates the group of
multiplicity 3 first and the group of multiplicity 1 second; the sorted group list is
1, 3, and it is strictly ascending. -/
theorem groups_strictly_ascending_witness :
    (group_levels (insertion_sorters.byE.run discovery_levels)).map levels_mult.mult = [3, 1] ∧
    (all_multiplets insertion_sorters discovery_levels).map levels_mult.mult = [1, 3] ∧
    List.Pairwise (fun a b : levels_mult => a.mult < b.mult)
      (all_multiplets insertion_sorters discovery_levels) :=
  ⟨by decide, by decide, (groups_strictly_ascending insertion_sorters discovery_levels).2.1⟩

/-- The key list of a group of `all_multiplets`: same (l, parity) pairs as the levels of
the group, no pair twice, strictly ascending, every key with the group's multiplicity. -/
theorem group_keys_facts (S : Sorters) (vec_levels : List level)
    (g : levels_mult) (hg : g ∈ all_multiplets S vec_levels) :
    (∀ l p : Int, (l, p) ∈ g.multis.map (fun k => (k.l, k.p)) ↔
      (l, p) ∈ g.levels.map (fun j => (j.l, j.p))) ∧
    (g.multis.map (fun k => (k.l, k.p))).Nodup ∧
    List.Pairwise (fun a b : mul_lp => a.l < b.l ∨ (a.l = b.l ∧ a.p < b.p)) g.multis ∧
    (∀ k ∈ g.multis, k.mult = g.mult) := by
  obtain ⟨g0, _, e, hk, _, hl⟩ := all_multiplets_mem S vec_levels g hg
  subst e
  obtain ⟨hmult, hperm, hsorted, hmem, hcov⟩ := column_keys_spec S g0 hk hl
  refine ⟨?_, ?_, hsorted, ?_⟩
  · intro l p
    simp only [List.mem_map, Prod.mk.injEq]
    constructor
    · rintro ⟨k, hk1, e1, e2⟩
      obtain ⟨_, j, hj, e3, e4⟩ := hmem k hk1
      exact ⟨j, hperm.mem_iff.2 hj, e3.trans e1, e4.trans e2⟩
    · rintro ⟨j, hj, e1, e2⟩
      obtain ⟨k, hk1, e3, e4⟩ := hcov j (hperm.mem_iff.1 hj)
      exact ⟨k, hk1, e3.trans e1, e4.trans e2⟩
  · rw [List.Nodup, List.pairwise_map]
    refine hsorted.imp ?_
    intro a b h e
    simp only [Prod.mk.injEq] at e
    omega
  · intro k hk1
    rw [hmult]
    exact (hmem k hk1).1

/-- C7: in every multiplicity group the key list `multis` holds exactly the (l, parity)
pairs occurring among the group's levels (every key comes from a level of the group and
carries the group's multiplicity, every level has its key), each pair once, and the list
is strictly ascending by `l` and, for equal `l`, by parity. -/
theorem column_keys_sorted_distinct (S : Sorters) (vec_levels : List level)
    (g : levels_mult) (hg : g ∈ all_multiplets S vec_levels) :
    (∀ l p : Int, (l, p) ∈ g.multis.map (fun k => (k.l, k.p)) ↔
      (l, p) ∈ g.levels.map (fun j => (j.l, j.p))) ∧
    (g.multis.map (fun k => (k.l, k.p))).Nodup ∧
    List.Pairwise (fun a b : mul_lp => a.l < b.l ∨ (a.l = b.l ∧ a.p < b.p)) g.multis ∧
    (∀ k ∈ g.multis, k.mult = g.mult) :=
  group_keys_facts S vec_levels g hg

/-- Witness of C7: the triplet group of the sample levels. -/
theorem column_keys_sorted_distinct_witness :
    sample_triplet ∈ all_multiplets insertion_sorters sample_levels ∧
    ((∀ l p : Int, (l, p) ∈ sample_triplet.multis.map (fun k => (k.l, k.p)) ↔
      (l, p) ∈ sample_triplet.levels.map (fun j => (j.l, j.p))) ∧
    (sample_triplet.multis.map (fun k => (k.l, k.p))).Nodup ∧
    List.Pairwise (fun a b : mul_lp => a.l < b.l ∨ (a.l = b.l ∧ a.p < b.p))
      sample_triplet.multis ∧
    (∀ k ∈ sample_triplet.multis, k.mult = sample_triplet.mult)) :=
  ⟨by decide, column_keys_sorted_distinct insertion_sorters sample_levels sample_triplet
    (by decide)⟩

/-! ## Total number of columns -/

theorem foldl_total (gs : List levels_mult) (t : Int) :
    gs.foldl (fun t i => t + (i.multis.length : Int)) t =
      t + (gs.map (fun i => (i.multis.length : Int))).sum := by
  induction gs generalizing t with
  | nil => simp
  | cons g rest ih =>
    simp only [List.foldl_cons, List.map_cons, List.sum_cons]
    rw [ih]
    ring

theorem total_eq (S : Sorters) (vec : List level) :
    total S vec = ((all_multiplets S vec).map (fun g => (g.multis.length : Int))).sum +
      ((all_multiplets S vec).length : Int) := by
  unfold total
  rw [foldl_total]
  simp only [all_multiplets, List.length_map]
  ring

theorem group_keys_count (S : Sorters) (vec : List level) (g : levels_mult)
    (hg : g ∈ all_multiplets S vec) :
    g.multis.length = ((g.levels.map (fun j => (j.l, j.p))).dedup).length := by
  obtain ⟨hmem, hnd, _, _⟩ := group_keys_facts S vec g hg
  have hp : List.Perm (g.multis.map (fun k => (k.l, k.p)))
      ((g.levels.map (fun j => (j.l, j.p))).dedup) := by
    rw [List.perm_ext_iff_of_nodup hnd (List.nodup_dedup _)]
    rintro ⟨l, p⟩
    rw [List.mem_dedup]
    exact hmem l p
  have := hp.length_eq
  rwa [List.length_map] at this

theorem all_multiplets_ne_nil (S : Sorters) (vec : List level) (hne : vec ≠ []) :
    all_multiplets S vec ≠ [] := by
  intro h
  have hp := all_multiplets_levels_perm S vec
  rw [h] at hp
  exact hne (List.Perm.eq_nil hp.symm)

theorem total_ge_groups (S : Sorters) (vec : List level) :
    ((all_multiplets S vec).length : Int) ≤ total S vec := by
  rw [total_eq]
  have h : ∀ gs : List levels_mult, 0 ≤ (gs.map (fun g => (g.multis.length : Int))).sum := by
    intro gs
    induction gs with
    | nil => simp
    | cons g rest ih =>
      simp only [List.map_cons, List.sum_cons]
      have : (0 : Int) ≤ (g.multis.length : Int) := Int.natCast_nonneg _
      omega
  have := h (all_multiplets S vec)
  omega

/-- C8: the total slot count is the sum over all groups of the number of distinct
(l, parity) pairs of the group's levels (which is the length of the group's key list),
plus the number of groups; with one group of two column keys it is 3 and the column
width is 100/3. -/
theorem total_slots_formula (S : Sorters) (vec_levels : List level) :
    total S vec_levels =
      ((all_multiplets S vec_levels).map
        (fun g => (((g.levels.map (fun j => (j.l, j.p))).dedup).length : Int))).sum +
      ((all_multiplets S vec_levels).length : Int) ∧
    total S vec_levels =
      ((all_multiplets S vec_levels).map (fun g => (g.multis.length : Int))).sum +
      ((all_multiplets S vec_levels).length : Int) ∧
    (∀ g : levels_mult, all_multiplets S vec_levels = [g] → g.multis.length = 2 →
      total S vec_levels = 3 ∧ unit S vec_levels = 100 / 3) := by
  refine ⟨?_, total_eq S vec_levels, ?_⟩
  · rw [total_eq]
    congr 1
    congr 1
    apply List.map_congr_left
    intro g hg
    rw [group_keys_count S vec_levels g hg]
  · intro g hg h2
    have ht : total S vec_levels = 3 := by
      rw [total_eq, hg]
      simp [h2]
    refine ⟨ht, ?_⟩
    unfold unit
    rw [ht]
    norm_num

/-- Witness of C8 (scenario 3): one doublet group with the two column keys (0, even) and
(1, odd) gives three slots and the unit 100/3. -/
theorem total_slots_formula_witness :
    all_multiplets insertion_sorters scenario3_levels = [scenario3_group] ∧
    scenario3_group.multis.length = 2 ∧
    total insertion_sorters scenario3_levels = 3 ∧
    unit insertion_sorters scenario3_levels = 100 / 3 :=
  ⟨by decide, by decide,
    (total_slots_formula insertion_sorters scenario3_levels).2.2 scenario3_group
      (by decide) (by decide)⟩

/-- C9: with at least one accepted level there is at least one group, `total` is at least
the number of groups, so the divisor of `unit = 100 / total` is not zero, and in exact
arithmetic `unit * total = 100`. -/
theorem total_slots_positive (S : Sorters) (vec_levels : List level)
    (hne : vec_levels ≠ []) :
    1 ≤ (all_multiplets S vec_levels).length ∧
    (grouping S vec_levels).length = (all_multiplets S vec_levels).length ∧
    ((all_multiplets S vec_levels).length : Int) ≤ total S vec_levels ∧
    total S vec_levels ≠ 0 ∧
    unit S vec_levels * (total S vec_levels : Rat) = 100 := by
  have h1 : 1 ≤ (all_multiplets S vec_levels).length := by
    have := all_multiplets_ne_nil S vec_levels hne
    exact Nat.one_le_iff_ne_zero.mpr (fun h => this (List.length_eq_zero.mp h))
  have h2 := total_ge_groups S vec_levels
  have h3 : total S vec_levels ≠ 0 := by omega
  refine ⟨h1, by simp [all_multiplets], h2, h3, ?_⟩
  unfold unit
  have h4 : (total S vec_levels : Rat) ≠ 0 := by exact_mod_cast h3
  field_simp

/-- Witness of C9 at the sample levels. -/
theorem total_slots_positive_witness :
    sample_levels ≠ [] ∧
    1 ≤ (all_multiplets insertion_sorters sample_levels).length ∧
    total insertion_sorters sample_levels ≠ 0 ∧
    unit insertion_sorters sample_levels * (total insertion_sorters sample_levels : Rat) = 100 :=
  ⟨by decide, (total_slots_positive insertion_sorters sample_levels (by decide)).1,
    (total_slots_positive insertion_sorters sample_levels (by decide)).2.2.2.1,
    (total_slots_positive insertion_sorters sample_levels (by decide)).2.2.2.2⟩

/-! ## Slot assignment -/

theorem find_lp_lt_of_mem (multis : List mul_lp) (a : mul_lp) (ha : a ∈ multis) :
    find_lp multis a < multis.length := by
  unfold find_lp
  apply List.findIdx_lt_length_of_exists
  exact ⟨a, ha, by simp [mul_lp_eq]⟩

theorem find_lp_inj (multis : List mul_lp) (a b : mul_lp) (ha : a ∈ multis)
    (h : find_lp multis a = find_lp multis b) : a.l = b.l ∧ a.p = b.p := by
  have hlt := find_lp_lt_of_mem multis a ha
  have hlt2 : find_lp multis b < multis.length := h ▸ hlt
  have h1 : mul_lp_eq (multis.get ⟨find_lp multis a, hlt⟩) a = true :=
    List.findIdx_getElem (p := fun m => mul_lp_eq m a) (w := hlt)
  have h2 : mul_lp_eq (multis.get ⟨find_lp multis b, hlt2⟩) b = true :=
    List.findIdx_getElem (p := fun m => mul_lp_eq m b) (w := hlt2)
  have h3 : multis.get ⟨find_lp multis a, hlt⟩ = multis.get ⟨find_lp multis b, hlt2⟩ := by
    congr 1
    exact Fin.ext h
  rw [mul_lp_eq_iff] at h1 h2
  rw [h3] at h1
  exact ⟨h1.1.symm.trans h2.1, h1.2.symm.trans h2.2⟩

theorem layout_loop_mem (u off : Rat) (gs : List levels_mult) (b : Int) (g : group_layout)
    (hg : g ∈ layout_loop u off b gs) : g.group ∈ gs ∧ b ≤ g.before := by
  induction gs generalizing b with
  | nil => simp [layout_loop] at hg
  | cons i rest ih =>
    simp only [layout_loop, List.mem_cons] at hg
    rcases hg with e | e
    · subst e
      exact ⟨List.mem_cons_self _ _, le_refl _⟩
    · obtain ⟨h1, h2⟩ := ih _ e
      refine ⟨List.mem_cons_of_mem _ h1, ?_⟩
      have : (0 : Int) ≤ (i.multis.length : Int) := Int.natCast_nonneg _
      omega

theorem layout_loop_pairwise (u off : Rat) (gs : List levels_mult) (b : Int) :
    List.Pairwise
      (fun g1 g2 : group_layout => g1.before + (g1.group.multis.length : Int) < g2.before)
      (layout_loop u off b gs) := by
  induction gs generalizing b with
  | nil => simp [layout_loop]
  | cons i rest ih =>
    simp only [layout_loop, List.pairwise_cons]
    refine ⟨?_, ih _⟩
    intro g2 hg2
    have := (layout_loop_mem u off rest _ g2 hg2).2
    show b + (i.multis.length : Int) < g2.before
    omega

theorem slot_bounds (before : Int) (multis : List mul_lp) (a : mul_lp) (ha : a ∈ multis) :
    before ≤ slot before multis a ∧ slot before multis a < before + (multis.length : Int) := by
  have := find_lp_lt_of_mem multis a ha
  unfold slot
  omega

theorem layout_loop_top (u off : Rat) (gs : List levels_mult) (b : Int) (g : group_layout)
    (hg : g ∈ layout_loop u off b gs)
    (hd : ∀ i ∈ gs, List.Pairwise (fun a b => mul_lp_eq a b = false) i.multis) :
    ∀ t ∈ g.top, t.1 ∈ g.group.multis ∧ t.2.1 = slot g.before g.group.multis t.1 := by
  induction gs generalizing b with
  | nil => simp [layout_loop] at hg
  | cons i rest ih =>
    simp only [layout_loop, List.mem_cons] at hg
    rcases hg with e | e
    · subst e
      intro t ht
      simp only [layout_group, List.mem_map] at ht
      obtain ⟨⟨n, k⟩, hnk, rfl⟩ := ht
      have hget := List.mk_mem_enum_iff_getElem?.1 hnk
      obtain ⟨hn, hk⟩ := List.getElem?_eq_some_iff.1 hget
      have hkm : k ∈ i.multis := hk ▸ List.getElem_mem hn
      refine ⟨hkm, ?_⟩
      show b + (n : Int) = slot b i.multis k
      have hfind : find_lp i.multis k = n := by
        unfold find_lp
        rw [List.findIdx_eq hn]
        refine ⟨by rw [hk]; simp [mul_lp_eq], ?_⟩
        intro j hj
        have hpw := List.pairwise_iff_getElem.1 (hd i (List.mem_cons_self _ _)) j n
          (lt_trans hj hn) hn hj
        rw [hk] at hpw
        simpa using hpw
      unfold slot
      rw [hfind]
      ring
    · exact ih _ e (fun i hi => hd i (List.mem_cons_of_mem _ hi))

/-- C10: slot assignment is injective. With `slot = before + index of the key in the
group's key list`, two column keys that receive the same slot index lie in the same group
and are the same key; this covers keys of one group and keys of different groups. The slot
written for each top label (`before + top_offset`) is this slot of its key. -/
theorem slot_assignment_injective (S : Sorters) (offset : Rat) (vec_levels : List level) :
    (∀ g1 ∈ layout S offset vec_levels, ∀ g2 ∈ layout S offset vec_levels,
      ∀ a ∈ g1.group.multis, ∀ b ∈ g2.group.multis,
        slot g1.before g1.group.multis a = slot g2.before g2.group.multis b →
          g1 = g2 ∧ a = b) ∧
    (∀ g ∈ layout S offset vec_levels, ∀ t ∈ g.top,
      t.1 ∈ g.group.multis ∧ t.2.1 = slot g.before g.group.multis t.1) := by
  constructor
  · intro g1 h1 g2 h2 a ha b hb hs
    have hpw := layout_loop_pairwise (unit S vec_levels) offset (all_multiplets S vec_levels) 0
    have hsym : List.Pairwise
        (fun x y : group_layout =>
          x.before + (x.group.multis.length : Int) < y.before ∨
            y.before + (y.group.multis.length : Int) < x.before)
        (layout S offset vec_levels) := hpw.imp (fun h => Or.inl h)
    have ba := slot_bounds g1.before g1.group.multis a ha
    have bb := slot_bounds g2.before g2.group.multis b hb
    have hgg : g1 = g2 := by
      by_contra hne
      have := List.Pairwise.forall (fun x y h => h.symm) hsym h1 h2 hne
      omega
    subst hgg
    refine ⟨rfl, ?_⟩
    have hf : find_lp g1.group.multis a = find_lp g1.group.multis b := by
      unfold slot at hs
      omega
    obtain ⟨e1, e2⟩ := find_lp_inj g1.group.multis a b ha hf
    have hgm := (layout_loop_mem _ _ _ _ g1 h1).1
    have hk := (group_keys_facts S vec_levels g1.group hgm).2.2.2
    have e3 : a.mult = b.mult := (hk a ha).trans (hk b hb).symm
    cases a
    cases b
    simp only [mul_lp.mk.injEq]
    exact ⟨e3, e1, e2⟩
  · intro g hg
    apply layout_loop_top _ _ _ _ g hg
    intro i hi
    have hs := (group_keys_facts S vec_levels i hi).2.2.1
    refine hs.imp ?_
    intro a b h
    rw [mul_lp_eq_false_iff]
    omega

/-- Witness of C10 at the sample levels: the layout consists of the singlet group at
offset 0 and the triplet group at offset 3; the last singlet key (slot 1) and the first
triplet key (slot 3) cannot share a slot. -/
theorem slot_assignment_injective_witness :
    layout insertion_sorters 0 sample_levels =
      [layout_group (unit insertion_sorters sample_levels) 0 0 sample_singlet,
       layout_group (unit insertion_sorters sample_levels) 0 3 sample_triplet] ∧
    slot 0 sample_singlet.multis { mult := 1, l := 2, p := 0 } = 1 ∧
    slot 3 sample_triplet.multis { mult := 3, l := 0, p := 0 } = 3 ∧
    slot 0 sample_singlet.multis { mult := 1, l := 2, p := 0 } ≠
      slot 3 sample_triplet.multis { mult := 3, l := 0, p := 0 } := by
  have hall : all_multiplets insertion_sorters sample_levels =
      [sample_singlet, sample_triplet] := by decide
  have hlay : layout insertion_sorters 0 sample_levels =
      [layout_group (unit insertion_sorters sample_levels) 0 0 sample_singlet,
       layout_group (unit insertion_sorters sample_levels) 0 3 sample_triplet] := by
    unfold layout
    rw [hall]
    rfl
  refine ⟨hlay, by decide, by decide, ?_⟩
  intro h
  have := (slot_assignment_injective insertion_sorters 0 sample_levels).1
    (layout_group (unit insertion_sorters sample_levels) 0 0 sample_singlet)
    (by rw [hlay]; exact List.mem_cons_self _ _)
    (layout_group (unit insertion_sorters sample_levels) 0 3 sample_triplet)
    (by rw [hlay]; exact List.mem_cons_of_mem _ (List.mem_cons_self _ _))
    { mult := 1, l := 2, p := 0 } (by decide)
    { mult := 3, l := 0, p := 0 } (by decide) h
  exact absurd this.2 (by decide)

/-! ## Range of the `int` counters

The counters `total`, `before` and `pos` are C `int`s. For levels that pass the readers'
checks (multiplicity 1..9, `l` in 0..20, parity 0 or 1) there are at most 9 groups of at
most 42 keys, so `total` is at most 387 and no counter leaves the `int` range. -/

theorem length_le_of_nodup_subset {α : Type} (l1 l2 : List α) (hnd : l1.Nodup)
    (hsub : ∀ a ∈ l1, a ∈ l2) : l1.length ≤ l2.length :=
  (List.Nodup.subperm hnd hsub).length_le

theorem sum_le_of_forall_le (gs : List levels_mult) (c : Int)
    (h : ∀ g ∈ gs, (g.multis.length : Int) ≤ c) :
    (gs.map (fun g => (g.multis.length : Int))).sum ≤ c * (gs.length : Int) := by
  induction gs with
  | nil => simp
  | cons g rest ih =>
    simp only [List.map_cons, List.sum_cons, List.length_cons, Nat.cast_add, Nat.cast_one]
    have h1 := h g (List.mem_cons_self _ _)
    have h2 := ih (fun g hg => h g (List.mem_cons_of_mem _ hg))
    linarith

theorem total_le_387 (S : Sorters) (vec : List level)
    (hv : ∀ x ∈ vec, (1 ≤ x.mult ∧ x.mult ≤ 9) ∧ (0 ≤ x.l ∧ x.l ≤ 20) ∧ (x.p = 0 ∨ x.p = 1)) :
    (all_multiplets S vec).length ≤ 9 ∧
    (∀ g ∈ all_multiplets S vec, g.multis.length ≤ 42) ∧
    total S vec ≤ 387 := by
  have hi := grouping_inv S vec
  have hlen : (all_multiplets S vec).length ≤ 9 := by
    have hnd : ((all_multiplets S vec).map levels_mult.mult).Nodup := by
      rw [all_multiplets_mults]
      exact hi.2.1
    have := length_le_of_nodup_subset _ [1, 2, 3, 4, 5, 6, 7, 8, 9] hnd (by
      intro m hm
      rw [all_multiplets_mults, hi.2.2.2] at hm
      obtain ⟨x, hx, e⟩ := hm
      have := (hv x hx).1
      subst e
      obtain ⟨h1, h9⟩ := this
      interval_cases x.mult <;> simp)
    simpa using this
  have hkeys : ∀ g ∈ all_multiplets S vec, g.multis.length ≤ 42 := by
    intro g hg
    obtain ⟨hmem, hnd, _, _⟩ := group_keys_facts S vec g hg
    have := length_le_of_nodup_subset _
      ((List.range 21).flatMap (fun n => [((n : Int), (0 : Int)), ((n : Int), (1 : Int))]))
      hnd (by
        rintro ⟨l, p⟩ hlp
        rw [hmem] at hlp
        obtain ⟨j, hj, e⟩ := List.mem_map.1 hlp
        have hjv : j ∈ vec :=
          (all_multiplets_levels_perm S vec).mem_iff.1
            (List.mem_flatMap.2 ⟨g, hg, hj⟩)
        obtain ⟨_, ⟨h0, h20⟩, hp⟩ := hv j hjv
        simp only [Prod.mk.injEq] at e
        obtain ⟨e1, e2⟩ := e
        subst e1 e2
        rw [List.mem_flatMap]
        refine ⟨j.l.toNat, List.mem_range.2 (by omega), ?_⟩
        have : ((j.l.toNat : Nat) : Int) = j.l := Int.toNat_of_nonneg h0
        rw [this]
        rcases hp with hp | hp <;> simp [hp])
    simpa using this
  refine ⟨hlen, hkeys, ?_⟩
  rw [total_eq]
  have h1 := sum_le_of_forall_le (all_multiplets S vec) 42
    (fun g hg => by exact_mod_cast hkeys g hg)
  have h2 : ((all_multiplets S vec).length : Int) ≤ 9 := by exact_mod_cast hlen
  linarith

/-! ## Accepted levels (both readers) -/

theorem det_L_range (c : Char) : det_L c = -1 ∨ (0 ≤ det_L c ∧ det_L c ≤ 20) := by
  unfold det_L
  split <;> simp

theorem det_L_range_of_not_neg (c : Char) (h : ¬ det_L c < 0) :
    0 ≤ det_L c ∧ det_L c ≤ 20 := by
  rcases det_L_range c with h1 | h1
  · omega
  · exact h1

/-- Every level that passes the field checks of the TOSS level reader satisfies the
invariant, whatever the indeterminate contents of the local were. -/
theorem toss_parse_level_valid (lib : Cxx.Lib) (junk : level) (line : List Char) (lev : level)
    (h : toss_parse_level lib junk line = Except.ok lev) : level_invariant lev := by
  unfold toss_parse_level at h
  simp only [bind, Except.bind] at h
  repeat' split at h
  all_goals first
    | contradiction
    | (injection h with h
       subst h
       refine ⟨?_, ?_, ?_⟩
       · simp only []
         omega
       · simp only []
         apply det_L_range_of_not_neg
         assumption
       · simp)

/-- Every level that passes the field checks of the TMAD level reader satisfies the
invariant. -/
theorem tmad_parse_level_valid (lib : Cxx.Lib) (alen : Int) (junk : tmad_junk)
    (line : List Char) (le : level) (eHz : Rat)
    (h : tmad_parse_level lib alen junk line = Except.ok (le, eHz)) : level_invariant le := by
  unfold tmad_parse_level at h
  simp only [bind, Except.bind] at h
  repeat' split at h
  all_goals first
    | contradiction
    | (injection h with h
       injection h with h1 h2
       subst h1
       refine ⟨?_, ?_, ?_⟩
       · simp only []
         omega
       · simp only []
         apply det_L_range_of_not_neg
         assumption
       · simp)

theorem filter_level_ok (o : options) (lev x : level) (h : filter_level o lev = Except.ok x) :
    x = lev ∧ skip_by_threshold o lev = false ∧ skip_by_conf o lev = false := by
  unfold filter_level at h
  split_ifs at h with h1 h2
  injection h with h
  exact ⟨h.symm, by simpa using h1, by simpa using h2⟩

theorem toss_read_level_ok (lib : Cxx.Lib) (o : options) (junk : level) (line : List Char)
    (lev : level) (h : toss_read_level lib o junk line = Except.ok lev) :
    toss_parse_level lib junk line = Except.ok lev ∧
      skip_by_threshold o lev = false ∧ skip_by_conf o lev = false := by
  unfold toss_read_level at h
  cases hp : toss_parse_level lib junk line with
  | error e => rw [hp] at h; cases h
  | ok x =>
    rw [hp] at h
    obtain ⟨e, h1, h2⟩ := filter_level_ok o x lev h
    subst e
    exact ⟨rfl, h1, h2⟩

/-- All levels in `vec_levels` after the TOSS level loop satisfy the invariant. -/
theorem toss_read_levels_valid (lib : Cxx.Lib) (o : options) (junk : Nat → level)
    (lines : List (List Char)) (k : Nat) (vec res : List level)
    (h : toss_read_levels lib o junk k lines vec = some res)
    (hv : ∀ x ∈ vec, level_invariant x) : ∀ x ∈ res, level_invariant x := by
  induction lines generalizing k vec with
  | nil =>
    simp only [toss_read_levels, Option.some.injEq] at h
    subst h
    exact hv
  | cons line rest ih =>
    simp only [toss_read_levels] at h
    split at h
    · rename_i lev hl
      apply ih _ _ h
      intro x hx
      rcases List.mem_append.mp hx with hx | hx
      · exact hv x hx
      · rw [List.mem_singleton] at hx
        subst hx
        exact toss_parse_level_valid lib _ line x (toss_read_level_ok lib o _ line x hl).1
    · exact ih _ _ h hv
    · cases h

theorem tmad_read_level_levels (lib : Cxx.Lib) (o : options) (junk : tmad_junk)
    (v v1 : tmad_vars) (line : List Char) (h : tmad_read_level lib o junk v line = some v1) :
    v1.s = v.s ∧ v1.vec_lines = v.vec_lines ∧
    (v1.vec_levels = v.vec_levels ∨
      ∃ le0 eHz, tmad_parse_level lib v.alen junk line = Except.ok (le0, eHz) ∧
        v1.vec_levels = v.vec_levels ++
          [{ le0 with energy := v1.ionlimit - eHz / c_light }] ∧
        v1.ionlimit = (if v.vec_levels.length = 0 then eHz / c_light else v.ionlimit) ∧
        filter_level o { le0 with energy := v1.ionlimit - eHz / c_light } =
          Except.ok { le0 with energy := v1.ionlimit - eHz / c_light }) := by
  unfold tmad_read_level at h
  split at h
  · cases h
  · injection h with h
    subst h
    exact ⟨rfl, rfl, Or.inl rfl⟩
  · rename_i le0 eHz hp
    simp only at h
    split at h
    · rename_i lev hf
      injection h with h
      subst h
      obtain ⟨e, _, _⟩ := filter_level_ok o _ lev hf
      subst e
      exact ⟨rfl, rfl, Or.inr ⟨le0, eHz, hp, rfl, rfl, hf⟩⟩
    · injection h with h
      subst h
      exact ⟨rfl, rfl, Or.inl rfl⟩

theorem tmad_read_rbb_levels (lib : Cxx.Lib) (junk : tmad_junk) (v v1 : tmad_vars)
    (line : List Char) (h : tmad_read_rbb lib junk v line = some v1) :
    v1.s = v.s ∧ v1.vec_levels = v.vec_levels ∧ v1.ionlimit = v.ionlimit := by
  unfold tmad_read_rbb at h
  repeat' split at h
  all_goals first
    | contradiction
    | (injection h with h
       subst h
       exact ⟨rfl, rfl, rfl⟩)

theorem tmad_read_atom_spec (v : tmad_vars) (line : List Char) :
    (tmad_read_atom v line).s = state.SEARCH_CONTENT ∧
    (tmad_read_atom v line).vec_levels = v.vec_levels ∧
    (tmad_read_atom v line).vec_lines = v.vec_lines ∧
    (tmad_read_atom v line).ionlimit = v.ionlimit := by
  unfold tmad_read_atom
  simp only
  split_ifs <;> exact ⟨rfl, rfl, rfl, rfl⟩

/-- One loop iteration of tmad_to_grotrian keeps the invariant of the accepted levels. -/
theorem tmad_step_valid (lib : Cxx.Lib) (o : options) (junk : tmad_junk) (v v1 : tmad_vars)
    (line : List Char) (h : tmad_step lib o junk v line = some v1)
    (hv : ∀ x ∈ v.vec_levels, level_invariant x) : ∀ x ∈ v1.vec_levels, level_invariant x := by
  unfold tmad_step at h
  by_cases h0 : line.take 1 = ['.']
  · rw [if_pos h0] at h
    injection h with h; subst h; exact hv
  · rw [if_neg h0] at h
    cases hs : v.s <;> rw [hs] at h <;> simp only at h
    · split_ifs at h <;> (injection h with h; subst h; exact hv)
    · injection h with h
      subst h
      rw [(tmad_read_atom_spec v line).2.1]
      exact hv
    · split_ifs at h <;> (injection h with h; subst h; exact hv)
    · split_ifs at h
      · injection h with h; subst h; exact hv
      · obtain ⟨_, _, h3⟩ := tmad_read_level_levels lib o junk v v1 line h
        rcases h3 with h3 | ⟨le0, eHz, hp, h3, _, _⟩
        · rw [h3]; exact hv
        · rw [h3]
          intro x hx
          rcases List.mem_append.mp hx with hx | hx
          · exact hv x hx
          · rw [List.mem_singleton] at hx
            subst hx
            exact tmad_parse_level_valid lib _ junk line le0 eHz hp
    · split_ifs at h
      · injection h with h; subst h; exact hv
      · rw [(tmad_read_rbb_levels lib junk v v1 line h).2.1]
        exact hv

/-- All levels in `vec_levels` after the TMAD loop satisfy the invariant. -/
theorem tmad_read_valid (lib : Cxx.Lib) (o : options) (junk : Nat → tmad_junk)
    (lines : List (List Char)) (k : Nat) (v res : tmad_vars)
    (h : tmad_read lib o junk k lines v = some res)
    (hv : ∀ x ∈ v.vec_levels, level_invariant x) :
    ∀ x ∈ res.vec_levels, level_invariant x := by
  induction lines generalizing k v with
  | nil =>
    simp only [tmad_read, Option.some.injEq] at h
    subst h
    exact hv
  | cons line rest ih =>
    simp only [tmad_read] at h
    split at h
    · rename_i v1 hs
      exact ih _ _ h (tmad_step_valid lib o _ v v1 line hs hv)
    · cases h

/-- C11 (code defect in the TOSS reader): a record whose multiplicity character is blank is
not rejected. The extraction `ss >> lev.mult` meets only white space, so the sentry stops
it and the never-assigned `lev.mult` is tested: the record is accepted exactly when that
indeterminate value lies in 1..9. With the value of the previous record left in place, the
file of the two sample lines yields two accepted levels. -/
theorem toss_blank_multiplicity_not_rejected :
    (∀ junk : level,
      toss_parse_level Cxx.decimal_lib junk toss_line_blank_mult =
        if junk.mult < 1 ∨ junk.mult > 9 then Except.error stop.skip
        else Except.ok { toss_level_blank with mult := junk.mult }) ∧
    toss_read_levels Cxx.decimal_lib default_options toss_stale_junk 0
      [toss_line_3Po, toss_line_blank_mult] [] = some [toss_level_3Po, toss_level_blank] ∧
    toss_read_levels Cxx.decimal_lib default_options (fun _ => level_zero) 0
      [toss_line_3Po, toss_line_blank_mult] [] = some [toss_level_3Po] := by
  refine ⟨?_, ?_, ?_⟩
  · intro junk
    with_unfolding_all rfl
  · decide!
  · decide!

/-! ## Filters -/

theorem skip_by_threshold_iff (o : options) (lev : level) :
    skip_by_threshold o lev = true ↔
      (lev.energy ≥ o.skip_e ∨ lev.n ≥ o.skip_n ∨ lev.l ≥ o.skip_l) := by
  simp [skip_by_threshold, or_assoc]

theorem filter_level_eq (o : options) (lev : level) :
    filter_level o lev =
      if lev.energy ≥ o.skip_e ∨ lev.n ≥ o.skip_n ∨ lev.l ≥ o.skip_l then
        Except.error stop.skip
      else if skip_by_conf o lev then Except.error stop.skip
      else Except.ok lev := by
  unfold filter_level
  by_cases h : skip_by_threshold o lev = true
  · rw [if_pos h, if_pos ((skip_by_threshold_iff o lev).1 h)]
  · rw [if_neg h, if_neg (fun h2 => h ((skip_by_threshold_iff o lev).2 h2))]

/-- C12: threshold filtering. A level that passed the field checks is dropped when
`energy >= skip_e` or `n >= skip_n` or `l >= skip_l`; otherwise only the configuration
filter can still drop it. In the TOSS reader the outcome of the loop body is given by the
level; in the TMAD reader (where the energy is set from the ionisation limit just before
the test) the variables after the loop body are given. In particular a level whose energy
equals the threshold is dropped and a level below all three thresholds is kept unless the
configuration filter matches. -/
theorem threshold_filter (lib : Cxx.Lib) (o : options) :
    (∀ (junk : level) (line : List Char) (lev : level),
      toss_parse_level lib junk line = Except.ok lev →
        toss_read_level lib o junk line =
          (if lev.energy ≥ o.skip_e ∨ lev.n ≥ o.skip_n ∨ lev.l ≥ o.skip_l then
            Except.error stop.skip
          else if skip_by_conf o lev then Except.error stop.skip
          else Except.ok lev) ∧
        (lev.energy = o.skip_e → toss_read_level lib o junk line = Except.error stop.skip) ∧
        (lev.energy < o.skip_e → lev.n < o.skip_n → lev.l < o.skip_l →
          skip_by_conf o lev = false → toss_read_level lib o junk line = Except.ok lev)) ∧
    (∀ (junk : tmad_junk) (v : tmad_vars) (line : List Char) (le0 : level) (eHz : Rat),
      tmad_parse_level lib v.alen junk line = Except.ok (le0, eHz) →
        ∀ (ionlimit : Rat) (le : level),
          ionlimit = (if v.vec_levels.length = 0 then eHz / c_light else v.ionlimit) →
          le = { le0 with energy := ionlimit - eHz / c_light } →
          tmad_read_level lib o junk v line =
            (if le.energy ≥ o.skip_e ∨ le.n ≥ o.skip_n ∨ le.l ≥ o.skip_l then
              some { v with ionlimit := ionlimit }
            else if skip_by_conf o le then some { v with ionlimit := ionlimit }
            else some { v with ionlimit := ionlimit, vec_levels := v.vec_levels ++ [le] }) ∧
          (le.energy = o.skip_e →
            tmad_read_level lib o junk v line = some { v with ionlimit := ionlimit }) ∧
          (le.energy < o.skip_e → le.n < o.skip_n → le.l < o.skip_l →
            skip_by_conf o le = false →
            tmad_read_level lib o junk v line =
              some { v with ionlimit := ionlimit, vec_levels := v.vec_levels ++ [le] })) := by
  constructor
  · intro junk line lev hp
    have h1 : toss_read_level lib o junk line =
        (if lev.energy ≥ o.skip_e ∨ lev.n ≥ o.skip_n ∨ lev.l ≥ o.skip_l then
          Except.error stop.skip
        else if skip_by_conf o lev then Except.error stop.skip
        else Except.ok lev) := by
      unfold toss_read_level
      rw [hp]
      exact filter_level_eq o lev
    refine ⟨h1, ?_, ?_⟩
    · intro he
      rw [h1, if_pos (Or.inl (le_of_eq he.symm))]
    · intro he hn hl hc
      rw [h1, if_neg (by
        rintro (h | h | h)
        · exact absurd he (not_lt.mpr h)
        · exact absurd hn (not_lt.mpr h)
        · exact absurd hl (not_lt.mpr h)), hc]
      rfl
  · intro junk v line le0 eHz hp ionlimit le hion hle
    have h1 : tmad_read_level lib o junk v line =
        (if le.energy ≥ o.skip_e ∨ le.n ≥ o.skip_n ∨ le.l ≥ o.skip_l then
          some { v with ionlimit := ionlimit }
        else if skip_by_conf o le then some { v with ionlimit := ionlimit }
        else some { v with ionlimit := ionlimit, vec_levels := v.vec_levels ++ [le] }) := by
      unfold tmad_read_level
      rw [hp]
      simp only
      rw [← hion, ← hle, filter_level_eq]
      split_ifs <;> rfl
    refine ⟨h1, ?_, ?_⟩
    · intro he
      rw [h1, if_pos (Or.inl (le_of_eq he.symm))]
    · intro he hn hl hc
      rw [h1, if_neg (by
        rintro (h | h | h)
        · exact absurd he (not_lt.mpr h)
        · exact absurd hn (not_lt.mpr h)
        · exact absurd hl (not_lt.mpr h)), hc]
      rfl

/-- Witness of C12: the sample TOSS line has energy 5000; with `e=5000` the level is
dropped, with `e=5001` it is kept. -/
theorem threshold_filter_witness :
    toss_parse_level Cxx.decimal_lib level_zero toss_line_3Po = Except.ok toss_level_3Po ∧
    toss_read_level Cxx.decimal_lib { default_options with skip_e := 5000 } level_zero
      toss_line_3Po = Except.error stop.skip ∧
    toss_read_level Cxx.decimal_lib { default_options with skip_e := 5001 } level_zero
      toss_line_3Po = Except.ok toss_level_3Po :=
  ⟨by with_unfolding_all rfl,
    ((threshold_filter Cxx.decimal_lib { default_options with skip_e := 5000 }).1 level_zero
      toss_line_3Po toss_level_3Po (by with_unfolding_all rfl)).2.1 (by with_unfolding_all rfl),
    ((threshold_filter Cxx.decimal_lib { default_options with skip_e := 5001 }).1 level_zero
      toss_line_3Po toss_level_3Po (by with_unfolding_all rfl)).2.2
      (by decide!) (by decide) (by decide) (by rfl)⟩

/-- The key that the configuration filter builds for a level with a two-character term
and a one-character parity: the parity letter followed by the second character of the
term, not the term followed by the parity letter. -/
theorem conf_key_of_term (lev : level) (t0 t1 q : Char)
    (ht : lev.term = String.mk [t0, t1]) (hq : lev.parity = String.mk [q]) :
    conf_key lev = String.mk [q, t1] := by
  unfold conf_key Cxx.str_put
  rw [ht, hq]
  rfl

/-- C13 (code defect): the token `3Po` does not exclude a level with term `3P` and odd
parity. After `ss.str(lev.term)` the write position is at the start of the text, so
`ss << lev.parity` overwrites the first character of the term: the filter compares the
tokens with `oP`. The sample TOSS level and the odd triplet P level of the sample TMAD file
are kept with `c=3Po`; the TOSS level is dropped with `c=oP`. -/
theorem conf_token_3Po_not_excluded :
    conf_key toss_level_3Po = "oP" ∧
    toss_read_level Cxx.decimal_lib { default_options with skip_conf := ["3Po"] } level_zero
      toss_line_3Po = Except.ok toss_level_3Po ∧
    toss_read_level Cxx.decimal_lib { default_options with skip_conf := ["oP"] } level_zero
      toss_line_3Po = Except.error stop.skip ∧
    (tmad_read Cxx.decimal_lib { default_options with skip_conf := ["3Po"] }
      (fun _ => tmad_junk_zero) 0 tmad_file (tmad_init 0 0 0)).map
        (fun v => v.vec_levels.map (fun x => (x.term, x.parity))) =
      some [("3P", "o"), ("3S", "e")] := by
  refine ⟨by decide!, by with_unfolding_all rfl, by with_unfolding_all rfl, by decide!⟩

end Grotrian

/-! ## adamant_to_toss: the level search -/

namespace Adamant

theorem search_step_of_done (a b : Int) (st : search) (x : level) (h : st.found = 2) :
    search_step a b st x = st := by
  unfold search_step
  rw [if_pos h]

theorem foldl_search_of_done (a b : Int) (xs : List level) (st : search) (h : st.found = 2) :
    xs.foldl (search_step a b) st = st := by
  induction xs with
  | nil => rfl
  | cons x xs ih => rw [List.foldl_cons, search_step_of_done a b st x h, ih]

theorem search_step_of_not_match (a b : Int) (st : search) (x : level)
    (h : ¬ (a = x.id ∨ b = x.id)) : search_step a b st x = st := by
  unfold search_step
  split_ifs <;> rfl

theorem foldl_search_filter (a b : Int) (xs : List level) (st : search) :
    xs.foldl (search_step a b) st =
      (xs.filter (fun x => decide (a = x.id ∨ b = x.id))).foldl (search_step a b) st := by
  induction xs generalizing st with
  | nil => rfl
  | cons x xs ih =>
    by_cases h : a = x.id ∨ b = x.id
    · rw [List.filter_cons_of_pos (by simpa using h), List.foldl_cons, List.foldl_cons, ih]
    · rw [List.filter_cons_of_neg (by simpa using h), List.foldl_cons,
        search_step_of_not_match a b st x h, ih]

/-- The search loop depends on the first two matching rows of the table only. -/
theorem search_levels_eq (vec : List level) (a b : Int) :
    search_levels vec a b =
      match vec.filter (fun x => decide (a = x.id ∨ b = x.id)) with
      | [] => { found := 0, l_low := level_default, l_up := level_default }
      | [x] => { found := 1, l_low := x, l_up := level_default }
      | x :: y :: _ =>
        if x.energy > y.energy then { found := 2, l_low := y, l_up := x }
        else { found := 2, l_low := x, l_up := y } := by
  unfold search_levels
  rw [foldl_search_filter]
  have hm : ∀ x ∈ vec.filter (fun x => decide (a = x.id ∨ b = x.id)), a = x.id ∨ b = x.id := by
    intro x hx
    simpa using (List.mem_filter.1 hx).2
  generalize vec.filter (fun x => decide (a = x.id ∨ b = x.id)) = ms at hm
  match ms, hm with
  | [], _ => rfl
  | [x], hm =>
    have hx := hm x (List.mem_singleton.2 rfl)
    simp [search_step, hx]
  | x :: y :: rest, hm =>
    have hx := hm x (List.mem_cons_self _ _)
    have hy := hm y (List.mem_cons_of_mem _ (List.mem_cons_self _ _))
    simp only [List.foldl_cons]
    have h1 : search_step a b { found := 0, l_low := level_default, l_up := level_default } x =
        { found := 1, l_low := x, l_up := level_default } := by
      simp [search_step, hx]
    rw [h1]
    by_cases he : x.energy > y.energy
    · have h2 : search_step a b { found := 1, l_low := x, l_up := level_default } y =
          { found := 2, l_low := y, l_up := x } := by
        simp [search_step, hy, he]
      rw [h2, foldl_search_of_done a b rest _ rfl, if_pos he]
    · have h2 : search_step a b { found := 1, l_low := x, l_up := level_default } y =
          { found := 2, l_low := x, l_up := y } := by
        simp [search_step, hy, he]
      rw [h2, foldl_search_of_done a b rest _ rfl, if_neg he]

/-- When the search finds two rows, they are the first two matching rows of the table, the
one of lower energy in `l_low`. -/
theorem search_found_two (vec : List level) (a b : Int)
    (h : (search_levels vec a b).found = 2) :
    ∃ x y rest, vec.filter (fun x => decide (a = x.id ∨ b = x.id)) = x :: y :: rest ∧
      (search_levels vec a b).l_low.energy ≤ (search_levels vec a b).l_up.energy ∧
      (((search_levels vec a b).l_low = x ∧ (search_levels vec a b).l_up = y) ∨
        ((search_levels vec a b).l_low = y ∧ (search_levels vec a b).l_up = x ∧
          x.energy > y.energy)) := by
  rw [search_levels_eq] at h ⊢
  generalize vec.filter (fun x => decide (a = x.id ∨ b = x.id)) = ms at h ⊢
  rcases ms with _ | ⟨x, _ | ⟨y, rest⟩⟩
  · simp at h
  · simp at h
  · refine ⟨x, y, rest, rfl, ?_⟩
    simp only
    by_cases he : x.energy > y.energy
    · rw [if_pos he]
      exact ⟨le_of_lt he, Or.inr ⟨rfl, rfl, he⟩⟩
    · rw [if_neg he]
      exact ⟨not_lt.mp he, Or.inl ⟨rfl, rfl⟩⟩

theorem search_found_two_iff (vec : List level) (a b : Int) :
    (search_levels vec a b).found = 2 ↔
      2 ≤ (vec.filter (fun x => decide (a = x.id ∨ b = x.id))).length := by
  rw [search_levels_eq]
  generalize vec.filter (fun x => decide (a = x.id ∨ b = x.id)) = ms
  rcases ms with _ | ⟨x, _ | ⟨y, rest⟩⟩
  · simp
  · simp
  · simp only [List.length_cons]
    constructor
    · intro _; omega
    · intro _; split_ifs <;> rfl

/-- With pairwise distinct ids the search finds two rows exactly when both ids are in the
table and differ. -/
theorem search_found_two_iff_of_nodup (vec : List level) (a b : Int)
    (hnd : (vec.map level.id).Nodup) :
    (search_levels vec a b).found = 2 ↔
      (a ∈ vec.map level.id ∧ b ∈ vec.map level.id ∧ a ≠ b) := by
  rw [search_found_two_iff]
  have hsub : List.Sublist (vec.filter (fun x => decide (a = x.id ∨ b = x.id))) vec :=
    List.filter_sublist _
  have hnd2 : ((vec.filter (fun x => decide (a = x.id ∨ b = x.id))).map level.id).Nodup :=
    List.Nodup.sublist (hsub.map _) hnd
  constructor
  · intro h
    have hmem : ∀ z ∈ vec.filter (fun x => decide (a = x.id ∨ b = x.id)),
        z ∈ vec ∧ (a = z.id ∨ b = z.id) := by
      intro z hz
      exact ⟨(List.mem_filter.1 hz).1, by simpa using (List.mem_filter.1 hz).2⟩
    generalize vec.filter (fun x => decide (a = x.id ∨ b = x.id)) = ms at h hnd2 hmem
    rcases ms with _ | ⟨x, _ | ⟨y, rest⟩⟩
    · simp at h
    · simp at h
    · obtain ⟨hxv0, hxm⟩ := hmem x (List.mem_cons_self _ _)
      obtain ⟨hyv0, hym⟩ := hmem y (List.mem_cons_of_mem _ (List.mem_cons_self _ _))
      have hxy : x.id ≠ y.id := by
        simp only [List.map_cons, List.nodup_cons, List.mem_cons, not_or] at hnd2
        exact hnd2.1.1
      have hxv : x.id ∈ vec.map level.id := List.mem_map_of_mem _ hxv0
      have hyv : y.id ∈ vec.map level.id := List.mem_map_of_mem _ hyv0
      rcases hxm with e1 | e1 <;> rcases hym with e2 | e2
      · exact absurd (e1.symm.trans e2) hxy
      · exact ⟨e1 ▸ hxv, e2 ▸ hyv, fun e => hxy (by rw [← e1, ← e2, e])⟩
      · exact ⟨e2 ▸ hyv, e1 ▸ hxv, fun e => hxy (by rw [← e1, ← e2, e])⟩
      · exact absurd (e1.symm.trans e2) hxy
  · rintro ⟨ha, hb, hab⟩
    obtain ⟨la, hla, ea⟩ := List.mem_map.1 ha
    obtain ⟨lb, hlb, eb⟩ := List.mem_map.1 hb
    have hne : la ≠ lb := fun e => hab (by rw [← ea, ← eb, e])
    have := Grotrian.length_le_of_nodup_subset [la, lb]
      (vec.filter (fun x => decide (a = x.id ∨ b = x.id)))
      (by simp [hne])
      (by
        intro z hz
        simp only [List.mem_cons, List.mem_singleton, List.not_mem_nil, or_false] at hz
        rcases hz with e | e
        · subst e
          exact List.mem_filter.2 ⟨hla, by simp [ea]⟩
        · subst e
          exact List.mem_filter.2 ⟨hlb, by simp [eb]⟩)
    simpa using this

/-- The transition loop returns 1 exactly when the search fails for some line. -/
theorem add_lines_eq_none_iff (lib : Cxx.Lib) (vec : List level) (lines : List line_vars)
    (acc : List transition) :
    add_lines lib vec lines acc = none ↔
      ∃ lv ∈ lines, (search_levels vec lv.id_low lv.id_up).found ≠ 2 := by
  induction lines generalizing acc with
  | nil => simp [add_lines]
  | cons lv rest ih =>
    simp only [add_lines]
    by_cases h : (search_levels vec lv.id_low lv.id_up).found ≠ 2
    · rw [if_pos h]
      simp only [List.mem_cons, true_iff]
      exact ⟨lv, Or.inl rfl, h⟩
    · rw [if_neg h, ih]
      constructor
      · rintro ⟨x, hx, hf⟩
        exact ⟨x, List.mem_cons_of_mem _ hx, hf⟩
      · rintro ⟨x, hx, hf⟩
        rcases List.mem_cons.1 hx with e | e
        · subst e; exact absurd hf h
        · exact ⟨x, e, hf⟩

end Adamant

/-! ## nist_to_toss: the stored transitions -/

namespace Nist

end Nist

/-! ## adamant_to_toss: abort and conversion -/

namespace Adamant

theorem run_code (lib : Cxx.Lib) (W : Grotrian.StdSort by_wvl) (vec : List level)
    (lines : List line_vars) :
    (run lib W (some vec) (some lines)).1 =
      if add_lines lib vec lines [] = none then 1 else 0 := by
  unfold run
  simp only
  cases h : add_lines lib vec lines [] with
  | none => simp
  | some res => simp

/-- C16, as stated, fails: with the table of scenario 1 (ids 1 and 2) and a line whose lower
and upper id are both 1, no referenced id is missing from the table, yet the run returns
1. -/
theorem abort_without_missing_id :
    ([scenario1_level1, scenario1_level2].map level.id).Nodup ∧
    ¬ ((run Cxx.decimal_lib insertion_by_wvl (some [scenario1_level1, scenario1_level2])
          (some [self_line])).1 ≠ 0 ↔
        ∃ lv ∈ [self_line],
          lv.id_low ∉ [scenario1_level1, scenario1_level2].map level.id ∨
          lv.id_up ∉ [scenario1_level1, scenario1_level2].map level.id) := by
  refine ⟨by decide, ?_⟩
  intro h
  have h1 : (run Cxx.decimal_lib insertion_by_wvl (some [scenario1_level1, scenario1_level2])
      (some [self_line])).1 ≠ 0 := by
    have : (run Cxx.decimal_lib insertion_by_wvl (some [scenario1_level1, scenario1_level2])
        (some [self_line])).1 = 1 := by decide!
    rw [this]
    decide
  obtain ⟨lv, hlv, hm⟩ := h.1 h1
  rw [List.mem_singleton] at hlv
  subst hlv
  revert hm
  decide

/-- C16, amended: on a level table with pairwise distinct ids, adamant_to_toss returns 1
exactly when some transition line gives an id that is not in the table or gives the same
id as lower and as upper id; otherwise it returns 0. -/
theorem abort_iff (lib : Cxx.Lib) (W : Grotrian.StdSort by_wvl) (vec_levels : List level)
    (lines : List line_vars) (hnd : (vec_levels.map level.id).Nodup) :
    ((run lib W (some vec_levels) (some lines)).1 = 1 ↔
      ∃ lv ∈ lines, lv.id_low ∉ vec_levels.map level.id ∨
        lv.id_up ∉ vec_levels.map level.id ∨ lv.id_low = lv.id_up) ∧
    ((run lib W (some vec_levels) (some lines)).1 = 0 ↔
      ¬ ∃ lv ∈ lines, lv.id_low ∉ vec_levels.map level.id ∨
        lv.id_up ∉ vec_levels.map level.id ∨ lv.id_low = lv.id_up) := by
  have key : add_lines lib vec_levels lines [] = none ↔
      ∃ lv ∈ lines, lv.id_low ∉ vec_levels.map level.id ∨
        lv.id_up ∉ vec_levels.map level.id ∨ lv.id_low = lv.id_up := by
    rw [add_lines_eq_none_iff]
    constructor
    · rintro ⟨lv, hlv, hf⟩
      refine ⟨lv, hlv, ?_⟩
      rw [Ne, search_found_two_iff_of_nodup vec_levels _ _ hnd] at hf
      by_contra hc
      simp only [not_or] at hc
      exact hf ⟨not_not.mp hc.1, not_not.mp hc.2.1, hc.2.2⟩
    · rintro ⟨lv, hlv, hm⟩
      refine ⟨lv, hlv, ?_⟩
      rw [Ne, search_found_two_iff_of_nodup vec_levels _ _ hnd]
      rintro ⟨h1, h2, h3⟩
      rcases hm with hm | hm | hm
      · exact hm h1
      · exact hm h2
      · exact h3 hm
  rw [run_code]
  constructor
  · rw [← key]
    split_ifs with h
    · simp [h]
    · simp [h]
  · rw [← key]
    split_ifs with h
    · simp [h]
    · simp [h]

/-- Witness of C16 (amended): on the table of scenario 1 the line 1 -> 2 gives exit code 0,
a line that references the absent id 3 gives exit code 1. -/
theorem abort_iff_witness :
    ([scenario1_level1, scenario1_level2].map level.id).Nodup ∧
    (run Cxx.decimal_lib insertion_by_wvl (some [scenario1_level1, scenario1_level2])
      (some [{ id_low := 1, id_up := 2, wvl := 5000, A := 10000000, gf := 1 / 10 }])).1 = 0 ∧
    (run Cxx.decimal_lib insertion_by_wvl (some [scenario1_level1, scenario1_level2])
      (some [missing_line])).1 = 1 :=
  ⟨by decide,
    ((abort_iff Cxx.decimal_lib insertion_by_wvl [scenario1_level1, scenario1_level2]
      [{ id_low := 1, id_up := 2, wvl := 5000, A := 10000000, gf := 1 / 10 }]
      (by decide)).2).2 (by decide),
    ((abort_iff Cxx.decimal_lib insertion_by_wvl [scenario1_level1, scenario1_level2]
      [missing_line] (by decide)).1).2 ⟨missing_line, List.mem_singleton.2 rfl, by decide⟩⟩

/-- C17: for a level table with pairwise distinct ids and a line whose two ids belong to
two different rows `la`, `lb` of the table, the stored row has the wavelength of the line,
as `low` the one of `la`, `lb` with the lower energy and as `up` the other,
`loggf = log10(gf)` and `gA = A * (2 * up.J + 1)`. With the two levels of scenario 1,
w = 5000, A = 1e7 and gf = 0.1 the row has low = level 1, up = level 2, loggf = log10(0.1),
which is -1, and gA = 4.0e7. -/
theorem conversion_row (lib : Cxx.Lib) (vec_levels : List level)
    (hnd : (vec_levels.map level.id).Nodup) (la lb : level) (ha : la ∈ vec_levels)
    (hb : lb ∈ vec_levels) (hab : la.id ≠ lb.id) (w A gf : Rat) :
    (∃ low up : level,
      add_lines lib vec_levels [{ id_low := la.id, id_up := lb.id, wvl := w, A := A, gf := gf }]
          [] =
        some [{ wvl := w, low := low, up := up, loggf := lib.log10 gf,
                gA := A * (2 * up.J + 1) }] ∧
      low.energy ≤ up.energy ∧ ((low = la ∧ up = lb) ∨ (low = lb ∧ up = la))) ∧
    (lib.log10 (1 / 10) = -1 →
      add_lines lib [scenario1_level1, scenario1_level2]
          [{ id_low := 1, id_up := 2, wvl := 5000, A := 10000000, gf := 1 / 10 }] [] =
        some [scenario1_row]) := by
  constructor
  · have hf : (search_levels vec_levels la.id lb.id).found = 2 :=
      (search_found_two_iff_of_nodup vec_levels _ _ hnd).2
        ⟨List.mem_map_of_mem _ ha, List.mem_map_of_mem _ hb, hab⟩
    obtain ⟨x, y, rest, hms, hle, hxy⟩ := search_found_two vec_levels _ _ hf
    have hx : x ∈ vec_levels.filter (fun z => decide (la.id = z.id ∨ lb.id = z.id)) := by
      rw [hms]; exact List.mem_cons_self _ _
    have hy : y ∈ vec_levels.filter (fun z => decide (la.id = z.id ∨ lb.id = z.id)) := by
      rw [hms]; exact List.mem_cons_of_mem _ (List.mem_cons_self _ _)
    have hxm : la.id = x.id ∨ lb.id = x.id := by simpa using (List.mem_filter.1 hx).2
    have hym : la.id = y.id ∨ lb.id = y.id := by simpa using (List.mem_filter.1 hy).2
    have hxv := (List.mem_filter.1 hx).1
    have hyv := (List.mem_filter.1 hy).1
    have hsub : List.Sublist (vec_levels.filter (fun z => decide (la.id = z.id ∨ lb.id = z.id)))
        vec_levels := List.filter_sublist _
    have hnd2 := List.Nodup.sublist (hsub.map level.id) hnd
    rw [hms] at hnd2
    have hne : x.id ≠ y.id := by
      simp only [List.map_cons, List.nodup_cons, List.mem_cons, not_or] at hnd2
      exact hnd2.1.1
    have inj := List.inj_on_of_nodup_map hnd
    have hpair : (x = la ∧ y = lb) ∨ (x = lb ∧ y = la) := by
      rcases hxm with e1 | e1 <;> rcases hym with e2 | e2
      · exact absurd (e1.symm.trans e2) hne
      · exact Or.inl ⟨(inj ha hxv e1).symm, (inj hb hyv e2).symm⟩
      · exact Or.inr ⟨(inj hb hxv e1).symm, (inj ha hyv e2).symm⟩
      · exact absurd (e1.symm.trans e2) hne
    refine ⟨(search_levels vec_levels la.id lb.id).l_low,
      (search_levels vec_levels la.id lb.id).l_up, ?_, hle, ?_⟩
    · simp only [add_lines, hf, ne_eq, not_true_eq_false, if_false, List.nil_append]
    · rcases hxy with ⟨e1, e2⟩ | ⟨e1, e2, _⟩ <;> rcases hpair with ⟨e3, e4⟩ | ⟨e3, e4⟩
      · exact Or.inl ⟨e1.trans e3, e2.trans e4⟩
      · exact Or.inr ⟨e1.trans e3, e2.trans e4⟩
      · exact Or.inr ⟨e1.trans e4, e2.trans e3⟩
      · exact Or.inl ⟨e1.trans e4, e2.trans e3⟩
  · intro hlog
    have hs : search_levels [scenario1_level1, scenario1_level2] 1 2 =
        { found := 2, l_low := scenario1_level1, l_up := scenario1_level2 } := by
      decide!
    simp only [add_lines, hs, ne_eq, not_true_eq_false, if_false, List.nil_append, hlog]
    have hJ : (10000000 : Rat) * (2 * scenario1_level2.J + 1) = 40000000 := by
      simp only [scenario1_level2]
      norm_num
    rw [hJ]
    rfl

/-- Witness of C17: scenario 1 run from the text of the two files, with decimal conversion
in exact arithmetic: exit code 0 and the single row of the scenario. -/
theorem conversion_row_witness :
    ([scenario1_level1, scenario1_level2].map level.id).Nodup ∧
    read_levels Cxx.decimal_lib (fun _ => level_junk_zero) scenario1_level_file =
      [scenario1_level1, scenario1_level2] ∧
    main Cxx.decimal_lib insertion_by_wvl (some scenario1_level_file)
      (some scenario1_line_file) (fun _ => level_junk_zero) (fun _ => line_vars_zero) =
      (0, [scenario1_row]) ∧
    add_lines Cxx.decimal_lib [scenario1_level1, scenario1_level2]
        [{ id_low := 1, id_up := 2, wvl := 5000, A := 10000000, gf := 1 / 10 }] [] =
      some [scenario1_row] :=
  ⟨by decide, by decide!, by decide!,
    (conversion_row Cxx.decimal_lib [scenario1_level1, scenario1_level2] (by decide)
      scenario1_level1 scenario1_level2 (List.mem_cons_self _ _)
      (List.mem_cons_of_mem _ (List.mem_cons_self _ _)) (by decide) 5000 10000000 (1 / 10)).2
      (by decide!)⟩

end Adamant

/-! ## Grotrian tools: transitions, the no-levels exit, the zero point, the states -/

namespace Grotrian

/-- C15, as stated, fails: the transition line of the sample TMAD file names the level of
energy 1 first and the level of energy 0 second, and the stored transition has
`low.energy = 1 > 0 = up.energy`; the sample TOSS line gives the energy 5000 first and 0
second, and the stored transition has `low.energy = 5000 > 0 = up.energy`. -/
theorem grotrian_lines_keep_reversed_order :
    (tmad_read Cxx.decimal_lib default_options (fun _ => tmad_junk_zero) 0 tmad_file
      (tmad_init 0 0 0)).map (fun v => v.vec_lines) = some [tmad_file_line] ∧
    ¬ (tmad_file_line.low.energy ≤ tmad_file_line.up.energy) ∧
    toss_read_levels Cxx.decimal_lib default_options (fun _ => level_zero) 0 toss_level_file
      [] = some [toss_level_1S, toss_level_3Po] ∧
    toss_read_lines Cxx.decimal_lib [toss_level_1S, toss_level_3Po] (fun _ => line_junk_zero) 0
      [toss_reversed_line] [] = [toss_reversed_stored] ∧
    ¬ (toss_reversed_stored.low.energy ≤ toss_reversed_stored.up.energy) := by
  refine ⟨by decide!, by decide!, by decide!,
    by decide!, by decide!⟩

theorem find_some_mem {α : Type} (p : α → Bool) (xs : List α) (a : α)
    (h : xs.find? p = some a) : a ∈ xs ∧ p a = true :=
  ⟨List.mem_of_find?_eq_some h, List.find?_some h⟩

/-- C15, amended: both Grotrian tools keep the order of the record and never swap. In
toss_to_grotrian a stored transition has as `low` the first accepted level whose energy
equals the first energy of the line and as `up` the first accepted level whose energy
equals the second one, so `low.energy <= up.energy` holds exactly when the line gives the
two energies in that order. In tmad_to_grotrian a line of the transition section that is
not `0` either leaves `vec_lines` as it is or appends one transition whose `low` is the
first accepted level named by the characters 0..9 of the line and whose `up` is the first
accepted level named by the characters 10..19. -/
theorem grotrian_lines_follow_record (lib : Cxx.Lib) :
    (∀ (vec_levels : List level) (junk : line_junk) (line : List Char) (tr : transition),
      toss_read_line lib vec_levels junk line = some tr →
        vec_levels.find? (fun x => decide (x.energy = (toss_extract_line lib junk line).e_low))
          = some tr.low ∧
        vec_levels.find? (fun x => decide (x.energy = (toss_extract_line lib junk line).e_up))
          = some tr.up ∧
        tr.low.energy = (toss_extract_line lib junk line).e_low ∧
        tr.up.energy = (toss_extract_line lib junk line).e_up ∧
        (tr.low.energy ≤ tr.up.energy ↔
          (toss_extract_line lib junk line).e_low ≤ (toss_extract_line lib junk line).e_up)) ∧
    (∀ (junk : tmad_junk) (v v1 : tmad_vars) (line : List Char),
      tmad_read_rbb lib junk v line = some v1 →
        v1.vec_lines = v.vec_lines ∨
        ∃ tr, v1.vec_lines = v.vec_lines ++ [tr] ∧
          v.vec_levels.find? (fun x => decide (x.name = String.mk (line.take 10)))
            = some tr.low ∧
          v.vec_levels.find? (fun x => decide (x.name = String.mk ((line.drop 10).take 10)))
            = some tr.up) := by
  constructor
  · intro vec_levels junk line tr h
    unfold toss_read_line at h
    split at h
    · cases h
    · rename_i low hlow
      split at h
      · cases h
      · rename_i up hup
        injection h with h
        subst h
        have e1 : low.energy = (toss_extract_line lib junk line).e_low := by
          simpa using (find_some_mem _ _ _ hlow).2
        have e2 : up.energy = (toss_extract_line lib junk line).e_up := by
          simpa using (find_some_mem _ _ _ hup).2
        refine ⟨hlow, hup, e1, e2, ?_⟩
        simp only [e1, e2]
  · intro junk v v1 line h
    unfold tmad_read_rbb at h
    split at h
    · injection h with h
      subst h
      exact Or.inl rfl
    · rename_i low hlow
      split at h
      · cases h
      · rename_i n2 hn2
        have hn : n2 = (line.drop 10).take 10 := by
          unfold Cxx.substr at hn2
          split_ifs at hn2
          injection hn2 with hn2
          exact hn2.symm
        split at h
        · injection h with h
          subst h
          exact Or.inl rfl
        · rename_i up hup
          split at h
          · cases h
          · injection h with h
            subst h
            refine Or.inr ⟨_, rfl, hlow, ?_⟩
            rw [← hn]
            exact hup

/-- Witness of C15 (amended) at the sample TOSS line: the first energy of the line is 5000,
the second 0, and the stored levels are the ones with these energies. -/
theorem grotrian_lines_follow_record_witness :
    toss_read_line Cxx.decimal_lib [toss_level_1S, toss_level_3Po] line_junk_zero
      toss_reversed_line = some toss_reversed_stored ∧
    toss_reversed_stored.low.energy =
      (toss_extract_line Cxx.decimal_lib line_junk_zero toss_reversed_line).e_low ∧
    toss_reversed_stored.up.energy =
      (toss_extract_line Cxx.decimal_lib line_junk_zero toss_reversed_line).e_up :=
  ⟨by decide!,
    ((grotrian_lines_follow_record Cxx.decimal_lib).1 [toss_level_1S, toss_level_3Po]
      line_junk_zero toss_reversed_line toss_reversed_stored
      (by decide!)).2.2.1,
    ((grotrian_lines_follow_record Cxx.decimal_lib).1 [toss_level_1S, toss_level_3Po]
      line_junk_zero toss_reversed_line toss_reversed_stored
      (by decide!)).2.2.2.1⟩

/-- C18: when the reading loop ends with no accepted level, each Grotrian tool ends with
the message "found no levels" and no diagram: nothing of the grouping, of `total`, of
`unit` or of the layout is computed. This covers the empty file. Conversely a run that
plots has at least one accepted level, so its `total` is not zero. -/
theorem no_levels_no_diagram (lib : Cxx.Lib) (S : Sorters) (W : StdSort sort_by_wvl)
    (o : options) :
    (∀ (lines : List (List Char)) (alen charge : Int) (ionlimit : Rat) (junk : Nat → tmad_junk)
        (v : tmad_vars),
      tmad_read lib o junk 0 lines (tmad_init alen charge ionlimit) = some v →
      v.vec_levels = [] →
        tmad_main lib S o (some lines) alen charge ionlimit junk =
          run_result.exit 0 output.found_no_levels) ∧
    (∀ (lines : List (List Char)) (line_file : Option (List (List Char))) (ionlimit : Rat)
        (junk : Nat → level) (ljunk : Nat → line_junk),
      toss_read_levels lib o junk 0 lines [] = some [] →
        toss_main lib S W o ionlimit (some lines) line_file junk ljunk =
          run_result.exit (-1) output.found_no_levels) ∧
    (∀ (alen charge : Int) (ionlimit : Rat) (junk : Nat → tmad_junk),
      tmad_main lib S o (some []) alen charge ionlimit junk =
        run_result.exit 0 output.found_no_levels) ∧
    (∀ (line_file : Option (List (List Char))) (ionlimit : Rat) (junk : Nat → level)
        (ljunk : Nat → line_junk),
      toss_main lib S W o ionlimit (some []) line_file junk ljunk =
        run_result.exit (-1) output.found_no_levels) ∧
    (∀ (file : Option (List (List Char))) (alen charge : Int) (ionlimit : Rat)
        (junk : Nat → tmad_junk) (code : Int) (d : diagram),
      tmad_main lib S o file alen charge ionlimit junk = run_result.exit code (output.plot d) →
        d.total ≠ 0) ∧
    (∀ (level_file line_file : Option (List (List Char))) (ionlimit : Rat)
        (junk : Nat → level) (ljunk : Nat → line_junk) (code : Int) (d : diagram),
      toss_main lib S W o ionlimit level_file line_file junk ljunk =
          run_result.exit code (output.plot d) →
        d.total ≠ 0) := by
  have htot : ∀ vec : List level, ¬ vec.length < 1 → total S vec ≠ 0 := by
    intro vec hv
    have hne : vec ≠ [] := by
      intro e
      rw [e] at hv
      exact hv (by decide)
    have h1 := all_multiplets_ne_nil S vec hne
    have h2 := total_ge_groups S vec
    have h3 : 1 ≤ (all_multiplets S vec).length :=
      Nat.one_le_iff_ne_zero.mpr (fun h => h1 (List.length_eq_zero.mp h))
    omega
  have hT : ∀ (lines : List (List Char)) (alen charge : Int) (ionlimit : Rat)
      (junk : Nat → tmad_junk) (v : tmad_vars),
      tmad_read lib o junk 0 lines (tmad_init alen charge ionlimit) = some v →
      v.vec_levels = [] →
        tmad_main lib S o (some lines) alen charge ionlimit junk =
          run_result.exit 0 output.found_no_levels := by
    intro lines alen charge ionlimit junk v h hv
    unfold tmad_main
    simp only [h, hv, List.length_nil]
    rfl
  have hS : ∀ (lines : List (List Char)) (line_file : Option (List (List Char)))
      (ionlimit : Rat) (junk : Nat → level) (ljunk : Nat → line_junk),
      toss_read_levels lib o junk 0 lines [] = some [] →
        toss_main lib S W o ionlimit (some lines) line_file junk ljunk =
          run_result.exit (-1) output.found_no_levels := by
    intro lines line_file ionlimit junk ljunk h
    unfold toss_main
    simp only [h, List.length_nil]
    rfl
  refine ⟨hT, hS, ?_, ?_, ?_, ?_⟩
  · intro alen charge ionlimit junk
    exact hT [] alen charge ionlimit junk _ rfl rfl
  · intro line_file ionlimit junk ljunk
    exact hS [] line_file ionlimit junk ljunk rfl
  · intro file alen charge ionlimit junk code d h
    unfold tmad_main at h
    split at h
    · cases h
    · split at h
      · cases h
      · split_ifs at h with hl
        · cases h
        · injection h with _ h2
          injection h2 with h2
          subst h2
          exact htot _ hl
  · intro level_file line_file ionlimit junk ljunk code d h
    unfold toss_main at h
    split at h
    · cases h
    · split at h
      · cases h
      · split_ifs at h with hl
        · cases h
        · injection h with _ h2
          injection h2 with h2
          subst h2
          exact htot _ hl

/-- Witness of C18: with `l=0` every level of the sample TMAD file is filtered out (its `l`
is at least 0), the loop ends without an accepted level and the run ends with "found no
levels". -/
theorem no_levels_no_diagram_witness :
    (tmad_read Cxx.decimal_lib { default_options with skip_l := 0 } (fun _ => tmad_junk_zero) 0
      tmad_file (tmad_init 0 0 0)).map (fun v => v.vec_levels) = some [] ∧
    tmad_main Cxx.decimal_lib insertion_sorters { default_options with skip_l := 0 }
      (some tmad_file) 0 0 0 (fun _ => tmad_junk_zero) =
      run_result.exit 0 output.found_no_levels := by
  have hm : (tmad_read Cxx.decimal_lib { default_options with skip_l := 0 }
      (fun _ => tmad_junk_zero) 0 tmad_file (tmad_init 0 0 0)).map (fun v => v.vec_levels) =
      some [] := by decide!
  refine ⟨hm, ?_⟩
  cases hr : tmad_read Cxx.decimal_lib { default_options with skip_l := 0 }
      (fun _ => tmad_junk_zero) 0 tmad_file (tmad_init 0 0 0) with
  | none =>
    rw [hr] at hm
    cases hm
  | some v =>
    rw [hr] at hm
    simp only [Option.map_some', Option.some.injEq] at hm
    exact (no_levels_no_diagram Cxx.decimal_lib insertion_sorters insertion_by_wvl
      { default_options with skip_l := 0 }).1 tmad_file 0 0 0 (fun _ => tmad_junk_zero) v hr hm

/-- C19 (code defect): the zero point is not the first level record when the filters remove
that record. In the sample TMAD file the first level record has the raw value 2c and the
second the raw value c. Without filter the ionisation limit is 2 and the energies are 0
and 1. With `l=1` the first record (an odd P level, `l = 1`) is removed by the filter after
it has set the limit; `vec_levels` is still empty when the second record is read, so the
limit is taken again, now as 1, and the accepted level gets the energy 0 instead of
2 - 1 = 1. -/
theorem tmad_zero_point_moves_with_filter :
    (tmad_read Cxx.decimal_lib default_options (fun _ => tmad_junk_zero) 0 tmad_file
      (tmad_init 0 0 0)).map
        (fun v => (v.ionlimit, v.vec_levels.map (fun x => (x.name, x.energy)))) =
      some (2, [("HE12P  3PO", 0), ("HE12S  3S ", 1)]) ∧
    (tmad_read Cxx.decimal_lib { default_options with skip_l := 1 } (fun _ => tmad_junk_zero) 0
      tmad_file (tmad_init 0 0 0)).map
        (fun v => (v.ionlimit, v.vec_levels.map (fun x => (x.name, x.energy)))) =
      some (1, [("HE12S  3S ", 0)]) ∧
    (59958491600 : Rat) / c_light - 29979245800 / c_light = 1 := by
  refine ⟨by decide!, by decide!, by decide!⟩

/-- C20, as stated, fails: in `SEARCH_ATOM` the line `ATOMIC` changes the state to
`READ_ATOM` although its trimmed content is not `ATOM`; in `SEARCH_CONTENT` the line ` L`
(with a leading blank) leaves the state unchanged although its trimmed content is `L`. -/
theorem sentinel_is_not_trimmed_content :
    (tmad_step Cxx.decimal_lib default_options tmad_junk_zero (tmad_init 0 0 0)
      "ATOMIC".data).map (fun v => v.s) = some state.READ_ATOM ∧
    Cxx.trim "ATOMIC".data ≠ "ATOM".data ∧
    (tmad_step Cxx.decimal_lib default_options tmad_junk_zero
      { tmad_init 0 0 0 with s := state.SEARCH_CONTENT } " L".data).map (fun v => v.s) =
      some state.SEARCH_CONTENT ∧
    Cxx.trim " L".data = "L".data := by
  refine ⟨by decide!, by decide!, by decide!, by decide!⟩

theorem take_one_eq_dot (line : List Char) :
    line.take 1 = ['.'] ↔ line.head? = some '.' := by
  rcases line with _ | ⟨c, rest⟩ <;> simp

theorem take_four_eq_atom (line : List Char) :
    line.take 4 = ['A', 'T', 'O', 'M'] ↔ ['A', 'T', 'O', 'M'].isPrefixOf line = true := by
  rw [List.isPrefixOf_iff_prefix, List.prefix_iff_eq_take]
  exact eq_comm

/-- C20, amended: the state after a line that does not crash the program is decided by the
raw, untrimmed line. A line that starts with `.` changes nothing; in `SEARCH_ATOM` a line
whose first four characters are `ATOM` leads to `READ_ATOM`; the line read in `READ_ATOM`
always leads to `SEARCH_CONTENT`; in `SEARCH_CONTENT` the lines `L` and `LTE` lead to
`READ_LEVELS` and the line `RBB` to `READ_RBB`; in `READ_LEVELS` and `READ_RBB` the line `0`
leads back to `SEARCH_CONTENT`; every other line leaves the state as it is. The step cannot
crash on a comment line, in the first three states, or on the line `0`. -/
theorem tmad_state_follows_raw_line (lib : Cxx.Lib) (o : options) (junk : tmad_junk)
    (v : tmad_vars) (line : List Char) :
    (∀ v1, tmad_step lib o junk v line = some v1 → v1.s = amended_next_state v.s line) ∧
    ((line.head? = some '.' ∨ v.s = state.SEARCH_ATOM ∨ v.s = state.READ_ATOM ∨
        v.s = state.SEARCH_CONTENT ∨ line = ['0']) →
      ∃ v1, tmad_step lib o junk v line = some v1) := by
  constructor
  · intro v1 h
    unfold tmad_step at h
    unfold amended_next_state
    by_cases h0 : line.take 1 = ['.']
    · rw [if_pos h0] at h
      rw [if_pos ((take_one_eq_dot line).1 h0)]
      injection h with h
      rw [← h]
    · rw [if_neg h0] at h
      rw [if_neg (fun e => h0 ((take_one_eq_dot line).2 e))]
      cases hs : v.s <;> rw [hs] at h <;> simp only at h ⊢
      · by_cases ha : line.take 4 = ['A', 'T', 'O', 'M']
        · rw [if_pos ha] at h
          rw [if_pos ((take_four_eq_atom line).1 ha)]
          injection h with h
          rw [← h]
        · rw [if_neg ha] at h
          rw [if_neg (fun e => ha ((take_four_eq_atom line).2 e))]
          injection h with h
          rw [← h, hs]
      · injection h with h
        rw [← h]
        exact (tmad_read_atom_spec v line).1
      · by_cases h1 : line = ['L']
        · rw [if_pos h1] at h
          rw [if_pos (Or.inl h1)]
          injection h with h
          rw [← h]
        · rw [if_neg h1] at h
          by_cases h2 : line = ['L', 'T', 'E']
          · rw [if_pos h2] at h
            rw [if_pos (Or.inr h2)]
            injection h with h
            rw [← h]
          · rw [if_neg h2] at h
            rw [if_neg (by rintro (e | e); exact h1 e; exact h2 e)]
            by_cases h3 : line = ['R', 'B', 'B']
            · rw [if_pos h3] at h
              rw [if_pos h3]
              injection h with h
              rw [← h]
            · rw [if_neg h3] at h
              rw [if_neg h3]
              injection h with h
              rw [← h, hs]
      · by_cases hz : line = ['0']
        · rw [if_pos hz] at h
          rw [if_pos hz]
          injection h with h
          rw [← h]
        · rw [if_neg hz] at h
          rw [if_neg hz]
          rw [(tmad_read_level_levels lib o junk v v1 line h).1, hs]
      · by_cases hz : line = ['0']
        · rw [if_pos hz] at h
          rw [if_pos hz]
          injection h with h
          rw [← h]
        · rw [if_neg hz] at h
          rw [if_neg hz]
          rw [(tmad_read_rbb_levels lib junk v v1 line h).1, hs]
  · intro hc
    unfold tmad_step
    by_cases h0 : line.take 1 = ['.']
    · rw [if_pos h0]
      exact ⟨_, rfl⟩
    · rw [if_neg h0]
      rcases hc with hc | hc | hc | hc | hc
      · exact absurd ((take_one_eq_dot line).2 hc) h0
      · rw [hc]
        simp only
        split_ifs <;> exact ⟨_, rfl⟩
      · rw [hc]
        exact ⟨_, rfl⟩
      · rw [hc]
        simp only
        split_ifs <;> exact ⟨_, rfl⟩
      · cases hs : v.s <;> simp only
        · split_ifs <;> exact ⟨_, rfl⟩
        · exact ⟨_, rfl⟩
        · split_ifs <;> exact ⟨_, rfl⟩
        · rw [if_pos hc]
          exact ⟨_, rfl⟩
        · rw [if_pos hc]
          exact ⟨_, rfl⟩

/-- Witness of C20 (amended): the header lines of the sample TMAD file, taken from the
initial state, lead through `READ_ATOM` and `SEARCH_CONTENT` to `READ_LEVELS`. -/
theorem tmad_state_follows_raw_line_witness :
    amended_next_state state.SEARCH_ATOM "ATOM".data = state.READ_ATOM ∧
    amended_next_state state.SEARCH_CONTENT "L".data = state.READ_LEVELS ∧
    (∃ v1, tmad_step Cxx.decimal_lib default_options tmad_junk_zero (tmad_init 0 0 0)
      "ATOM".data = some v1 ∧ v1.s = state.READ_ATOM) := by
  refine ⟨by decide, by decide, ?_⟩
  obtain ⟨v1, h1⟩ := (tmad_state_follows_raw_line Cxx.decimal_lib default_options
    tmad_junk_zero (tmad_init 0 0 0) "ATOM".data).2 (Or.inr (Or.inl rfl))
  refine ⟨v1, h1, ?_⟩
  rw [(tmad_state_follows_raw_line Cxx.decimal_lib default_options tmad_junk_zero
    (tmad_init 0 0 0) "ATOM".data).1 v1 h1]
  decide

end Grotrian

/-! ## Accepted multiplicity characters -/

namespace Cxx

/-- A one-character buffer that does not start with white space passes the sentry unchanged. -/
theorem sentry_single (c : Char) (h : isspace c = false) :
    sentry (istream.of [c]) = Sum.inr [c] := by
  simp [sentry, istream.of, istream.good, List.dropWhile, h]

/-- Reading an int from a single non-blank character: the digit value, or 0 when it is no digit. -/
theorem get_int_single (c : Char) (v : Int) (h : isspace c = false) :
    (get_int (istream.of [c]) v).1 = if c.isDigit then ((c.toNat - 48 : Nat) : Int) else 0 := by
  unfold get_int
  rw [sentry_single c h]
  simp only [List.head?_cons, Option.some.injEq]
  by_cases h1 : c = '-'
  · subst h1
    decide
  · by_cases h2 : c = '+'
    · subst h2
      decide
    · simp only [h1, h2, or_self, if_false]
      by_cases hd : c.isDigit = true
      · have hb : c.toNat - 48 ≤ 9 := by
          simp only [Char.isDigit, Bool.and_eq_true, decide_eq_true_eq] at hd
          have := hd.2
          have h57 : c.val ≤ 57 := this
          have : c.toNat ≤ 57 := by
            simpa [Char.toNat] using h57
          omega
        simp only [List.takeWhile, List.dropWhile, hd, digits_value, List.isEmpty_cons,
          Bool.false_eq_true, if_false, List.foldl_cons, List.foldl_nil, Nat.mul_zero,
          Nat.zero_add, if_true]
        rw [if_neg (by omega), if_neg (by omega)]
        simp
      · simp [List.takeWhile, hd]

end Cxx

namespace Grotrian

/-- The helper or_crash succeeds exactly on some. -/
theorem or_crash_ok {α : Type} (x : Option α) (a : α) :
    or_crash x = Except.ok a ↔ x = some a := by
  cases x <;> simp [or_crash]

/-- The two-argument substr succeeds exactly when pos is within the string. -/
theorem substr_some (s r : List Char) (pos n : Nat) :
    Cxx.substr s pos n = some r ↔ pos ≤ s.length ∧ r = (s.drop pos).take n := by
  unfold Cxx.substr
  split_ifs with h
  · simp; omega
  · simp only [Option.some.injEq]
    constructor
    · intro e; exact ⟨by omega, e.symm⟩
    · intro e; exact e.2.symm

/-- The head of the first character of a string is the head of the string. -/
theorem headD_take_one (l : List Char) (d : Char) : (l.take 1).headD d = l.headD d := by
  cases l <;> rfl

/-- A string with first character c has c as its one-character prefix. -/
theorem take_one_of_head (l : List Char) (c : Char) (h : l.head? = some c) : l.take 1 = [c] := by
  cases l with
  | nil => cases h
  | cons a t => simp at h; simp [h]

/-- A single white-space character is consumed by the sentry, which then sets eofbit and failbit. -/
theorem sentry_single_space (c : Char) (h : Cxx.isspace c = true) :
    Cxx.sentry (Cxx.istream.of [c]) =
      Sum.inl { buf := [], eofbit := true, failbit := true } := by
  simp [Cxx.sentry, Cxx.istream.of, Cxx.istream.good, List.dropWhile, h]

/-- The multiplicity test of the TOSS reader on the first term character: a non-blank character passes
only as a digit 1..9, a blank one leaves the variable as it was. -/
theorem mult_char_core (term m L : List Char) (jm : Int)
    (hm : m = (term.drop 0).take 1) (hL : L = (term.drop 1).take 1)
    (hchk : ¬ ((Cxx.get_int (Cxx.istream.of m) jm).1 < 1 ∨
      (Cxx.get_int (Cxx.istream.of m) jm).1 > 9)) :
    det_L (L.headD (Char.ofNat 0)) = det_L ((term.drop 1).headD (Char.ofNat 0)) ∧
    (∀ c, term.head? = some c → Cxx.isspace c = false →
      (c.isDigit = true ∧ c ≠ '0') ∧
        (Cxx.get_int (Cxx.istream.of m) jm).1 = ((c.toNat - 48 : Nat) : Int)) ∧
    (∀ c, term.head? = some c → Cxx.isspace c = true →
      (Cxx.get_int (Cxx.istream.of m) jm).1 = jm) := by
  subst hm hL
  refine ⟨by rw [headD_take_one], ?_, ?_⟩
  · intro c hc hs
    rw [List.drop_zero, take_one_of_head _ c hc, Cxx.get_int_single c jm hs] at hchk ⊢
    by_cases hd : c.isDigit = true
    · rw [if_pos hd] at hchk ⊢
      refine ⟨⟨hd, ?_⟩, rfl⟩
      intro e
      subst e
      revert hchk
      decide
    · rw [if_neg hd] at hchk
      omega
  · intro c hc hs
    rw [List.drop_zero, take_one_of_head _ c hc]
    unfold Cxx.get_int
    rw [sentry_single_space c hs]

/-- An accepted TOSS level has l from the second term character; its multiplicity is the digit 1..9 in
the first term character when that is not white space, and the value the variable had before
otherwise. -/
theorem toss_accept_chars (lib : Cxx.Lib) (junk : level) (line : List Char) (lev : level)
    (h : toss_parse_level lib junk line = Except.ok lev) :
    lev.l = det_L ((lev.term.data.drop 1).headD (Char.ofNat 0)) ∧
    (∀ c, lev.term.data.head? = some c → Cxx.isspace c = false →
      (c.isDigit = true ∧ c ≠ '0') ∧ lev.mult = ((c.toNat - 48 : Nat) : Int)) ∧
    (∀ c, lev.term.data.head? = some c → Cxx.isspace c = true → lev.mult = junk.mult) := by
  unfold toss_parse_level at h
  simp only [bind, Except.bind] at h
  repeat' split at h
  all_goals first
    | contradiction
    | (injection h with h
       subst h
       simp only [or_crash_ok, substr_some] at *
       exact mult_char_core _ _ _ _
         (And.right ‹_ ∧ _ = List.take 1 (List.drop 0 (List.map Char.toUpper _))›)
         (And.right ‹_ ∧ _ = List.take 1 (List.drop 1 (List.map Char.toUpper _))›)
         (by assumption))

end Grotrian

namespace Cxx

/-- A token read into an empty string does not start with white space. -/
theorem get_string_head (ss : istream) (c : Char)
    (h : (get_string ss []).1.head? = some c) : isspace c = false := by
  unfold get_string at h
  cases hs : sentry ss with
  | inl ss1 => rw [hs] at h; cases h
  | inr r =>
    rw [hs] at h
    cases r with
    | nil => cases h
    | cons a t =>
      simp only [List.takeWhile] at h
      cases ha : isspace a
      · rw [ha] at h
        simp at h
        rw [← h]; exact ha
      · rw [ha] at h
        cases h

end Cxx

namespace Grotrian

/-- The multiplicity test of the TMAD reader: the term is a token of two or three characters
that does not start with white space, so it passes only with a digit 1..9 in front. -/
theorem tmad_mult_core (t0 : List Char) (jm : Int)
    (hlen : t0.length = 2 ∨ t0.length = 3)
    (hns : ∀ c, t0.head? = some c → Cxx.isspace c = false)
    (hchk : ¬ ((Cxx.get_int (Cxx.istream.of ((t0.take 2).take 1)) jm).1 < 1 ∨
      (Cxx.get_int (Cxx.istream.of ((t0.take 2).take 1)) jm).1 > 9)) :
    det_L ((((t0.take 2).drop 1).take 1).headD (Char.ofNat 0)) =
      det_L (((t0.take 2).drop 1).headD (Char.ofNat 0)) ∧
    ∃ c, (t0.take 2).head? = some c ∧ (c.isDigit = true ∧ c ≠ '0') ∧
      (Cxx.get_int (Cxx.istream.of ((t0.take 2).take 1)) jm).1 = ((c.toNat - 48 : Nat) : Int) := by
  cases t0 with
  | nil => simp at hlen
  | cons a t =>
    have hs : Cxx.isspace a = false := hns a rfl
    have hc := mult_char_core ((a :: t).take 2) (((a :: t).take 2).take 1)
      ((((a :: t).take 2).drop 1).take 1) jm rfl rfl hchk
    exact ⟨hc.1, a, rfl, hc.2.1 a rfl hs⟩

/-- An accepted TMAD level has l from the second term character, and its multiplicity is the
digit 1..9 that is the first term character. -/
theorem tmad_accept_chars (lib : Cxx.Lib) (alen : Int) (junk : tmad_junk) (line : List Char)
    (le : level) (eHz : Rat) (h : tmad_parse_level lib alen junk line = Except.ok (le, eHz)) :
    le.l = det_L ((le.term.data.drop 1).headD (Char.ofNat 0)) ∧
    ∃ c, le.term.data.head? = some c ∧ (c.isDigit = true ∧ c ≠ '0') ∧
      le.mult = ((c.toNat - 48 : Nat) : Int) := by
  unfold tmad_parse_level at h
  simp only [bind, Except.bind] at h
  repeat' split at h
  all_goals first
    | contradiction
    | (injection h with h
       injection h with h1 h2
       subst h1
       exact tmad_mult_core _ _ (by assumption)
         (fun c hc => Cxx.get_string_head _ c hc) (by assumption))

end Grotrian

namespace Nist

/-! ## nist_to_toss: malformed fields and the J token -/

theorem token_step_number (lib : Cxx.Lib) (st : line_state) (tmp : List Char)
    (hd : ¬ (tmp.length > 10 ∧ (tmp.drop 1).take 5 = ['-', '-', '-', '-', '-']))
    (hb : tmp ≠ ['|']) :
    (st.bars = 0 → token_step lib st tmp =
      try_stof lib tmp st (fun x => { st with t := { st.t with wvl := x } })) ∧
    (st.bars = 5 → token_step lib st tmp =
      try_stof lib tmp st (fun x => { st with t := { st.t with gA := x } })) ∧
    (st.bars = 6 → token_step lib st tmp =
      try_stof lib tmp st (fun x => { st with t := { st.t with log_gf := x } })) := by
  refine ⟨?_, ?_, ?_⟩ <;> intro h <;> unfold token_step <;> rw [if_neg hd, if_neg hb]
  · rw [if_pos h]
  · rw [if_neg (by omega), if_pos h]
  · rw [if_neg (by omega), if_neg (by omega), if_pos h]

/-- A token of column 0, 5 or 6 that `std::stof` rejects with `std::invalid_argument` ends
the line without a stored transition; one that it rejects with `std::out_of_range`
terminates the program. -/
theorem token_step_bad_number (lib : Cxx.Lib) (st : line_state) (tmp : List Char)
    (hd : ¬ (tmp.length > 10 ∧ (tmp.drop 1).take 5 = ['-', '-', '-', '-', '-']))
    (hb : tmp ≠ ['|']) (h : st.bars = 0 ∨ st.bars = 5 ∨ st.bars = 6) :
    (lib.stof tmp = Cxx.stof_result.invalid_argument →
      token_step lib st tmp = token_result.done) ∧
    (lib.stof tmp = Cxx.stof_result.out_of_range →
      token_step lib st tmp = token_result.crash) := by
  obtain ⟨h0, h5, h6⟩ := token_step_number lib st tmp hd hb
  constructor <;> intro hs <;> rcases h with h | h | h <;>
    first
      | (rw [h0 h]; simp [try_stof, hs, after_switch])
      | (rw [h5 h]; simp [try_stof, hs, after_switch])
      | (rw [h6 h]; simp [try_stof, hs, after_switch])

/-- A token of column 8 that `std::stof` rejects with `std::invalid_argument` changes
nothing: the loop goes on with the next token of the line. -/
theorem token_step_bad_energy (lib : Cxx.Lib) (st : line_state) (tmp : List Char)
    (hd : ¬ (tmp.length > 10 ∧ (tmp.drop 1).take 5 = ['-', '-', '-', '-', '-']))
    (hb : tmp ≠ ['|']) (h : st.bars = 8)
    (hs : lib.stof tmp = Cxx.stof_result.invalid_argument) :
    token_step lib st tmp = token_result.next st := by
  unfold token_step
  rw [if_neg hd, if_neg hb, if_neg (by omega), if_neg (by omega), if_neg (by omega), if_pos h,
    hs]
  simp only [after_switch]
  rw [if_neg (by omega), if_neg (by omega)]

theorem token_step_J (lib : Cxx.Lib) (st : line_state) (tmp : List Char)
    (hd : ¬ (tmp.length > 10 ∧ (tmp.drop 1).take 5 = ['-', '-', '-', '-', '-']))
    (hb : tmp ≠ ['|']) :
    (st.bars = 11 → token_step lib st tmp =
      match parse_J lib tmp with
      | some (some x) =>
        after_switch { st with l_low := { st.l_low with
          J := x, name := st.l_low.config ++ ['_'] ++ st.l_low.term } }
      | none => after_switch { st with bars := 99 }
      | some none => token_result.crash) ∧
    (st.bars = 14 → token_step lib st tmp =
      match parse_J lib tmp with
      | some (some x) =>
        after_switch { st with bars := 50, l_up := { st.l_up with
          J := x, name := st.l_up.config ++ ['_'] ++ st.l_up.term } }
      | none => after_switch { st with bars := 99 }
      | some none => token_result.crash) := by
  constructor <;> intro h <;> unfold token_step <;> rw [if_neg hd, if_neg hb]
  · have n0 : ¬ st.bars = 0 := by omega
    have n5 : ¬ st.bars = 5 := by omega
    have n6 : ¬ st.bars = 6 := by omega
    have n8 : ¬ st.bars = 8 := by omega
    have n9 : ¬ st.bars = 9 := by omega
    have n10 : ¬ st.bars = 10 := by omega
    rw [if_neg n0, if_neg n5, if_neg n6, if_neg n8, if_neg n9, if_neg n10, if_pos h]
  · have n0 : ¬ st.bars = 0 := by omega
    have n5 : ¬ st.bars = 5 := by omega
    have n6 : ¬ st.bars = 6 := by omega
    have n8 : ¬ st.bars = 8 := by omega
    have n9 : ¬ st.bars = 9 := by omega
    have n10 : ¬ st.bars = 10 := by omega
    have n11 : ¬ st.bars = 11 := by omega
    have n12 : ¬ st.bars = 12 := by omega
    have n13 : ¬ st.bars = 13 := by omega
    rw [if_neg n0, if_neg n5, if_neg n6, if_neg n8, if_neg n9, if_neg n10, if_neg n11,
      if_neg n12, if_neg n13, if_pos h]

/-- A J token of column 11 or 14 whose conversion throws `std::invalid_argument` ends the
line without a stored transition. -/
theorem token_step_bad_J (lib : Cxx.Lib) (st : line_state) (tmp : List Char)
    (hd : ¬ (tmp.length > 10 ∧ (tmp.drop 1).take 5 = ['-', '-', '-', '-', '-']))
    (hb : tmp ≠ ['|']) (h : st.bars = 11 ∨ st.bars = 14) (hs : parse_J lib tmp = none) :
    token_step lib st tmp = token_result.done := by
  obtain ⟨h11, h14⟩ := token_step_J lib st tmp hd hb
  rcases h with h | h
  · rw [h11 h, hs]; simp [after_switch]
  · rw [h14 h, hs]; simp [after_switch]

theorem parse_J_fraction (lib : Cxx.Lib) (tmp : List Char) (a b : Cxx.float_value)
    (hs : tmp.findIdx (fun c => c = '/') < tmp.length)
    (ha : lib.stof (tmp.take (tmp.findIdx (fun c => c = '/'))) = Cxx.stof_result.value a)
    (hb : lib.stof (tmp.drop (tmp.findIdx (fun c => c = '/') + 1)) =
      Cxx.stof_result.value b) :
    parse_J lib tmp = some (some (a.div b)) := by
  unfold parse_J
  rw [if_pos hs, ha, hb]

theorem parse_J_plain (lib : Cxx.Lib) (tmp : List Char) (a : Cxx.float_value)
    (hs : ¬ tmp.findIdx (fun c => c = '/') < tmp.length)
    (ha : lib.stof tmp = Cxx.stof_result.value a) :
    parse_J lib tmp = some (some a) := by
  unfold parse_J
  rw [if_neg hs, ha]

/-- C21 (code defect): a malformed numeric field does not always make nist_to_toss skip
the line. The line `bad_energy_line`, whose first energy in column 8 is the text `abc`,
is not skipped: the handler of column 8 ignores the exception, the only number of the
column becomes the energy of the lower level, and the line is stored with the
indeterminate content of `l_up.energy` as upper energy (7777 and 2000 are tried). And a
wavelength `1e40`, for which `std::stof` throws `std::out_of_range`, is caught by no
handler: the run ends there, the well-formed line after it is never read. -/
theorem nist_malformed_field_not_skipped :
    read_lines Cxx.decimal_lib (fun _ => { line_junk_zero with e_up := Cxx.float_value.finite 7777 }) 0
      [bad_energy_line] ([], []) =
      some ([bad_energy_low, bad_energy_up 7777], [bad_energy_stored 7777]) ∧
    read_lines Cxx.decimal_lib (fun _ => { line_junk_zero with e_up := Cxx.float_value.finite 2000 }) 0
      [bad_energy_line] ([], []) =
      some ([bad_energy_low, bad_energy_up 2000], [bad_energy_stored 2000]) ∧
    (∀ junk : Nat → line_junk,
      read_lines Cxx.float_lib junk 0 [overflow_line, good_line] ([], []) = none) ∧
    (∀ junk : Nat → line_junk,
      main Cxx.float_lib ["nist_to_toss".data, "lines".data]
        (fun _ => some [overflow_line, good_line]) junk = run_result.crash) := by
  refine ⟨by decide!, by decide!, ?_, ?_⟩
  · intro junk
    with_unfolding_all rfl
  · intro junk
    with_unfolding_all rfl

/-- C22: a J token `a/b` (the text before the first `/` converts to `a`, the text after it
to `b`, `b` not zero) gives `J = a / b`, and a token without `/` that converts to `a` gives
`J = a`; in column 11 the value becomes `l_low.J` and the loop goes on, in column 14 it
becomes `l_up.J` and the line is finished. The token `3/2` gives 3/2 = 1.5. -/
theorem J_token_value (lib : Cxx.Lib) (st : line_state) (tmp : List Char)
    (hd : ¬ (tmp.length > 10 ∧ (tmp.drop 1).take 5 = ['-', '-', '-', '-', '-']))
    (hb : tmp ≠ ['|']) :
    (∀ a b : Rat, tmp.findIdx (fun c => c = '/') < tmp.length →
      lib.stof (tmp.take (tmp.findIdx (fun c => c = '/'))) =
        Cxx.stof_result.value (Cxx.float_value.finite a) →
      lib.stof (tmp.drop (tmp.findIdx (fun c => c = '/') + 1)) =
        Cxx.stof_result.value (Cxx.float_value.finite b) →
      b ≠ 0 →
        parse_J lib tmp = some (some (Cxx.float_value.finite (a / b))) ∧
        (st.bars = 11 → token_step lib st tmp =
          token_result.next { st with l_low := { st.l_low with
            J := Cxx.float_value.finite (a / b)
            name := st.l_low.config ++ ['_'] ++ st.l_low.term } }) ∧
        (st.bars = 14 → token_step lib st tmp =
          finish { st with bars := 50, l_up := { st.l_up with
            J := Cxx.float_value.finite (a / b)
            name := st.l_up.config ++ ['_'] ++ st.l_up.term } })) ∧
    (∀ a : Cxx.float_value, ¬ tmp.findIdx (fun c => c = '/') < tmp.length →
      lib.stof tmp = Cxx.stof_result.value a →
        parse_J lib tmp = some (some a) ∧
        (st.bars = 11 → token_step lib st tmp =
          token_result.next { st with l_low := { st.l_low with
            J := a, name := st.l_low.config ++ ['_'] ++ st.l_low.term } }) ∧
        (st.bars = 14 → token_step lib st tmp =
          finish { st with bars := 50, l_up := { st.l_up with
            J := a, name := st.l_up.config ++ ['_'] ++ st.l_up.term } })) ∧
    parse_J Cxx.decimal_lib ['3', '/', '2'] = some (some (Cxx.float_value.finite (3 / 2))) ∧
    ((3 / 2 : Rat) = 15 / 10) := by
  obtain ⟨h11, h14⟩ := token_step_J lib st tmp hd hb
  refine ⟨?_, ?_, by decide!, by norm_num⟩
  · intro a b hs ha hbv hb0
    have hp := parse_J_fraction lib tmp _ _ hs ha hbv
    have hq : (Cxx.float_value.finite a).div (Cxx.float_value.finite b) =
        Cxx.float_value.finite (a / b) := by
      simp only [Cxx.float_value.div]
      rw [if_neg hb0]
    rw [hq] at hp
    refine ⟨hp, ?_, ?_⟩
    · intro h
      rw [h11 h, hp]
      simp only [after_switch]
      rw [if_neg (by show ¬ st.bars = 50; omega), if_neg (by show ¬ st.bars = 99; omega)]
    · intro h
      rw [h14 h, hp]
      simp [after_switch]
  · intro a hs ha
    have hp := parse_J_plain lib tmp a hs ha
    refine ⟨hp, ?_, ?_⟩
    · intro h
      rw [h11 h, hp]
      simp only [after_switch]
      rw [if_neg (by show ¬ st.bars = 50; omega), if_neg (by show ¬ st.bars = 99; omega)]
    · intro h
      rw [h14 h, hp]
      simp [after_switch]

/-- Witness of C22: the token `3/2` in column 11 and in column 14 of a line, with decimal
conversion in exact arithmetic. -/
theorem J_token_value_witness :
    parse_J Cxx.decimal_lib ['3', '/', '2'] = some (some (Cxx.float_value.finite (3 / 2))) ∧
    token_step Cxx.decimal_lib { line_init line_junk_zero with bars := 11 } ['3', '/', '2'] =
      token_result.next { line_init line_junk_zero with
        bars := 11, l_low := { (line_init line_junk_zero).l_low with
          J := Cxx.float_value.finite (3 / 2), name := ['_'] } } ∧
    token_step Cxx.decimal_lib { line_init line_junk_zero with bars := 11 } ['2'] =
      token_result.next { line_init line_junk_zero with
        bars := 11, l_low := { (line_init line_junk_zero).l_low with
          J := Cxx.float_value.finite 2, name := ['_'] } } :=
  ⟨((J_token_value Cxx.decimal_lib { line_init line_junk_zero with bars := 11 }
      ['3', '/', '2'] (by decide) (by decide)).1 3 2 (by decide) (by decide!) (by decide!)
      (by norm_num)).1,
    ((J_token_value Cxx.decimal_lib { line_init line_junk_zero with bars := 11 }
      ['3', '/', '2'] (by decide) (by decide)).1 3 2 (by decide) (by decide!) (by decide!)
      (by norm_num)).2.1 rfl,
    ((J_token_value Cxx.decimal_lib { line_init line_junk_zero with bars := 11 }
      ['2'] (by decide) (by decide)).2.1 (Cxx.float_value.finite 2) (by decide)
      (by decide!)).2.1 rfl⟩

end Nist

namespace Grotrian

/-! ## Runs: uncaught exceptions, exit codes, options, TMAD parity -/

theorem toss_no_space_crashes (lib : Cxx.Lib) (junk : level) (line : List Char)
    (h : find_first_of_space (Cxx.trim line) = none) :
    toss_parse_level lib junk line = Except.error stop.crash := by
  unfold toss_parse_level
  simp only [h, Option.none_bind, or_crash]
  rfl

theorem toss_read_levels_crash (lib : Cxx.Lib) (o : options) (junk : Nat → level) (k : Nat)
    (line : List Char) (rest : List (List Char)) (acc : List level)
    (h : toss_parse_level lib (junk k) line = Except.error stop.crash) :
    toss_read_levels lib o junk k (line :: rest) acc = none := by
  simp only [toss_read_levels, toss_read_level, h]
  rfl

theorem tmad_short_line_crashes (lib : Cxx.Lib) (alen : Int) (junk : tmad_junk)
    (line : List Char) (h : line.length < 7) :
    tmad_parse_level lib alen junk line = Except.error stop.crash := by
  unfold tmad_parse_level
  have h7 : Cxx.substr line 7 3 = none := by
    unfold Cxx.substr
    rw [if_pos (by omega)]
  cases h1 : Cxx.substr line (to_size_t alen) (to_size_t (7 - alen)) with
  | none => rfl
  | some c =>
    simp only [h7, or_crash]
    rfl

/-- C24 (code defect): level parsing is not total. In toss_to_grotrian an empty line, and
every line without a space such as `5000.0`, gives `find_first_of` the result `npos`, and
`line.substr(npos)` throws `std::out_of_range`, which nothing catches: the run is
terminated, whatever lines follow. In tmad_to_grotrian a line of the level section that is
shorter than 7 characters makes `line.substr(7, 3)` throw in the same way. The files with
the empty line and with the five-character line terminate both programs. -/
theorem level_parsing_not_total :
    (∀ (lib : Cxx.Lib) (o : options) (junk : Nat → level) (k : Nat)
        (rest : List (List Char)) (acc : List level),
      toss_read_levels lib o junk k ([] :: rest) acc = none) ∧
    (∀ (lib : Cxx.Lib) (o : options) (junk : Nat → level) (k : Nat)
        (rest : List (List Char)) (acc : List level),
      toss_read_levels lib o junk k (['5', '0', '0', '0', '.', '0'] :: rest) acc = none) ∧
    (∀ (lib : Cxx.Lib) (S : Sorters) (W : StdSort sort_by_wvl) (o : options) (ionlimit : Rat)
        (junk : Nat → level) (ljunk : Nat → line_junk),
      toss_main lib S W o ionlimit (some [toss_line_3Po, []]) none junk ljunk =
        run_result.crash) ∧
    (∀ (lib : Cxx.Lib) (alen : Int) (junk : tmad_junk),
      tmad_parse_level lib alen junk [] = Except.error stop.crash ∧
      tmad_parse_level lib alen junk ['H', 'E', '1', '2', 'P'] = Except.error stop.crash) ∧
    (∀ (S : Sorters) (alen charge : Int) (ionlimit : Rat) (junk : Nat → tmad_junk),
      tmad_main Cxx.decimal_lib S default_options (some tmad_short_file) alen charge ionlimit
        junk = run_result.crash) := by
  refine ⟨?_, ?_, ?_, ?_, ?_⟩
  · intro lib o junk k rest acc
    exact toss_read_levels_crash lib o junk k [] rest acc
      (toss_no_space_crashes lib (junk k) [] (by decide))
  · intro lib o junk k rest acc
    exact toss_read_levels_crash lib o junk k _ rest acc
      (toss_no_space_crashes lib (junk k) _ (by decide))
  · intro lib S W o ionlimit junk ljunk
    have h : toss_read_levels lib o junk 0 [toss_line_3Po, []] [] = none := by
      rw [toss_read_levels]
      have h2 : ∀ acc, toss_read_levels lib o junk 1 [[]] acc = none := fun acc =>
        toss_read_levels_crash lib o junk 1 [] [] acc
          (toss_no_space_crashes lib (junk 1) [] (by decide))
      rcases toss_read_level lib o (junk 0) toss_line_3Po with e | lev
      · cases e
        · rfl
        · exact h2 _
      · exact h2 _
    simp only [toss_main, h]
  · intro lib alen junk
    exact ⟨tmad_short_line_crashes lib alen junk [] (by decide),
      tmad_short_line_crashes lib alen junk _ (by decide)⟩
  · intro S alen charge ionlimit junk
    have h : tmad_read Cxx.decimal_lib default_options junk 0 tmad_short_file
        (tmad_init alen charge ionlimit) = none := by
      with_unfolding_all rfl
    simp only [tmad_main, h]

/-- C23 (code defect): three of the five tools return 0 when the input file cannot be
opened. With no file that can be opened, tmad_to_grotrian writes `Could not open file` and
returns 0, nist_to_toss writes its error message and returns 0, toss_to_fplot returns 0;
adamant_to_toss and toss_to_grotrian return -1. Every tool returns 0 after the usage text
(no argument; for adamant_to_toss and toss_to_grotrian fewer than two). -/
theorem open_failure_exit_codes :
    (∀ (lib : Cxx.Lib) (S : Sorters) (prog file : List Char) (rest : List (List Char))
        (alen charge : Int) (ionlimit : Rat) (junk : Nat → tmad_junk),
      tmad_program lib S (prog :: file :: rest) no_files alen charge ionlimit junk =
        run_result.exit 0 output.could_not_open) ∧
    (∀ (lib : Cxx.Lib) (prog file : List Char) (rest : List (List Char))
        (junk : Nat → Nist.line_junk),
      Nist.main lib (prog :: file :: rest) no_files junk =
        Nist.run_result.exit 0 Nist.output.could_not_open) ∧
    (∀ (lib : Cxx.Lib) (to_string : Rat → List Char) (prog file : List Char)
        (rest : List (List Char)) (junk : Nat → Fplot.line_vars),
      Fplot.main lib to_string (prog :: file :: rest) no_files junk = (0, [])) ∧
    (∀ (lib : Cxx.Lib) (W : StdSort Adamant.by_wvl) (prog f1 f2 : List Char)
        (rest : List (List Char)) (junk : Nat → Adamant.level_junk)
        (ljunk : Nat → Adamant.line_vars),
      Adamant.program lib W (prog :: f1 :: f2 :: rest) no_files junk ljunk = (-1, [])) ∧
    (∀ (lib : Cxx.Lib) (S : Sorters) (W : StdSort sort_by_wvl) (prog file ion : List Char)
        (rest : List (List Char)) (ionjunk : Rat) (junk : Nat → level)
        (ljunk : Nat → line_junk),
      toss_program lib S W (prog :: file :: ion :: rest) no_files ionjunk junk ljunk =
        run_result.exit (-1) output.could_not_open) ∧
    (∀ (lib : Cxx.Lib) (S : Sorters) (prog : List Char)
        (fs : List Char → Option (List (List Char))) (alen charge : Int) (ionlimit : Rat)
        (junk : Nat → tmad_junk),
      tmad_program lib S [prog] fs alen charge ionlimit junk =
        run_result.exit 0 output.usage) ∧
    (∀ (lib : Cxx.Lib) (prog : List Char) (fs : List Char → Option (List (List Char)))
        (junk : Nat → Nist.line_junk),
      Nist.main lib [prog] fs junk = Nist.run_result.exit 0 Nist.output.usage) ∧
    (∀ (lib : Cxx.Lib) (to_string : Rat → List Char) (prog : List Char)
        (fs : List Char → Option (List (List Char))) (junk : Nat → Fplot.line_vars),
      (Fplot.main lib to_string [prog] fs junk).1 = 0) ∧
    (∀ (lib : Cxx.Lib) (W : StdSort Adamant.by_wvl) (prog f1 : List Char)
        (fs : List Char → Option (List (List Char))) (junk : Nat → Adamant.level_junk)
        (ljunk : Nat → Adamant.line_vars),
      (Adamant.program lib W [prog] fs junk ljunk).1 = 0 ∧
      (Adamant.program lib W [prog, f1] fs junk ljunk).1 = 0) ∧
    (∀ (lib : Cxx.Lib) (S : Sorters) (W : StdSort sort_by_wvl) (prog file : List Char)
        (fs : List Char → Option (List (List Char))) (ionjunk : Rat) (junk : Nat → level)
        (ljunk : Nat → line_junk),
      toss_program lib S W [prog] fs ionjunk junk ljunk = run_result.exit 0 output.usage ∧
      toss_program lib S W [prog, file] fs ionjunk junk ljunk =
        run_result.exit 0 output.usage) := by
  refine ⟨?_, ?_, ?_, ?_, ?_, ?_, ?_, ?_, ?_, ?_⟩
  · intros; rfl
  · intros; rfl
  · intros; rfl
  · intros; rfl
  · intros; rfl
  · intros; rfl
  · intros; rfl
  · intros; rfl
  · intros; exact ⟨rfl, rfl⟩
  · intros; exact ⟨rfl, rfl⟩

/-- C25 (code defect): the option loop of tmad_to_grotrian starts at `argv[3]`, so the
token at position 2, directly after the file argument, is never read: after
`tmad_to_grotrian <file> <token> <rest>` the options are those of `<rest>` alone, and
`file e=1000` leaves the energy threshold at 9.9e30. With `levels e=1` the level of energy
1 of the sample file is accepted although 1 >= 1. The same token one position later is
applied. -/
theorem tmad_option_after_file_ignored :
    (∀ (lib : Cxx.Lib) (prog file tok : List Char) (rest : List (List Char)),
      tmad_options lib (prog :: file :: tok :: rest) =
        rest.foldl (tmad_option lib) default_options) ∧
    (tmad_options Cxx.decimal_lib
      ["tmad_to_grotrian".data, "levels".data, "e=1000".data]).skip_e =
        9900000000000000000000000000000 ∧
    (tmad_options Cxx.decimal_lib
      ["tmad_to_grotrian".data, "levels".data, "x".data, "e=1000".data]).skip_e = 1000 ∧
    (tmad_read Cxx.decimal_lib (tmad_options Cxx.decimal_lib tmad_args_e1)
      (fun _ => tmad_junk_zero) 0 tmad_file (tmad_init 0 0 0)).map
        (fun v => v.vec_levels.map (fun x => x.energy)) = some [0, 1] ∧
    (tmad_read Cxx.decimal_lib
      (tmad_options Cxx.decimal_lib (tmad_args_e1.take 2 ++ ["x".data] ++ tmad_args_e1.drop 2))
      (fun _ => tmad_junk_zero) 0 tmad_file (tmad_init 0 0 0)).map
        (fun v => v.vec_levels.map (fun x => x.energy)) = some [0] := by
  refine ⟨?_, by decide!, by decide!, by decide!, by decide!⟩
  intro lib prog file tok rest
  rfl

/-- C29: in tmad_to_grotrian the parity of a level follows from the length of the term
token read from the characters 7..9 of the line. When the two `substr` calls before the
test succeed, a token of a length other than 2 or 3 makes the reader skip the record; and
every accepted level has either a token of length 2, parity code 0, parity `e` and the
token as term, or a token of length 3, parity code 1, parity `o` and the first two
characters of the token as term. No accepted level has another parity code. -/
theorem tmad_parity_by_term_length (lib : Cxx.Lib) (alen : Int) (junk : tmad_junk)
    (line : List Char) (h0 : to_size_t alen ≤ line.length) (h7 : 7 ≤ line.length) :
    (((Cxx.get_string (Cxx.istream.of ((line.drop 7).take 3)) []).1.length ≠ 2 ∧
        (Cxx.get_string (Cxx.istream.of ((line.drop 7).take 3)) []).1.length ≠ 3) →
      tmad_parse_level lib alen junk line = Except.error stop.skip) ∧
    (∀ (le : level) (eHz : Rat), tmad_parse_level lib alen junk line = Except.ok (le, eHz) →
      ((Cxx.get_string (Cxx.istream.of ((line.drop 7).take 3)) []).1.length = 2 ∧
        le.p = 0 ∧ le.parity = "e" ∧
        le.term = String.mk (Cxx.get_string (Cxx.istream.of ((line.drop 7).take 3)) []).1) ∨
      ((Cxx.get_string (Cxx.istream.of ((line.drop 7).take 3)) []).1.length = 3 ∧
        le.p = 1 ∧ le.parity = "o" ∧
        le.term =
          String.mk ((Cxx.get_string (Cxx.istream.of ((line.drop 7).take 3)) []).1.take 2))) := by
  have hs1 : Cxx.substr line (to_size_t alen) (to_size_t (7 - alen)) =
      some ((line.drop (to_size_t alen)).take (to_size_t (7 - alen))) := by
    unfold Cxx.substr
    rw [if_neg (by omega)]
  have hs2 : Cxx.substr line 7 3 = some ((line.drop 7).take 3) := by
    unfold Cxx.substr
    rw [if_neg (by omega)]
  constructor
  · intro hlen
    unfold tmad_parse_level
    simp only [hs1, hs2, or_crash, bind, Except.bind]
    rw [if_neg (by tauto)]
  · intro le eHz h
    unfold tmad_parse_level at h
    simp only [hs1, hs2, or_crash, bind, Except.bind] at h
    generalize (Cxx.get_string (Cxx.istream.of ((line.drop 7).take 3)) []).1 = t0 at h ⊢
    repeat' split at h
    all_goals first
      | contradiction
      | (injection h with h
         injection h with h1 h2
         subst h1
         first
           | exact Or.inl ⟨by assumption, rfl, rfl, by
               show String.mk (List.take 2 t0) = String.mk t0
               rw [List.take_of_length_le (by omega)]⟩
           | exact Or.inr ⟨by omega, rfl, rfl, rfl⟩)

/-- Witness of C29: the two level lines of the sample TMAD file, whose term tokens are
`3PO` (three characters, odd) and `3S` (two characters, even), and a line whose term token
`3` has one character. -/
theorem tmad_parity_by_term_length_witness :
    (∀ (le : level) (eHz : Rat),
      tmad_parse_level Cxx.decimal_lib 3 tmad_junk_zero
        "HE12P  3PO          59958491600 3".data = Except.ok (le, eHz) →
      ((Cxx.get_string (Cxx.istream.of
          (("HE12P  3PO          59958491600 3".data.drop 7).take 3)) []).1.length = 2 ∧
        le.p = 0 ∧ le.parity = "e" ∧
        le.term = String.mk (Cxx.get_string (Cxx.istream.of
          (("HE12P  3PO          59958491600 3".data.drop 7).take 3)) []).1) ∨
      ((Cxx.get_string (Cxx.istream.of
          (("HE12P  3PO          59958491600 3".data.drop 7).take 3)) []).1.length = 3 ∧
        le.p = 1 ∧ le.parity = "o" ∧
        le.term = String.mk ((Cxx.get_string (Cxx.istream.of
          (("HE12P  3PO          59958491600 3".data.drop 7).take 3)) []).1.take 2))) ∧
    (tmad_parse_level Cxx.decimal_lib 3 tmad_junk_zero
      "HE12P  3PO          59958491600 3".data).toOption.map
        (fun r => (r.1.p, r.1.parity, r.1.term)) = some (1, "o", "3P") ∧
    (tmad_parse_level Cxx.decimal_lib 3 tmad_junk_zero
      "HE12S  3S           29979245800 3".data).toOption.map
        (fun r => (r.1.p, r.1.parity, r.1.term)) = some (0, "e", "3S") ∧
    tmad_parse_level Cxx.decimal_lib 3 tmad_junk_zero
      "HE12S  3           29979245800 3".data = Except.error stop.skip :=
  ⟨(tmad_parity_by_term_length Cxx.decimal_lib 3 tmad_junk_zero
      "HE12P  3PO          59958491600 3".data (by decide) (by decide)).2,
    by decide!, by decide!,
    (tmad_parity_by_term_length Cxx.decimal_lib 3 tmad_junk_zero
      "HE12S  3           29979245800 3".data (by decide) (by decide)).1 (by decide!)⟩

/-! ## Positions of the layout -/

theorem all_multiplets_level_mult (S : Sorters) (vec : List level) (g : levels_mult)
    (hg : g ∈ all_multiplets S vec) : ∀ x ∈ g.levels, x.mult = g.mult := by
  intro x hx
  obtain ⟨g0, _, e, hk, _, hl⟩ := all_multiplets_mem S vec g hg
  subst e
  have hs := column_keys_spec S g0 hk hl
  rw [hs.1]
  exact hl x (hs.2.1.mem_iff.1 hx)

theorem layout_loop_eq (u off : Rat) (gs : List levels_mult) (b : Int) (g : group_layout)
    (hg : g ∈ layout_loop u off b gs) : g = layout_group u off g.before g.group := by
  induction gs generalizing b with
  | nil => simp [layout_loop] at hg
  | cons i rest ih =>
    simp only [layout_loop, List.mem_cons] at hg
    rcases hg with e | e
    · subst e
      rfl
    · exact ih _ e

theorem layout_loop_length (u off : Rat) (gs : List levels_mult) (b : Int) :
    (layout_loop u off b gs).length = gs.length := by
  induction gs generalizing b with
  | nil => rfl
  | cons i rest ih => simp [layout_loop, ih]

theorem layout_loop_groups (u off : Rat) (gs : List levels_mult) (b : Int) :
    (layout_loop u off b gs).map (fun g => g.group) = gs := by
  induction gs generalizing b with
  | nil => rfl
  | cons i rest ih =>
    simp only [layout_loop, List.map_cons, ih]
    rfl

theorem sum_succ_ge_length (gs : List levels_mult) :
    (gs.length : Int) ≤ (gs.map (fun i => (i.multis.length : Int) + 1)).sum := by
  induction gs with
  | nil => simp
  | cons g rest ih =>
    simp only [List.map_cons, List.sum_cons, List.length_cons, Nat.cast_add, Nat.cast_one]
    have : (0 : Int) ≤ (g.multis.length : Int) := Int.natCast_nonneg _
    omega

theorem total_eq_sum_succ (S : Sorters) (vec : List level) :
    total S vec = ((all_multiplets S vec).map (fun i => (i.multis.length : Int) + 1)).sum := by
  rw [total_eq]
  generalize all_multiplets S vec = gs
  induction gs with
  | nil => simp
  | cons g rest ih =>
    simp only [List.map_cons, List.sum_cons, List.length_cons, Nat.cast_add, Nat.cast_one]
    omega

/-- Every group of the layout loop ends before the total: `before + width + 1` is at most
the start offset plus the sum of `width + 1` over all groups. -/
theorem layout_loop_end_le (u off : Rat) (gs : List levels_mult) (b : Int) (g : group_layout)
    (hg : g ∈ layout_loop u off b gs) :
    g.before + (g.group.multis.length : Int) + 1 ≤
      b + (gs.map (fun i => (i.multis.length : Int) + 1)).sum := by
  induction gs generalizing b with
  | nil => simp [layout_loop] at hg
  | cons i rest ih =>
    simp only [layout_loop, List.mem_cons] at hg
    simp only [List.map_cons, List.sum_cons]
    rcases hg with e | e
    · subst e
      have := sum_succ_ge_length rest
      have : (0 : Int) ≤ (rest.length : Int) := Int.natCast_nonneg _
      show b + (i.multis.length : Int) + 1 ≤ _
      omega
    · have := ih _ e
      omega

/-- The separators of the layout loop: when `u * T = 100` for the end `T` of the last group,
every group but the last has its separator strictly between 0 and 100 and written, the
last group has it at 100 and not written. -/
theorem layout_loop_seps (u off : Rat) (hu : 0 < u) (gs : List levels_mult) (b : Int)
    (hb : 0 ≤ b)
    (hT : u * ((b + (gs.map (fun i => (i.multis.length : Int) + 1)).sum : Int) : Rat) = 100) :
    (∀ g ∈ (layout_loop u off b gs).dropLast, g.sep = true ∧ 0 < g.xpos ∧ g.xpos < 100) ∧
    (∀ l, (layout_loop u off b gs).getLast? = some l → l.xpos = 100 ∧ l.sep = false) := by
  induction gs generalizing b with
  | nil => simp [layout_loop]
  | cons i rest ih =>
    have hlen : (0 : Int) ≤ (i.multis.length : Int) := Int.natCast_nonneg _
    have hx : (layout_group u off b i).xpos =
        u * ((b + (i.multis.length : Int) + 1 : Int) : Rat) := by
      simp only [layout_group]
      push_cast
      ring_nf
    cases rest with
    | nil =>
      simp only [layout_loop, List.dropLast_single, List.not_mem_nil, false_implies,
        implies_true, List.getLast?_singleton, Option.some.injEq, true_and]
      intro l hl
      subst hl
      have he : b + ([i].map (fun i => (i.multis.length : Int) + 1)).sum =
          b + (i.multis.length : Int) + 1 := by
        simp only [List.map_cons, List.map_nil, List.sum_cons, List.sum_nil]
        omega
      have h100 : (layout_group u off b i).xpos = 100 := by
        rw [hx, ← hT, he]
      refine ⟨h100, ?_⟩
      simp only [layout_group] at h100 ⊢
      rw [h100]
      decide
    | cons j rest2 =>
      have hT2 : u * (((b + (i.multis.length : Int) + 1) +
          ((j :: rest2).map (fun i => (i.multis.length : Int) + 1)).sum : Int) : Rat) = 100 := by
        rw [← hT]
        congr 2
        simp only [List.map_cons, List.sum_cons]
        ring
      obtain ⟨ih1, ih2⟩ := ih (b + (i.multis.length : Int) + 1) (by omega) hT2
      have hne : layout_loop u off (b + (i.multis.length : Int) + 1) (j :: rest2) ≠ [] := by
        simp [layout_loop]
      constructor
      · intro g hg
        rw [layout_loop, List.dropLast_cons_of_ne_nil hne, List.mem_cons] at hg
        rcases hg with e | e
        · subst e
          have hlt : ((b + (i.multis.length : Int) + 1 : Int) : Rat) <
              ((b + ((i :: j :: rest2).map (fun i => (i.multis.length : Int) + 1)).sum : Int)
                : Rat) := by
            have h1 := sum_succ_ge_length (j :: rest2)
            simp only [List.length_cons] at h1
            have h2 : (0 : Int) ≤ (rest2.length : Int) := Int.natCast_nonneg _
            have : b + (i.multis.length : Int) + 1 <
                b + ((i :: j :: rest2).map (fun i => (i.multis.length : Int) + 1)).sum := by
              simp only [List.map_cons, List.sum_cons] at h1 ⊢
              push_cast at h1
              omega
            exact_mod_cast this
          have hpos : (0 : Rat) < ((b + (i.multis.length : Int) + 1 : Int) : Rat) := by
            have : (0 : Int) < b + (i.multis.length : Int) + 1 := by omega
            exact_mod_cast this
          have hx100 : (layout_group u off b i).xpos < 100 := by
            rw [hx, ← hT]
            exact mul_lt_mul_of_pos_left hlt hu
          refine ⟨?_, ?_, hx100⟩
          · simp only [layout_group] at hx100 ⊢
            exact decide_eq_true hx100
          · rw [hx]
            exact mul_pos hu hpos
        · exact ih1 g e
      · intro l hl
        rw [layout_loop] at hl
        cases hlay : layout_loop u off (b + (i.multis.length : Int) + 1) (j :: rest2) with
        | nil => exact absurd hlay hne
        | cons y ys =>
          rw [hlay, List.getLast?_cons_cons] at hl
          rw [hlay] at ih2
          exact ih2 l hl

theorem layout_loop_ticks (u off : Rat) (gs : List levels_mult) (b : Int) (g : group_layout)
    (hg : g ∈ layout_loop u off b gs) :
    g.ticks = g.group.levels.map (fun j =>
      (j, slot g.before g.group.multis { mult := j.mult, l := j.l, p := j.p },
        u * ((slot g.before g.group.multis { mult := j.mult, l := j.l, p := j.p } : Rat)
          + 0.5 + 0.5) + off * u)) := by
  induction gs generalizing b with
  | nil => simp [layout_loop] at hg
  | cons i rest ih =>
    simp only [layout_loop, List.mem_cons] at hg
    rcases hg with e | e
    · subst e
      rfl
    · exact ih _ e

theorem layout_loop_spin (u off : Rat) (gs : List levels_mult) (b : Int) :
    (layout_loop u off b gs).map (fun g => g.spin) =
      gs.map (fun i => ((i.mult : Rat) - 1) / 2) := by
  induction gs generalizing b with
  | nil => rfl
  | cons i rest ih =>
    simp only [layout_loop, List.map_cons, ih, layout_group]
    congr 1
    norm_num
    ring

theorem unit_pos (S : Sorters) (vec : List level) (hne : vec ≠ []) :
    0 < total S vec ∧ 0 < unit S vec ∧ unit S vec * (total S vec : Rat) = 100 := by
  have h1 : 1 ≤ (all_multiplets S vec).length := by
    have := all_multiplets_ne_nil S vec hne
    exact Nat.one_le_iff_ne_zero.mpr (fun h => this (List.length_eq_zero.mp h))
  have h2 := total_ge_groups S vec
  have h3 : 0 < total S vec := by omega
  have h4 : (0 : Rat) < (total S vec : Rat) := by exact_mod_cast h3
  refine ⟨h3, ?_, ?_⟩
  · unfold unit
    positivity
  · unfold unit
    field_simp

/-- The key of a level of a group of `all_multiplets` is an element of the key list of the
group. -/
theorem level_key_mem (S : Sorters) (vec : List level) (g : levels_mult)
    (hg : g ∈ all_multiplets S vec) (j : level) (hj : j ∈ g.levels) :
    ({ mult := j.mult, l := j.l, p := j.p } : mul_lp) ∈ g.multis := by
  obtain ⟨hmem, _, _, hk⟩ := group_keys_facts S vec g hg
  have h1 : (j.l, j.p) ∈ g.multis.map (fun k => (k.l, k.p)) :=
    (hmem j.l j.p).2 (List.mem_map.2 ⟨j, hj, rfl⟩)
  obtain ⟨k, hk1, e⟩ := List.mem_map.1 h1
  simp only [Prod.mk.injEq] at e
  have hjm : j.mult = g.mult := (all_multiplets_level_mult S vec g hg) j hj
  have : k = { mult := j.mult, l := j.l, p := j.p } := by
    cases k
    simp only [mul_lp.mk.injEq]
    exact ⟨(hk _ hk1).trans hjm.symm, e.1, e.2⟩
  rw [← this]
  exact hk1

/-- C30: separator lines, in exact arithmetic. With at least one accepted level the layout
loop runs once per group; every group but the last gets a separator line, at a position
strictly between 0 and 100; the position of the last group is `unit * total = 100`, and
the test `xpos < 100` suppresses it; so exactly g - 1 separator lines are written for g
groups, every written one strictly between 0 and 100; and each group gets one spin label
`S = (mult - 1) / 2`. -/
theorem separators_between_groups (S : Sorters) (offset : Rat) (vec_levels : List level)
    (hne : vec_levels ≠ []) :
    (layout S offset vec_levels).length = (all_multiplets S vec_levels).length ∧
    1 ≤ (all_multiplets S vec_levels).length ∧
    ((layout S offset vec_levels).filter (fun g => g.sep)).length =
      (all_multiplets S vec_levels).length - 1 ∧
    (∀ g ∈ (layout S offset vec_levels).dropLast,
      g.sep = true ∧ 0 < g.xpos ∧ g.xpos < 100) ∧
    (∀ l, (layout S offset vec_levels).getLast? = some l →
      l.xpos = unit S vec_levels * (total S vec_levels : Rat) ∧ l.xpos = 100 ∧
        l.sep = false) ∧
    (∀ g ∈ layout S offset vec_levels, g.sep = true → 0 < g.xpos ∧ g.xpos < 100) ∧
    (layout S offset vec_levels).map (fun g => g.spin) =
      (all_multiplets S vec_levels).map (fun i => ((i.mult : Rat) - 1) / 2) := by
  obtain ⟨htot, hu, hut⟩ := unit_pos S vec_levels hne
  have hlen : (layout S offset vec_levels).length = (all_multiplets S vec_levels).length :=
    layout_loop_length _ _ _ _
  have h1 : 1 ≤ (all_multiplets S vec_levels).length := by
    have := all_multiplets_ne_nil S vec_levels hne
    exact Nat.one_le_iff_ne_zero.mpr (fun h => this (List.length_eq_zero.mp h))
  have hT : unit S vec_levels *
      (((0 : Int) + ((all_multiplets S vec_levels).map
        (fun i => (i.multis.length : Int) + 1)).sum : Int) : Rat) = 100 := by
    rw [zero_add, ← total_eq_sum_succ]
    exact hut
  obtain ⟨hd, hl⟩ := layout_loop_seps (unit S vec_levels) offset hu
    (all_multiplets S vec_levels) 0 (le_refl _) hT
  have hnil : layout S offset vec_levels ≠ [] := by
    intro h
    rw [h] at hlen
    simp only [List.length_nil] at hlen
    omega
  obtain ⟨a, ha⟩ : ∃ a, (layout S offset vec_levels).getLast? = some a := by
    cases hx : (layout S offset vec_levels).getLast? with
    | none => exact absurd (List.getLast?_eq_none_iff.1 hx) hnil
    | some a => exact ⟨a, rfl⟩
  have hsplit : (layout S offset vec_levels).dropLast ++ [a] = layout S offset vec_levels :=
    List.dropLast_append_getLast? a (by rw [ha]; exact rfl)
  have hla := hl a ha
  refine ⟨hlen, h1, ?_, hd, ?_, ?_, layout_loop_spin _ _ _ _⟩
  · have hf : (layout S offset vec_levels).dropLast.filter (fun g => g.sep) =
        (layout S offset vec_levels).dropLast :=
      List.filter_eq_self.2 (fun g hg => (hd g hg).1)
    rw [← hlen]
    conv_lhs => rw [← hsplit]
    rw [List.filter_append, hf]
    simp [hla.2]
  · intro l hl2
    rw [ha] at hl2
    injection hl2 with hl2
    subst hl2
    exact ⟨by rw [hut]; exact hla.1, hla.1, hla.2⟩
  · intro g hg hs
    rw [← hsplit, List.mem_append, List.mem_singleton] at hg
    rcases hg with hg | hg
    · exact (hd g hg).2
    · subst hg
      rw [hla.2] at hs
      cases hs

/-- Witness of C30 at the sample levels (a singlet and a triplet group): one separator is
written, at unit * 3, and the triplet group has its position at 100. -/
theorem separators_between_groups_witness :
    sample_levels ≠ [] ∧
    (all_multiplets insertion_sorters sample_levels).length = 2 ∧
    ((layout insertion_sorters 0 sample_levels).filter (fun g => g.sep)).length = 2 - 1 ∧
    (layout insertion_sorters 0 sample_levels).map (fun g => (g.xpos, g.sep, g.spin)) =
      [(300 / 7, true, 0), (100, false, 1)] :=
  ⟨by decide, by decide,
    (by decide : (all_multiplets insertion_sorters sample_levels).length = 2) ▸
      (separators_between_groups insertion_sorters 0 sample_levels (by decide)).2.2.1,
    by decide!⟩

/-- The facts on a tick of a group of the layout: the level is a level of the group, the
search for its key succeeds, the slot lies in the group, and the x position follows from
the slot. -/
theorem layout_tick_facts (S : Sorters) (offset : Rat) (vec : List level)
    (g : group_layout) (hg : g ∈ layout S offset vec) (t : level × Int × Rat)
    (ht : t ∈ g.ticks) :
    t.1 ∈ g.group.levels ∧ g.group ∈ all_multiplets S vec ∧ t.1 ∈ vec ∧
    find_lp g.group.multis { mult := t.1.mult, l := t.1.l, p := t.1.p } <
      g.group.multis.length ∧
    t.2.1 = slot g.before g.group.multis { mult := t.1.mult, l := t.1.l, p := t.1.p } ∧
    0 ≤ t.2.1 ∧ t.2.1 ≤ total S vec - 2 ∧
    t.2.2 = unit S vec * ((t.2.1 : Rat) + 1) + offset * unit S vec := by
  have hgm := layout_loop_mem _ _ _ _ g hg
  have hticks := layout_loop_ticks _ _ _ _ g hg
  have hend := layout_loop_end_le _ _ _ _ g hg
  rw [zero_add, ← total_eq_sum_succ] at hend
  rw [hticks, List.mem_map] at ht
  obtain ⟨j, hj, rfl⟩ := ht
  have hkey := level_key_mem S vec g.group hgm.1 j hj
  have hb := slot_bounds g.before g.group.multis _ hkey
  have hjv : j ∈ vec :=
    (all_multiplets_levels_perm S vec).mem_iff.1 (List.mem_flatMap.2 ⟨g.group, hgm.1, hj⟩)
  refine ⟨hj, hgm.1, hjv, find_lp_lt_of_mem _ _ hkey, rfl, ?_, ?_, ?_⟩
  · have := hgm.2
    show 0 ≤ slot g.before g.group.multis _
    omega
  · show slot g.before g.group.multis _ ≤ total S vec - 2
    omega
  · show unit S vec * ((slot g.before g.group.multis _ : Rat) + 0.5 + 0.5)
      + offset * unit S vec = _
    have h05 : (0.5 : Rat) = 1 / 2 := by norm_num
    rw [h05]
    ring

/-- C27: level ticks with column offset 0. For every tick of the layout the level is an
accepted level, the search for its (l, parity) key in the key list of its group succeeds,
the slot is the index found plus the running offset of the group and lies in
0 .. total - 2, the tick is drawn at the energy of the level from `x - 0.3 * unit` to
`x = unit * (slot + 1)`, and `0 < x - 0.3 * unit < x < 100` in exact arithmetic. Every
accepted level has its tick: the levels of the ticks are a permutation of the accepted
levels. -/
theorem tick_positions (S : Sorters) (vec_levels : List level) (hne : vec_levels ≠ []) :
    (∀ g ∈ layout S 0 vec_levels, ∀ t ∈ g.ticks,
      t.1 ∈ vec_levels ∧ t.1 ∈ g.group.levels ∧
      find_lp g.group.multis { mult := t.1.mult, l := t.1.l, p := t.1.p } <
        g.group.multis.length ∧
      t.2.1 = slot g.before g.group.multis { mult := t.1.mult, l := t.1.l, p := t.1.p } ∧
      0 ≤ t.2.1 ∧ t.2.1 ≤ total S vec_levels - 2 ∧
      t.2.2 = unit S vec_levels * ((t.2.1 : Rat) + 1) ∧
      tick_line (unit S vec_levels) t =
        (t.2.2 - 0.3 * unit S vec_levels, t.1.energy, t.2.2, t.1.energy) ∧
      0 < t.2.2 - 0.3 * unit S vec_levels ∧
      t.2.2 - 0.3 * unit S vec_levels < t.2.2 ∧ t.2.2 < 100) ∧
    List.Perm ((layout S 0 vec_levels).flatMap (fun g => g.ticks.map (fun t => t.1)))
      vec_levels := by
  obtain ⟨htot, hu, hut⟩ := unit_pos S vec_levels hne
  constructor
  · intro g hg t ht
    obtain ⟨h1, _, h3, h4, h5, h6, h7, h8⟩ := layout_tick_facts S 0 vec_levels g hg t ht
    have hx : t.2.2 = unit S vec_levels * ((t.2.1 : Rat) + 1) := by
      rw [h8]; ring
    have h6r : (0 : Rat) ≤ (t.2.1 : Rat) := by exact_mod_cast h6
    have h7r : (t.2.1 : Rat) ≤ (total S vec_levels : Rat) - 2 := by exact_mod_cast h7
    refine ⟨h3, h1, h4, h5, h6, h7, hx, ?_, ?_, ?_, ?_⟩
    · simp only [tick_line]
      congr 1
      ring
    · rw [hx]
      have : unit S vec_levels * ((t.2.1 : Rat) + 1) - 0.3 * unit S vec_levels =
          unit S vec_levels * ((t.2.1 : Rat) + 0.7) := by
        norm_num
        ring
      rw [this]
      apply mul_pos hu
      norm_num
      linarith
    · have : (0 : Rat) < 0.3 * unit S vec_levels := by
        apply mul_pos _ hu
        norm_num
      linarith
    · rw [hx, ← hut]
      apply mul_lt_mul_of_pos_left _ hu
      linarith
  · have hgroups := layout_loop_groups (unit S vec_levels) 0 (all_multiplets S vec_levels) 0
    have h : (layout S 0 vec_levels).flatMap (fun g => g.ticks.map (fun t => t.1)) =
        (layout S 0 vec_levels).flatMap (fun g => g.group.levels) := by
      apply List.flatMap_congr
      intro g hg
      rw [layout_loop_ticks _ _ _ _ g hg, List.map_map]
      exact List.map_id'' (fun _ => rfl) _
    rw [h]
    have h2 : (layout S 0 vec_levels).flatMap (fun g => g.group.levels) =
        (all_multiplets S vec_levels).flatMap levels_mult.levels := by
      conv_rhs => rw [← hgroups]
      rw [List.flatMap_map]
      rfl
    rw [h2]
    exact all_multiplets_levels_perm S vec_levels

/-- Witness of C27 (scenario 3): one doublet group with the keys (0, even) and (1, odd),
three slots, unit 100/3; the ticks are drawn from 70/3 to 100/3 at energy 0 (slot 0) and
from 170/3 to 200/3 at energy 3 (slot 1). -/
theorem tick_positions_witness :
    scenario3_levels ≠ [] ∧
    (layout insertion_sorters 0 scenario3_levels).map (fun g => g.ticks.map (fun t =>
      (t.2.1, tick_line (unit insertion_sorters scenario3_levels) t))) =
      [[(0, (70 / 3, 0, 100 / 3, 0)), (1, (170 / 3, 3, 200 / 3, 3))]] ∧
    List.Perm
      ((layout insertion_sorters 0 scenario3_levels).flatMap
        (fun g => g.ticks.map (fun t => t.1)))
      scenario3_levels :=
  ⟨by decide, by decide!, (tick_positions insertion_sorters scenario3_levels (by decide)).2⟩

/-- The search `getxpos` finds, for a level with the multiplicity of a group of the layout
loop, the slot of the level's key in that group. -/
theorem getxpos_loop_eq (u off : Rat) (gs : List levels_mult)
    (hnd : (gs.map levels_mult.mult).Nodup) (b : Int) (g : group_layout)
    (hg : g ∈ layout_loop u off b gs) (lev : level) (hm : lev.mult = g.group.mult) :
    getxpos_loop lev b gs =
      slot g.before g.group.multis { mult := lev.mult, l := lev.l, p := lev.p } := by
  induction gs generalizing b with
  | nil => simp [layout_loop] at hg
  | cons i rest ih =>
    simp only [List.map_cons, List.nodup_cons] at hnd
    simp only [layout_loop, List.mem_cons] at hg
    rcases hg with e | e
    · subst e
      have hm2 : lev.mult = i.mult := hm
      simp only [getxpos_loop, if_pos hm2]
      rfl
    · have hgr := (layout_loop_mem _ _ _ _ g e).1
      have hne : ¬ lev.mult = i.mult := by
        intro h
        apply hnd.1
        rw [← h, hm]
        exact List.mem_map_of_mem _ hgr
      simp only [getxpos_loop, if_neg hne]
      exact ih hnd.2 _ e

theorem all_multiplets_nodup (S : Sorters) (vec : List level) :
    ((all_multiplets S vec).map levels_mult.mult).Nodup := by
  rw [all_multiplets_mults]
  exact (grouping_inv S vec).2.1

/-- Every accepted level has a tick, and `getxpos` returns the slot of that tick. -/
theorem getxpos_eq_tick_slot (S : Sorters) (offset : Rat) (vec : List level) :
    (∀ g ∈ layout S offset vec, ∀ t ∈ g.ticks,
      getxpos (all_multiplets S vec) t.1 = t.2.1) ∧
    (∀ x ∈ vec, ∃ g ∈ layout S offset vec, ∃ t ∈ g.ticks, t.1 = x) := by
  constructor
  · intro g hg t ht
    obtain ⟨h1, h2, _, _, h5, _⟩ := layout_tick_facts S offset vec g hg t ht
    rw [h5]
    exact getxpos_loop_eq _ _ _ (all_multiplets_nodup S vec) 0 g hg t.1
      (all_multiplets_level_mult S vec g.group h2 t.1 h1)
  · intro x hx
    have hp := all_multiplets_levels_perm S vec
    obtain ⟨i, hi, hxi⟩ := List.mem_flatMap.1 (hp.mem_iff.2 hx)
    have hgroups := layout_loop_groups (unit S vec) offset (all_multiplets S vec) 0
    rw [← hgroups] at hi
    obtain ⟨g, hg, rfl⟩ := List.mem_map.1 hi
    refine ⟨g, hg, ?_⟩
    rw [layout_loop_ticks _ _ _ _ g hg]
    exact ⟨_, List.mem_map_of_mem _ hxi, rfl⟩

/-- The transitions of the line file of toss_to_grotrian connect accepted levels. -/
theorem toss_read_lines_mem (lib : Cxx.Lib) (vec : List level) (junk : Nat → line_junk)
    (lines : List (List Char)) (k : Nat) (acc : List transition)
    (hacc : ∀ tr ∈ acc, tr.low ∈ vec ∧ tr.up ∈ vec) :
    ∀ tr ∈ toss_read_lines lib vec junk k lines acc, tr.low ∈ vec ∧ tr.up ∈ vec := by
  induction lines generalizing k acc with
  | nil => simpa [toss_read_lines] using hacc
  | cons line rest ih =>
    simp only [toss_read_lines]
    cases hr : toss_read_line lib vec (junk k) line with
    | none => exact ih _ _ hacc
    | some tr0 =>
      apply ih
      intro tr htr
      rw [List.mem_append, List.mem_singleton] at htr
      rcases htr with h | h
      · exact hacc tr h
      · subst h
        unfold toss_read_line at hr
        split at hr
        · cases hr
        · rename_i low hlow
          split at hr
          · cases hr
          · rename_i up hup
            injection hr with hr
            subst hr
            exact ⟨(find_some_mem _ _ _ hlow).1, (find_some_mem _ _ _ hup).1⟩

theorem tmad_read_rbb_lines (lib : Cxx.Lib) (junk : tmad_junk) (v v1 : tmad_vars)
    (line : List Char) (h : tmad_read_rbb lib junk v line = some v1) :
    v1.vec_lines = v.vec_lines ∨
    ∃ tr, v1.vec_lines = v.vec_lines ++ [tr] ∧ tr.low ∈ v.vec_levels ∧
      tr.up ∈ v.vec_levels := by
  unfold tmad_read_rbb at h
  split at h
  · injection h with h
    subst h
    exact Or.inl rfl
  · rename_i low hlow
    split at h
    · cases h
    · split at h
      · injection h with h
        subst h
        exact Or.inl rfl
      · rename_i up hup
        split at h
        · cases h
        · injection h with h
          subst h
          exact Or.inr ⟨_, rfl, (find_some_mem _ _ _ hlow).1, (find_some_mem _ _ _ hup).1⟩

/-- One line of the TMAD file keeps the property that the stored transitions connect
accepted levels. -/
theorem tmad_step_lines (lib : Cxx.Lib) (o : options) (junk : tmad_junk) (v v1 : tmad_vars)
    (line : List Char) (h : tmad_step lib o junk v line = some v1)
    (hv : ∀ tr ∈ v.vec_lines, tr.low ∈ v.vec_levels ∧ tr.up ∈ v.vec_levels) :
    ∀ tr ∈ v1.vec_lines, tr.low ∈ v1.vec_levels ∧ tr.up ∈ v1.vec_levels := by
  unfold tmad_step at h
  by_cases h0 : line.take 1 = ['.']
  · rw [if_pos h0] at h
    injection h with h
    subst h
    exact hv
  · rw [if_neg h0] at h
    cases hs : v.s <;> rw [hs] at h <;> simp only at h
    · split_ifs at h <;> (injection h with h; subst h; exact hv)
    · injection h with h
      subst h
      obtain ⟨_, h2, h3, _⟩ := tmad_read_atom_spec v line
      rw [h2, h3]
      exact hv
    · split_ifs at h <;> (injection h with h; subst h; exact hv)
    · split_ifs at h
      · injection h with h; subst h; exact hv
      · obtain ⟨_, hl, hlev⟩ := tmad_read_level_levels lib o junk v v1 line h
        rw [hl]
        rcases hlev with e | ⟨le0, eHz, _, e, _⟩
        · rw [e]; exact hv
        · rw [e]
          intro tr htr
          exact ⟨List.mem_append_left _ (hv tr htr).1, List.mem_append_left _ (hv tr htr).2⟩
    · split_ifs at h
      · injection h with h; subst h; exact hv
      · obtain ⟨_, hlev, _⟩ := tmad_read_rbb_levels lib junk v v1 line h
        rw [hlev]
        rcases tmad_read_rbb_lines lib junk v v1 line h with e | ⟨tr0, e, h1, h2⟩
        · rw [e]; exact hv
        · rw [e]
          intro tr htr
          rw [List.mem_append, List.mem_singleton] at htr
          rcases htr with h3 | h3
          · exact hv tr h3
          · subst h3
            exact ⟨h1, h2⟩

/-- When the TMAD file is read, the stored transitions connect accepted levels. -/
theorem tmad_read_lines_mem (lib : Cxx.Lib) (o : options) (junk : Nat → tmad_junk)
    (lines : List (List Char)) (k : Nat) (v v1 : tmad_vars)
    (h : tmad_read lib o junk k lines v = some v1)
    (hv : ∀ tr ∈ v.vec_lines, tr.low ∈ v.vec_levels ∧ tr.up ∈ v.vec_levels) :
    ∀ tr ∈ v1.vec_lines, tr.low ∈ v1.vec_levels ∧ tr.up ∈ v1.vec_levels := by
  induction lines generalizing k v with
  | nil =>
    simp only [tmad_read] at h
    injection h with h
    subst h
    exact hv
  | cons line rest ih =>
    simp only [tmad_read] at h
    split at h
    · rename_i v2 hs
      exact ih _ _ h (tmad_step_lines lib o _ v v2 line hs hv)
    · cases h

/-- C28 (code defect in toss_to_grotrian): the connector of a transition ends at the slot
of the level's tick, but not on the tick when the column offset is not zero. For every
list of accepted levels, every tick `t` of the layout has `getxpos` equal to its slot, and
`unit * (getxpos + 0.85) + offset * unit` is the midpoint of the tick, which is drawn from
`unit * (slot + 0.7) + offset * unit` to `unit * (slot + 1) + offset * unit`; so the
connector end `unit * (getxpos + 0.85)` is the midpoint exactly when the offset is 0 (as it
always is in tmad_to_grotrian). Every accepted level has a tick, and the stored transitions
of both tools connect accepted levels. -/
theorem connector_misses_shifted_tick (S : Sorters) (offset : Rat) (vec_levels : List level)
    (hne : vec_levels ≠ []) :
    (∀ g ∈ layout S offset vec_levels, ∀ t ∈ g.ticks,
      getxpos (all_multiplets S vec_levels) t.1 = t.2.1 ∧
      tick_line (unit S vec_levels) t =
        (unit S vec_levels * ((t.2.1 : Rat) + 0.7) + offset * unit S vec_levels, t.1.energy,
          unit S vec_levels * ((t.2.1 : Rat) + 1) + offset * unit S vec_levels,
          t.1.energy) ∧
      unit S vec_levels * ((getxpos (all_multiplets S vec_levels) t.1 : Rat) + 0.85)
          + offset * unit S vec_levels =
        ((tick_line (unit S vec_levels) t).1 + (tick_line (unit S vec_levels) t).2.2.1) / 2 ∧
      (unit S vec_levels * ((getxpos (all_multiplets S vec_levels) t.1 : Rat) + 0.85) =
        ((tick_line (unit S vec_levels) t).1 + (tick_line (unit S vec_levels) t).2.2.1) / 2
          ↔ offset = 0)) ∧
    (∀ x ∈ vec_levels, ∃ g ∈ layout S offset vec_levels, ∃ t ∈ g.ticks, t.1 = x) ∧
    (∀ (lib : Cxx.Lib) (junk : Nat → line_junk) (lines : List (List Char)),
      ∀ tr ∈ toss_read_lines lib vec_levels junk 0 lines [],
        tr.low ∈ vec_levels ∧ tr.up ∈ vec_levels) ∧
    (∀ (lib : Cxx.Lib) (o : options) (junk : Nat → tmad_junk) (lines : List (List Char))
        (alen charge : Int) (ionlimit : Rat) (v : tmad_vars),
      tmad_read lib o junk 0 lines (tmad_init alen charge ionlimit) = some v →
        ∀ tr ∈ v.vec_lines, tr.low ∈ v.vec_levels ∧ tr.up ∈ v.vec_levels) := by
  obtain ⟨htot, hu, hut⟩ := unit_pos S vec_levels hne
  obtain ⟨hx, hex⟩ := getxpos_eq_tick_slot S offset vec_levels
  refine ⟨?_, hex, ?_, ?_⟩
  · intro g hg t ht
    obtain ⟨_, _, _, _, _, _, _, h8⟩ := layout_tick_facts S offset vec_levels g hg t ht
    have h1 := hx g hg t ht
    have hmid : unit S vec_levels * ((t.2.1 : Rat) + 0.85) + offset * unit S vec_levels =
        ((tick_line (unit S vec_levels) t).1 + (tick_line (unit S vec_levels) t).2.2.1) / 2 := by
      simp only [tick_line, h8]
      norm_num
      ring
    refine ⟨h1, ?_, ?_, ?_⟩
    · simp only [tick_line, h8]
      congr 1
      norm_num
      ring
    · rw [h1]; exact hmid
    · rw [h1, ← hmid]
      constructor
      · intro h
        have h0 : offset * unit S vec_levels = 0 := by linarith
        rcases mul_eq_zero.1 h0 with h | h
        · exact h
        · exact absurd h hu.ne'
      · intro h
        rw [h]
        ring
  · intro lib junk lines
    exact toss_read_lines_mem lib vec_levels junk lines 0 [] (by simp)
  · intro lib o junk lines alen charge ionlimit v h
    exact tmad_read_lines_mem lib o junk lines 0 _ v h (by simp [tmad_init])

/-- Witness of C28: the call `toss_to_grotrian levels 100000 lf=lines off=1` on a singlet
level of energy 0 and a triplet level of energy 5000. The unit is 25; the ticks are drawn
from 42.5 to 50 and from 92.5 to 100, and the connector runs from x = 21.25 to x = 71.25:
neither end lies on the tick of its level. -/
theorem connector_misses_shifted_tick_witness :
    [toss_level_1S, toss_level_3Po] ≠ [] ∧
    (toss_program Cxx.decimal_lib insertion_sorters insertion_by_wvl toss_args_off1 toss_files
      0 (fun _ => level_zero) (fun _ => line_junk_zero)).diagram.map (fun d => d.unit) =
      some 25 ∧
    (toss_program Cxx.decimal_lib insertion_sorters insertion_by_wvl toss_args_off1 toss_files
      0 (fun _ => level_zero) (fun _ => line_junk_zero)).diagram.map (fun d => d.lines) =
      some [(85 / 4, 0, 285 / 4, 5000)] ∧
    (toss_program Cxx.decimal_lib insertion_sorters insertion_by_wvl toss_args_off1 toss_files
      0 (fun _ => level_zero) (fun _ => line_junk_zero)).diagram.map
        (fun d => d.layout.map (fun g => g.ticks.map (tick_line d.unit))) =
      some [[(85 / 2, 0, 50, 0)], [(185 / 2, 5000, 100, 5000)]] ∧
    (∀ x ∈ [toss_level_1S, toss_level_3Po],
      ∃ g ∈ layout insertion_sorters 1 [toss_level_1S, toss_level_3Po],
        ∃ t ∈ g.ticks, t.1 = x) :=
  ⟨by decide, by decide!, by decide!, by decide!,
    (connector_misses_shifted_tick insertion_sorters 1 [toss_level_1S, toss_level_3Po]
      (by decide)).2.1⟩

/-! ## Independence of the input order -/

theorem filter_flatMap_other (gs : List levels_mult) (m : Int)
    (hl : ∀ i ∈ gs, ∀ x ∈ i.levels, x.mult = i.mult) (hm : m ∉ gs.map levels_mult.mult) :
    (gs.flatMap levels_mult.levels).filter (fun x => decide (x.mult = m)) = [] := by
  rw [List.filter_eq_nil_iff]
  intro x hx
  obtain ⟨i, hi, hxi⟩ := List.mem_flatMap.1 hx
  simp only [decide_eq_true_eq]
  intro e
  apply hm
  rw [← e, hl i hi x hxi]
  exact List.mem_map_of_mem _ hi

theorem filter_flatMap_group (gs : List levels_mult)
    (hnd : (gs.map levels_mult.mult).Nodup)
    (hl : ∀ i ∈ gs, ∀ x ∈ i.levels, x.mult = i.mult) (g : levels_mult) (hg : g ∈ gs) :
    (gs.flatMap levels_mult.levels).filter (fun x => decide (x.mult = g.mult)) = g.levels := by
  induction gs with
  | nil => simp at hg
  | cons i rest ih =>
    simp only [List.map_cons, List.nodup_cons] at hnd
    simp only [List.flatMap_cons, List.filter_append]
    rcases List.mem_cons.1 hg with e | e
    · subst e
      rw [filter_flatMap_other rest g.mult
        (fun i hi => hl i (List.mem_cons_of_mem _ hi)) hnd.1, List.append_nil]
      rw [List.filter_eq_self]
      intro x hx
      simp only [decide_eq_true_eq]
      exact hl g (List.mem_cons_self _ _) x hx
    · have hne : g.mult ≠ i.mult := by
        intro h
        apply hnd.1
        rw [← h]
        exact List.mem_map_of_mem _ e
      have h1 : i.levels.filter (fun x => decide (x.mult = g.mult)) = [] := by
        rw [List.filter_eq_nil_iff]
        intro x hx
        simp only [decide_eq_true_eq]
        rw [hl i (List.mem_cons_self _ _) x hx]
        exact fun h => hne h.symm
      rw [h1, List.nil_append]
      exact ih hnd.2 (fun i hi => hl i (List.mem_cons_of_mem _ hi)) e

/-- The levels of a group are, up to their order, the accepted levels of its
multiplicity. -/
theorem group_levels_perm_filter (S : Sorters) (vec : List level) (g : levels_mult)
    (hg : g ∈ all_multiplets S vec) :
    List.Perm g.levels (vec.filter (fun x => decide (x.mult = g.mult))) := by
  have hp := (all_multiplets_levels_perm S vec).filter (fun x => decide (x.mult = g.mult))
  rw [filter_flatMap_group _ (all_multiplets_nodup S vec)
    (fun i hi => all_multiplets_level_mult S vec i hi) g hg] at hp
  exact hp

theorem sorted_unique {α : Type} (r : α → α → Prop) (hasym : ∀ a b, r a b → r b a → False)
    (l1 l2 : List α) (h1 : List.Pairwise r l1) (h2 : List.Pairwise r l2)
    (hmem : ∀ x, x ∈ l1 ↔ x ∈ l2) : l1 = l2 := by
  have n1 : l1.Nodup := h1.imp (fun h e => by subst e; exact hasym _ _ h h)
  have n2 : l2.Nodup := h2.imp (fun h e => by subst e; exact hasym _ _ h h)
  have hp : List.Perm l1 l2 := (List.perm_ext_iff_of_nodup n1 n2).2 hmem
  haveI : IsAntisymm α r := ⟨fun a b hab hba => (hasym a b hab hba).elim⟩
  exact List.eq_of_perm_of_sorted hp h1 h2

/-- Two groups of the same multiplicity, built from lists with the same elements, have the
same key list. -/
theorem group_keys_unique (S S2 : Sorters) (vec vec2 : List level)
    (hset : ∀ x, x ∈ vec2 ↔ x ∈ vec) (g g2 : levels_mult) (hg : g ∈ all_multiplets S vec)
    (hg2 : g2 ∈ all_multiplets S2 vec2) (hm : g2.mult = g.mult) : g2.multis = g.multis := by
  obtain ⟨hmem, _, hs, hk⟩ := group_keys_facts S vec g hg
  obtain ⟨hmem2, _, hs2, hk2⟩ := group_keys_facts S2 vec2 g2 hg2
  have hlev : ∀ x, x ∈ g2.levels ↔ x ∈ g.levels := by
    intro x
    rw [(group_levels_perm_filter S2 vec2 g2 hg2).mem_iff,
      (group_levels_perm_filter S vec g hg).mem_iff, List.mem_filter, List.mem_filter, hset, hm]
  apply sorted_unique (fun a b : mul_lp => a.l < b.l ∨ (a.l = b.l ∧ a.p < b.p))
    (by intro a b h1 h2; omega) _ _ hs2 hs
  have key : ∀ (ga gb : levels_mult),
      (∀ l p : Int, (l, p) ∈ ga.multis.map (fun k => (k.l, k.p)) ↔
        (l, p) ∈ ga.levels.map (fun j => (j.l, j.p))) →
      (∀ l p : Int, (l, p) ∈ gb.multis.map (fun k => (k.l, k.p)) ↔
        (l, p) ∈ gb.levels.map (fun j => (j.l, j.p))) →
      (∀ k ∈ ga.multis, k.mult = ga.mult) → (∀ k ∈ gb.multis, k.mult = gb.mult) →
      ga.mult = gb.mult → (∀ x, x ∈ ga.levels → x ∈ gb.levels) →
      ∀ k, k ∈ ga.multis → k ∈ gb.multis := by
    intro ga gb ha hb hka hkb hmm hsub k hkm
    have h1 : (k.l, k.p) ∈ ga.levels.map (fun j => (j.l, j.p)) :=
      (ha k.l k.p).1 (List.mem_map.2 ⟨k, hkm, rfl⟩)
    obtain ⟨j, hj, e⟩ := List.mem_map.1 h1
    have h2 : (k.l, k.p) ∈ gb.multis.map (fun k => (k.l, k.p)) :=
      (hb k.l k.p).2 (List.mem_map.2 ⟨j, hsub j hj, e⟩)
    obtain ⟨k2, hk2m, e2⟩ := List.mem_map.1 h2
    simp only [Prod.mk.injEq] at e2
    have : k2 = k := by
      cases k
      cases k2
      simp only [mul_lp.mk.injEq]
      exact ⟨(hkb _ hk2m).trans (hmm.symm.trans (hka _ hkm).symm), e2.1, e2.2⟩
    rw [← this]
    exact hk2m
  intro k
  exact ⟨key g2 g hmem2 hmem hk2 hk hm (fun x hx => (hlev x).1 hx) k,
    key g g2 hmem hmem2 hk hk2 hm.symm (fun x hx => (hlev x).2 hx) k⟩

theorem map_pair_eq {α β γ : Type} (f : α → β) (h : α → γ) (l1 l2 : List α)
    (hf : l1.map f = l2.map f)
    (hh : ∀ a ∈ l1, ∀ b ∈ l2, f a = f b → h a = h b) :
    l1.map (fun x => (f x, h x)) = l2.map (fun x => (f x, h x)) := by
  induction l1 generalizing l2 with
  | nil =>
    cases l2 with
    | nil => rfl
    | cons b t => simp at hf
  | cons a t ih =>
    cases l2 with
    | nil => simp at hf
    | cons b t2 =>
      simp only [List.map_cons, List.cons.injEq] at hf
      simp only [List.map_cons, List.cons.injEq, Prod.mk.injEq]
      refine ⟨⟨hf.1, hh a (List.mem_cons_self _ _) b (List.mem_cons_self _ _) hf.1⟩, ?_⟩
      exact ih t2 hf.2 (fun x hx y hy =>
        hh x (List.mem_cons_of_mem _ hx) y (List.mem_cons_of_mem _ hy))

/-- The layout loop and the search `getxpos` read of the groups only the multiplicity and
the key list. -/
theorem layout_loop_congr (u off : Rat) (gs1 gs2 : List levels_mult) (b : Int)
    (h : gs1.map (fun g => (g.mult, g.multis)) = gs2.map (fun g => (g.mult, g.multis))) :
    (layout_loop u off b gs1).map (fun g => (g.group.mult, g.group.multis, g.before, g.width,
        g.xpos, g.sep, g.label_x, g.spin, g.top)) =
      (layout_loop u off b gs2).map (fun g => (g.group.mult, g.group.multis, g.before,
        g.width, g.xpos, g.sep, g.label_x, g.spin, g.top)) ∧
    ∀ lev, getxpos_loop lev b gs1 = getxpos_loop lev b gs2 := by
  induction gs1 generalizing gs2 b with
  | nil =>
    cases gs2 with
    | nil => exact ⟨rfl, fun _ => rfl⟩
    | cons j t => simp at h
  | cons i t ih =>
    cases gs2 with
    | nil => simp at h
    | cons j t2 =>
      simp only [List.map_cons, List.cons.injEq, Prod.mk.injEq] at h
      obtain ⟨⟨hm, hk⟩, ht⟩ := h
      obtain ⟨ih1, ih2⟩ := ih t2 (b + (i.multis.length : Int) + 1) ht
      rw [hk] at ih1 ih2
      constructor
      · simp only [layout_loop, List.map_cons, List.cons.injEq]
        refine ⟨?_, ?_⟩
        · simp only [layout_group, hm, hk]
        · rw [hk, ih1]
      · intro lev
        simp only [getxpos_loop, hm, hk, ih2]

/-- C26: the layout depends on the accepted levels, not on their order. Let `vec2` be a
reordering of `vec_levels`, and let the sorts behave in any way on ties in either run.
Then both runs have the same groups (the same multiplicities, each with the same key list,
and the levels of corresponding groups are the same up to their order), the same `total`
and `unit`, the same slot for every level (as the search `getxpos` returns it, and as the
ticks carry it), and the same separators, spin labels and top labels. -/
theorem layout_order_independent (S S2 : Sorters) (offset : Rat) (vec_levels vec2 : List level)
    (hp : List.Perm vec2 vec_levels) :
    (all_multiplets S2 vec2).map (fun g => (g.mult, g.multis)) =
      (all_multiplets S vec_levels).map (fun g => (g.mult, g.multis)) ∧
    (∀ g2 ∈ all_multiplets S2 vec2, ∀ g ∈ all_multiplets S vec_levels, g2.mult = g.mult →
      List.Perm g2.levels g.levels) ∧
    total S2 vec2 = total S vec_levels ∧
    unit S2 vec2 = unit S vec_levels ∧
    (∀ lev, getxpos (all_multiplets S2 vec2) lev = getxpos (all_multiplets S vec_levels) lev) ∧
    (layout S2 offset vec2).map (fun g => (g.group.mult, g.group.multis, g.before, g.width,
        g.xpos, g.sep, g.label_x, g.spin, g.top)) =
      (layout S offset vec_levels).map (fun g => (g.group.mult, g.group.multis, g.before,
        g.width, g.xpos, g.sep, g.label_x, g.spin, g.top)) ∧
    (∀ g2 ∈ layout S2 offset vec2, ∀ t2 ∈ g2.ticks, ∀ g ∈ layout S offset vec_levels,
      ∀ t ∈ g.ticks, t2.1 = t.1 → t2.2 = t.2) := by
  have hset : ∀ x, x ∈ vec2 ↔ x ∈ vec_levels := fun x => hp.mem_iff
  have hmults : (all_multiplets S2 vec2).map levels_mult.mult =
      (all_multiplets S vec_levels).map levels_mult.mult := by
    apply strict_ascending_unique
    · rw [List.pairwise_map]; exact all_multiplets_strict S2 vec2
    · rw [List.pairwise_map]; exact all_multiplets_strict S vec_levels
    · intro m
      rw [all_multiplets_mults, all_multiplets_mults, (grouping_inv S2 vec2).2.2.2,
        (grouping_inv S vec_levels).2.2.2]
      constructor
      · rintro ⟨x, hx, e⟩; exact ⟨x, (hset x).1 hx, e⟩
      · rintro ⟨x, hx, e⟩; exact ⟨x, (hset x).2 hx, e⟩
  have hgroups : (all_multiplets S2 vec2).map (fun g => (g.mult, g.multis)) =
      (all_multiplets S vec_levels).map (fun g => (g.mult, g.multis)) :=
    map_pair_eq levels_mult.mult levels_mult.multis _ _ hmults
      (fun g2 hg2 g hg hm => group_keys_unique S S2 vec_levels vec2 hset g g2 hg hg2 hm)
  have htotal : total S2 vec2 = total S vec_levels := by
    rw [total_eq, total_eq]
    have h1 : (all_multiplets S2 vec2).map (fun g => (g.multis.length : Int)) =
        (all_multiplets S vec_levels).map (fun g => (g.multis.length : Int)) := by
      have := congrArg (List.map (fun q : Int × List mul_lp => (q.2.length : Int))) hgroups
      simpa [List.map_map, Function.comp] using this
    have h2 : (all_multiplets S2 vec2).length = (all_multiplets S vec_levels).length := by
      have := congrArg List.length hmults
      simpa using this
    rw [h1, h2]
  have hunit : unit S2 vec2 = unit S vec_levels := by
    unfold unit
    rw [htotal]
  have hcongr := layout_loop_congr (unit S vec_levels) offset (all_multiplets S2 vec2)
    (all_multiplets S vec_levels) 0 hgroups
  have hget : ∀ lev, getxpos (all_multiplets S2 vec2) lev =
      getxpos (all_multiplets S vec_levels) lev := hcongr.2
  refine ⟨hgroups, ?_, htotal, hunit, hget, ?_, ?_⟩
  · intro g2 hg2 g hg hm
    refine (group_levels_perm_filter S2 vec2 g2 hg2).trans
      (List.Perm.trans ?_ (group_levels_perm_filter S vec_levels g hg).symm)
    rw [hm]
    exact hp.filter _
  · unfold layout
    rw [hunit]
    exact hcongr.1
  · intro g2 hg2 t2 ht2 g hg t ht e
    obtain ⟨_, _, _, _, _, _, _, h8⟩ := layout_tick_facts S offset vec_levels g hg t ht
    obtain ⟨_, _, _, _, _, _, _, h82⟩ := layout_tick_facts S2 offset vec2 g2 hg2 t2 ht2
    have hs := (getxpos_eq_tick_slot S offset vec_levels).1 g hg t ht
    have hs2 := (getxpos_eq_tick_slot S2 offset vec2).1 g2 hg2 t2 ht2
    have hslot : t2.2.1 = t.2.1 := by
      rw [← hs, ← hs2, e]
      exact hget t.1
    apply Prod.ext hslot
    show t2.2.2 = t.2.2
    rw [h8, h82, hslot, hunit]

/-- Witness of C26: two doublet levels with the same `l` and the same energy, in both
orders. The sorts, here stable, leave the levels of the group in their input order, which
differs between the two runs; the key list (1, even), (1, odd) and the total are the
same. -/
theorem layout_order_independent_witness :
    List.Perm tie_levels.reverse tie_levels ∧
    (all_multiplets insertion_sorters tie_levels.reverse).map (fun g => (g.mult, g.multis)) =
      (all_multiplets insertion_sorters tie_levels).map (fun g => (g.mult, g.multis)) ∧
    (all_multiplets insertion_sorters tie_levels).map (fun g => (g.mult, g.multis)) =
      [(2, [{ mult := 2, l := 1, p := 0 }, { mult := 2, l := 1, p := 1 }])] ∧
    (all_multiplets insertion_sorters tie_levels.reverse).map (fun g => g.levels) ≠
      (all_multiplets insertion_sorters tie_levels).map (fun g => g.levels) ∧
    total insertion_sorters tie_levels.reverse = 3 :=
  ⟨List.reverse_perm _,
    (layout_order_independent insertion_sorters insertion_sorters 0 tie_levels
      tie_levels.reverse (List.reverse_perm _)).1,
    by decide, by decide,
    (layout_order_independent insertion_sorters insertion_sorters 0 tie_levels
      tie_levels.reverse (List.reverse_perm _)).2.2.1.trans (by decide)⟩

/-! ## tmad_to_grotrian: the ionisation limit -/

/-- Case `READ_LEVELS`, all outcomes: the variables are unchanged (the record failed a field
check), or the record passed the field checks with raw value `eHz`; then the limit is taken
from it exactly when no level is accepted yet, and the level is appended or not. -/
theorem tmad_read_level_cases (lib : Cxx.Lib) (o : options) (junk : tmad_junk)
    (v v1 : tmad_vars) (line : List Char) (h : tmad_read_level lib o junk v line = some v1) :
    v1 = v ∨
    ∃ le0 eHz, tmad_parse_level lib v.alen junk line = Except.ok (le0, eHz) ∧
      v1.ionlimit = (if v.vec_levels.length = 0 then eHz / c_light else v.ionlimit) ∧
      (v1.vec_levels = v.vec_levels ∨
        v1.vec_levels = v.vec_levels ++ [{ le0 with energy := v1.ionlimit - eHz / c_light }]) := by
  unfold tmad_read_level at h
  split at h
  · cases h
  · injection h with h
    exact Or.inl h.symm
  · rename_i le0 eHz hp
    simp only at h
    split at h
    · rename_i lev hf
      injection h with h
      subst h
      obtain ⟨e, _, _⟩ := filter_level_ok o _ lev hf
      subst e
      exact Or.inr ⟨le0, eHz, hp, rfl, Or.inr rfl⟩
    · injection h with h
      subst h
      exact Or.inr ⟨le0, eHz, hp, rfl, Or.inl rfl⟩

theorem tmad_read_level_ionlimit (lib : Cxx.Lib) (o : options) (junk : Nat → tmad_junk)
    (lines : List (List Char)) (k : Nat) (v v1 : tmad_vars) (line : List Char)
    (hl : line ∈ lines) (h : tmad_read_level lib o (junk k) v line = some v1)
    (hv : ionlimit_invariant lib junk lines v) : ionlimit_invariant lib junk lines v1 := by
  rcases tmad_read_level_cases lib o (junk k) v v1 line h with e | ⟨le0, eHz, hp, hi, hlev⟩
  · rw [e]; exact hv
  · by_cases hempty : v.vec_levels = []
    · have hlen : v.vec_levels.length = 0 := by rw [hempty]; rfl
      rw [if_pos hlen] at hi
      rcases hlev with e | e
      · intro first rest hfr
        rw [e, hempty] at hfr
        cases hfr
      · intro first rest hfr
        rw [e, hempty, List.nil_append] at hfr
        injection hfr with h1 h2
        have hsrc : read_with_raw lib junk lines first eHz :=
          ⟨k, v.alen, line, le0, hl, hp, by rw [← h1]⟩
        have hen : first.energy = 0 := by
          rw [← h1]
          show v1.ionlimit - eHz / c_light = 0
          rw [hi]; ring
        refine ⟨eHz, hi, hen, hsrc, ?_⟩
        intro x hx
        rw [e, hempty, List.nil_append, List.mem_singleton] at hx
        rw [hx, h1]
        exact ⟨eHz, hsrc, by rw [hen]; ring⟩
    · have hlen : ¬ v.vec_levels.length = 0 := by
        intro h0
        exact hempty (List.length_eq_zero.mp h0)
      rw [if_neg hlen] at hi
      obtain ⟨f0, r0, hfr0⟩ := List.exists_cons_of_ne_nil hempty
      obtain ⟨raw_first, h1, h2, h3, h4⟩ := hv f0 r0 hfr0
      intro first rest hfr
      have hfirst : first = f0 := by
        rcases hlev with e | e
        · rw [e, hfr0] at hfr
          injection hfr with a _
          exact a.symm
        · rw [e, hfr0, List.cons_append] at hfr
          injection hfr with a _
          exact a.symm
      subst hfirst
      refine ⟨raw_first, by rw [hi, h1], h2, h3, ?_⟩
      intro x hx
      rcases hlev with e | e
      · rw [e] at hx
        exact h4 x hx
      · rw [e, List.mem_append, List.mem_singleton] at hx
        rcases hx with hx | hx
        · exact h4 x hx
        · refine ⟨eHz, ⟨k, v.alen, line, le0, hl, hp, by rw [hx]⟩, ?_⟩
          rw [hx]
          show v1.ionlimit - eHz / c_light = _
          rw [hi, h1]
          ring

theorem tmad_step_ionlimit (lib : Cxx.Lib) (o : options) (junk : Nat → tmad_junk)
    (lines : List (List Char)) (k : Nat) (v v1 : tmad_vars) (line : List Char)
    (hl : line ∈ lines) (h : tmad_step lib o (junk k) v line = some v1)
    (hv : ionlimit_invariant lib junk lines v) : ionlimit_invariant lib junk lines v1 := by
  have keep : ∀ w : tmad_vars, w.vec_levels = v.vec_levels → w.ionlimit = v.ionlimit →
      ionlimit_invariant lib junk lines w := by
    intro w e1 e2
    unfold ionlimit_invariant
    rw [e1, e2]
    exact hv
  unfold tmad_step at h
  by_cases h0 : line.take 1 = ['.']
  · rw [if_pos h0] at h
    injection h with h; subst h; exact hv
  · rw [if_neg h0] at h
    cases hs : v.s <;> rw [hs] at h <;> simp only at h
    · split_ifs at h <;> (injection h with h; subst h; exact keep _ rfl rfl)
    · injection h with h
      subst h
      exact keep _ (tmad_read_atom_spec v line).2.1 (tmad_read_atom_spec v line).2.2.2
    · split_ifs at h <;> (injection h with h; subst h; exact keep _ rfl rfl)
    · split_ifs at h
      · injection h with h; subst h; exact keep _ rfl rfl
      · exact tmad_read_level_ionlimit lib o junk lines k v v1 line hl h hv
    · split_ifs at h
      · injection h with h; subst h; exact keep _ rfl rfl
      · exact keep _ (tmad_read_rbb_levels lib (junk k) v v1 line h).2.1
          (tmad_read_rbb_levels lib (junk k) v v1 line h).2.2

theorem tmad_read_ionlimit (lib : Cxx.Lib) (o : options) (junk : Nat → tmad_junk)
    (all : List (List Char)) (lines : List (List Char)) (hsub : ∀ l ∈ lines, l ∈ all)
    (k : Nat) (v v1 : tmad_vars) (h : tmad_read lib o junk k lines v = some v1)
    (hv : ionlimit_invariant lib junk all v) : ionlimit_invariant lib junk all v1 := by
  induction lines generalizing k v with
  | nil =>
    simp only [tmad_read] at h
    injection h with h
    subst h
    exact hv
  | cons line rest ih =>
    simp only [tmad_read] at h
    split at h
    · rename_i v2 hs
      exact ih (fun l hl => hsub l (List.mem_cons_of_mem _ hl)) _ _ h
        (tmad_step_ionlimit lib o junk all k v v2 line (hsub line (List.mem_cons_self _ _))
          hs hv)
    · cases h

/-- C31: the ionisation limit of tmad_to_grotrian. A record that passes the field checks
while no level is accepted yet sets the limit to its raw value over c, whether the filters
accept it or not; afterwards the limit stays. So after the file is read, if any level is
accepted, the limit is `raw / c` of the first accepted level, that level has the energy 0,
and every accepted level has the energy `(raw_first - raw) / c`, where `raw` is the value
read from its line. This holds for every option set, that is whichever records the filters
removed. -/
theorem ionlimit_from_first_accepted (lib : Cxx.Lib) (o : options) (junk : Nat → tmad_junk)
    (lines : List (List Char)) (alen charge : Int) (ion0 : Rat) (v : tmad_vars)
    (h : tmad_read lib o junk 0 lines (tmad_init alen charge ion0) = some v)
    (first : level) (rest : List level) (hfr : v.vec_levels = first :: rest) :
    (∃ raw_first : Rat, v.ionlimit = raw_first / c_light ∧ first.energy = 0 ∧
      read_with_raw lib junk lines first raw_first ∧
      ∀ x ∈ v.vec_levels, ∃ raw : Rat, read_with_raw lib junk lines x raw ∧
        x.energy = (raw_first - raw) / c_light) ∧
    (∀ (junk1 : tmad_junk) (w w1 : tmad_vars) (line : List Char) (le0 : level) (eHz : Rat),
      tmad_read_level lib o junk1 w line = some w1 →
      tmad_parse_level lib w.alen junk1 line = Except.ok (le0, eHz) →
        w1.ionlimit = (if w.vec_levels.length = 0 then eHz / c_light else w.ionlimit)) := by
  constructor
  · have hinit : ionlimit_invariant lib junk lines (tmad_init alen charge ion0) := by
      intro f r hf
      simp [tmad_init] at hf
    exact tmad_read_ionlimit lib o junk lines lines (fun _ hl => hl) 0 _ v h hinit first rest
      hfr
  · intro junk1 w w1 line le0 eHz hr hp
    unfold tmad_read_level at hr
    rw [hp] at hr
    simp only at hr
    split at hr <;> (injection hr with hr; subst hr; rfl)

/-- Witness of C31: the sample TMAD file read with the option `l=1`. The first record (raw
value 2c) is removed by the filter, the second (raw value c) is the first accepted level:
the limit is c / c = 1 and the level has the energy 0. -/
theorem ionlimit_from_first_accepted_witness :
    tmad_read Cxx.decimal_lib { default_options with skip_l := 1 } (fun _ => tmad_junk_zero) 0
      tmad_file (tmad_init 0 0 0) = some tmad_file_l1_vars ∧
    tmad_file_l1_vars.ionlimit = 29979245800 / c_light ∧
    ∃ raw_first : Rat, tmad_file_l1_vars.ionlimit = raw_first / c_light ∧
      tmad_file_3S_zero.energy = 0 ∧
      read_with_raw Cxx.decimal_lib (fun _ => tmad_junk_zero) tmad_file tmad_file_3S_zero
        raw_first ∧
      ∀ x ∈ tmad_file_l1_vars.vec_levels, ∃ raw : Rat,
        read_with_raw Cxx.decimal_lib (fun _ => tmad_junk_zero) tmad_file x raw ∧
          x.energy = (raw_first - raw) / c_light :=
  ⟨by with_unfolding_all rfl, by decide!,
    (ionlimit_from_first_accepted Cxx.decimal_lib { default_options with skip_l := 1 }
      (fun _ => tmad_junk_zero) tmad_file 0 0 0 tmad_file_l1_vars (by with_unfolding_all rfl)
      tmad_file_3S_zero [] rfl).1⟩

end Grotrian

namespace Adamant

/-! ## adamant_to_toss: the emitted rows -/

/-- When the transition loop does not abort, it appends one row per line, in the order of
the lines. -/
theorem add_lines_eq_map (lib : Cxx.Lib) (vec : List level) (lines : List line_vars)
    (acc res : List transition) (h : add_lines lib vec lines acc = some res) :
    res = acc ++ lines.map (fun lv =>
      { wvl := lv.wvl
        low := (search_levels vec lv.id_low lv.id_up).l_low
        up := (search_levels vec lv.id_low lv.id_up).l_up
        loggf := lib.log10 lv.gf
        gA := lv.A * (2 * (search_levels vec lv.id_low lv.id_up).l_up.J + 1) }) := by
  induction lines generalizing acc with
  | nil =>
    simp only [add_lines, Option.some.injEq] at h
    simp [h]
  | cons lv rest ih =>
    simp only [add_lines] at h
    split_ifs at h with hf
    rw [ih _ h]
    simp

/-- The exit code of a run is 0 only if both files were opened and no line aborted the
transition loop. -/
theorem run_code_zero (lib : Cxx.Lib) (W : Grotrian.StdSort by_wvl)
    (vec_levels : Option (List level)) (lines : Option (List line_vars))
    (h : (run lib W vec_levels lines).1 = 0) :
    ∃ vec ls res, vec_levels = some vec ∧ lines = some ls ∧
      add_lines lib vec ls [] = some res ∧ run lib W vec_levels lines = (0, W.run res) := by
  unfold run at h ⊢
  cases vec_levels with
  | none => simp at h
  | some vec =>
    cases lines with
    | none => simp at h
    | some ls =>
      simp only at h ⊢
      cases hr : add_lines lib vec ls [] with
      | none => rw [hr] at h; simp at h
      | some res => exact ⟨vec, ls, res, rfl, rfl, hr, by simp only [hr]⟩

/-- C33: when a run of adamant_to_toss does not abort (exit code 0), both files were
opened, the emitted rows are in non-decreasing wavelength order, and they are a
permutation of the rows built from the lines of the line file, one row per line: the row of
line k has the wavelength read from that line, the two levels found for its ids,
`log10(gf)` and `A * (2 * up.J + 1)`. -/
theorem rows_sorted_permutation (lib : Cxx.Lib) (W : Grotrian.StdSort by_wvl)
    (level_file line_file : Option (List (List Char))) (junk : Nat → level_junk)
    (ljunk : Nat → line_vars)
    (h : (main lib W level_file line_file junk ljunk).1 = 0) :
    ∃ lf ll, level_file = some lf ∧ line_file = some ll ∧
      List.Pairwise (fun a b : transition => a.wvl ≤ b.wvl)
        (main lib W level_file line_file junk ljunk).2 ∧
      List.Perm (main lib W level_file line_file junk ljunk).2
        (ll.enum.map (fun kl =>
          { wvl := (read_line lib (ljunk kl.1) kl.2).wvl
            low := (search_levels (read_levels lib junk lf)
              (read_line lib (ljunk kl.1) kl.2).id_low
              (read_line lib (ljunk kl.1) kl.2).id_up).l_low
            up := (search_levels (read_levels lib junk lf)
              (read_line lib (ljunk kl.1) kl.2).id_low
              (read_line lib (ljunk kl.1) kl.2).id_up).l_up
            loggf := lib.log10 (read_line lib (ljunk kl.1) kl.2).gf
            gA := (read_line lib (ljunk kl.1) kl.2).A *
              (2 * (search_levels (read_levels lib junk lf)
                (read_line lib (ljunk kl.1) kl.2).id_low
                (read_line lib (ljunk kl.1) kl.2).id_up).l_up.J + 1) })) ∧
      (main lib W level_file line_file junk ljunk).2.length = ll.length := by
  unfold main at h ⊢
  obtain ⟨vec, ls, res, hv, hl, hadd, hrun⟩ := run_code_zero lib W _ _ h
  cases level_file with
  | none => simp at hv
  | some lf =>
    cases line_file with
    | none => simp at hl
    | some ll =>
      simp only [Option.map_some', Option.some.injEq] at hv hl
      subst hv hl
      have hres := add_lines_eq_map lib _ _ [] res hadd
      rw [List.nil_append, List.map_map] at hres
      rw [hrun]
      refine ⟨lf, ll, rfl, rfl, ?_, ?_, ?_⟩
      · refine (W.sorted res).imp ?_
        intro a b hab
        simpa [by_wvl] using hab
      · show List.Perm (W.run res) _
        rw [hres]
        exact W.perm _
      · show (W.run res).length = _
        rw [(W.perm res).length_eq, hres]
        simp

/-- Witness of C33: scenario 1, and a line file with the wavelengths 6000 and 5000 in this
order, whose rows are emitted with 5000 first. -/
theorem rows_sorted_permutation_witness :
    (main Cxx.decimal_lib insertion_by_wvl (some scenario1_level_file)
      (some ["1 - 2 - - 6000.0 1e7 0.1".data, "1 - 2 - - 5000.0 1e7 0.1".data])
      (fun _ => level_junk_zero) (fun _ => line_vars_zero)).1 = 0 ∧
    (main Cxx.decimal_lib insertion_by_wvl (some scenario1_level_file)
      (some ["1 - 2 - - 6000.0 1e7 0.1".data, "1 - 2 - - 5000.0 1e7 0.1".data])
      (fun _ => level_junk_zero) (fun _ => line_vars_zero)).2.map (fun t => t.wvl) =
      [5000, 6000] ∧
    ∃ lf ll, some scenario1_level_file = some lf ∧
      some ["1 - 2 - - 6000.0 1e7 0.1".data, "1 - 2 - - 5000.0 1e7 0.1".data] = some ll ∧
      List.Pairwise (fun a b : transition => a.wvl ≤ b.wvl)
        (main Cxx.decimal_lib insertion_by_wvl (some scenario1_level_file)
          (some ["1 - 2 - - 6000.0 1e7 0.1".data, "1 - 2 - - 5000.0 1e7 0.1".data])
          (fun _ => level_junk_zero) (fun _ => line_vars_zero)).2 ∧
      (main Cxx.decimal_lib insertion_by_wvl (some scenario1_level_file)
        (some ["1 - 2 - - 6000.0 1e7 0.1".data, "1 - 2 - - 5000.0 1e7 0.1".data])
        (fun _ => level_junk_zero) (fun _ => line_vars_zero)).2.length = ll.length := by
  refine ⟨by decide!, by decide!, ?_⟩
  obtain ⟨lf, ll, h1, h2, h3, _, h5⟩ :=
    rows_sorted_permutation Cxx.decimal_lib insertion_by_wvl (some scenario1_level_file)
      (some ["1 - 2 - - 6000.0 1e7 0.1".data, "1 - 2 - - 5000.0 1e7 0.1".data])
      (fun _ => level_junk_zero) (fun _ => line_vars_zero) (by decide!)
  exact ⟨lf, ll, h1, h2, h3, h5⟩

end Adamant

namespace Fplot

/-! ## toss_to_fplot: the anomaly check and the order of the entries -/

theorem line_entry_isSome (lib : Cxx.Lib) (to_string : Rat → List Char) (v : line_vars) :
    (line_entry lib to_string v).isSome =
      !deviates (fdiv (lib.pow 10 v.loggf) (to_int (2 * v.j_low + 1)))
        (fdiv (v.gA * (149919 / 1000000000000000000000) * v.wvl * v.wvl)
          (to_int (2 * v.j_low + 1))) := by
  unfold line_entry
  split_ifs with h <;> simp [h]

/-- The test of the program against the condition of the specification, for the quotients
of two numbers `p`, `n2` by the same `g`: the program pushes the line when the condition
holds, and also when the ratio is NaN, that is for `g = 0` and for `p = 0 = n2`. -/
theorem deviates_false_iff (p n2 : Rat) (g : Int) :
    deviates (fdiv p g) (fdiv n2 g) = false ↔
      within_half (fdiv p g) (fdiv n2 g) = true ∨ g = 0 ∨ (p = 0 ∧ n2 = 0) := by
  by_cases hg : g = 0
  · subst hg
    simp only [fdiv, if_true, or_true, true_or, iff_true]
    split_ifs <;> rfl
  · have hgr : (g : Rat) ≠ 0 := by exact_mod_cast hg
    have hf : ∀ a : Rat, fdiv a g = fvalue.finite (a / (g : Rat)) := by
      intro a
      unfold fdiv
      rw [if_neg hg]
    rw [hf p, hf n2]
    simp only [deviates, within_half]
    by_cases hn : n2 = 0
    · subst hn
      simp [hgr, hg]
    · have hy : n2 / (g : Rat) ≠ 0 := div_ne_zero hn hgr
      rw [if_neg hy, if_neg hy]
      simp [hn, hg]

theorem fvalue_lt_irrefl (x : fvalue) : x.lt x = false := by
  cases x with
  | finite x => simp [fvalue.lt]
  | inf n => cases n <;> rfl
  | nan => rfl

/-- What `operator<` of the tuples says about two elements `a`, `b` for which `b < a` is
false: the wavelength of `a` is not above that of `b`; at equal wavelengths the f-value of
`b` is not below that of `a`; at equal wavelengths and f-values the text of `a` is not
after that of `b`. -/
theorem entry_lt_false (a b : entry) (h : entry_lt b a = false) :
    a.wvl ≤ b.wvl ∧
      (a.wvl = b.wvl → b.f.lt a.f = false ∧
        (a.f = b.f → String.mk a.text ≤ String.mk b.text)) := by
  unfold entry_lt at h
  rw [Bool.or_eq_false_iff] at h
  obtain ⟨h1, h2⟩ := h
  rw [decide_eq_false_iff_not, not_lt] at h1
  refine ⟨h1, ?_⟩
  intro he
  have h3 : decide (a.wvl < b.wvl) = false := by
    rw [decide_eq_false_iff_not, he]
    exact lt_irrefl _
  rw [h3] at h2
  simp only [Bool.not_false, Bool.true_and, Bool.or_eq_false_iff] at h2
  refine ⟨h2.1, ?_⟩
  intro hf
  have h4 := h2.2
  rw [hf, fvalue_lt_irrefl] at h4
  simp only [Bool.not_false, Bool.true_and, decide_eq_false_iff_not, not_lt] at h4
  exact h4

/-- C32, as stated, fails: the line `5000.0 0.0 (e) -0.5 20000.0 (o) 0.5 -1.0 1e7` has
`j_low = -0.5`, so `g = trunc(2 * j_low + 1) = 0`; `f` and `f2` are both infinite, their
ratio is NaN, and `|1 - f / f2| <= 0.5` does not hold; yet the test `diff > 0.5` is false
too, and the line produces an entry (with an infinite f-value). -/
theorem entry_for_nan_ratio :
    read_line Cxx.decimal_lib line_vars_zero zero_g_line =
      { wvl := 5000, j_low := -1 / 2, j_up := 1 / 2, loggf := -1, gA := 10000000 } ∧
    to_int (2 * (-1 / 2 : Rat) + 1) = 0 ∧
    fdiv (Cxx.decimal_lib.pow 10 (-1)) 0 = fvalue.inf false ∧
    fdiv ((10000000 : Rat) * (149919 / 1000000000000000000000) * 5000 * 5000) 0 =
      fvalue.inf false ∧
    within_half (fvalue.inf false) (fvalue.inf false) = false ∧
    (line_entry Cxx.decimal_lib (fun _ => [])
      (read_line Cxx.decimal_lib line_vars_zero zero_g_line)).map (fun e => (e.wvl, e.f)) =
      some (5000, fvalue.inf false) ∧
    (read_values Cxx.decimal_lib (fun _ => []) (fun _ => line_vars_zero) 0 [zero_g_line]
      []).length = 1 := by
  refine ⟨by decide!, by decide!, by decide!, by decide!, by decide!,
    by decide!, by decide!⟩

/-- C32, amended: for numbers wvl, j_low, loggf, gA, with g = trunc(2 * j_low + 1),
p = pow(10, loggf) and n2 = gA * 1.49919E-16 * wvl * wvl in exact arithmetic, so that
f = p / g and f2 = n2 / g, a line produces an entry exactly when the test `diff > 0.5` is
false: that is when `|1 - f / f2| <= 0.5`, and also when the ratio is NaN, which happens
for g = 0 and for p = 0 = n2; for g and n2 not zero the entry is produced exactly when
`|1 - (p / g) / (n2 / g)| <= 1/2`. The entry holds
the wavelength, f and the text of loggf. Whatever the test says, the loop goes on with the
next line, and the run returns 0. When no f-value is NaN, the entries written are a
permutation of the entries produced, in non-decreasing order of the wavelength; of two
entries of one wavelength the later one has no smaller f, and of two entries of one
wavelength and one f the later one has no smaller text of loggf. -/
theorem entry_iff_not_deviating (lib : Cxx.Lib) (to_string : Rat → List Char) :
    (∀ v : line_vars,
      ((line_entry lib to_string v).isSome =
        !deviates (fdiv (lib.pow 10 v.loggf) (to_int (2 * v.j_low + 1)))
          (fdiv (v.gA * (149919 / 1000000000000000000000) * v.wvl * v.wvl)
            (to_int (2 * v.j_low + 1)))) ∧
      ((line_entry lib to_string v).isSome = true ↔
        within_half (fdiv (lib.pow 10 v.loggf) (to_int (2 * v.j_low + 1)))
          (fdiv (v.gA * (149919 / 1000000000000000000000) * v.wvl * v.wvl)
            (to_int (2 * v.j_low + 1))) = true ∨
        to_int (2 * v.j_low + 1) = 0 ∨
        (lib.pow 10 v.loggf = 0 ∧
          v.gA * (149919 / 1000000000000000000000) * v.wvl * v.wvl = 0)) ∧
      (to_int (2 * v.j_low + 1) ≠ 0 →
        v.gA * (149919 / 1000000000000000000000) * v.wvl * v.wvl ≠ 0 →
        ((line_entry lib to_string v).isSome = true ↔
          |1 - (lib.pow 10 v.loggf / (to_int (2 * v.j_low + 1) : Rat)) /
            (v.gA * (149919 / 1000000000000000000000) * v.wvl * v.wvl /
              (to_int (2 * v.j_low + 1) : Rat))| ≤ 1 / 2)) ∧
      (∀ e, line_entry lib to_string v = some e →
        e.wvl = v.wvl ∧ e.f = fdiv (lib.pow 10 v.loggf) (to_int (2 * v.j_low + 1)) ∧
          e.text = to_string v.loggf)) ∧
    (∀ (junk : Nat → line_vars) (k : Nat) (line : List Char) (rest : List (List Char))
        (values : List entry),
      read_values lib to_string junk k (line :: rest) values =
        read_values lib to_string junk (k + 1) rest
          (values ++ (line_entry lib to_string (read_line lib (junk k) line)).toList)) ∧
    (∀ (W : tuple_sort) (argv : List (List Char)) (fs : List Char → Option (List (List Char)))
        (junk : Nat → line_vars),
      (program lib to_string W argv fs junk).1 = 0 ∧
      ((∀ e ∈ (main lib to_string argv fs junk).2, e.f ≠ fvalue.nan) →
        List.Pairwise (fun a b : entry => a.wvl ≤ b.wvl ∧
            (a.wvl = b.wvl → b.f.lt a.f = false ∧
              (a.f = b.f → String.mk a.text ≤ String.mk b.text)))
          (program lib to_string W argv fs junk).2 ∧
        List.Perm (program lib to_string W argv fs junk).2
          (main lib to_string argv fs junk).2)) := by
  refine ⟨?_, ?_, ?_⟩
  · intro v
    have hs := line_entry_isSome lib to_string v
    have hd := deviates_false_iff (lib.pow 10 v.loggf)
      (v.gA * (149919 / 1000000000000000000000) * v.wvl * v.wvl) (to_int (2 * v.j_low + 1))
    refine ⟨hs, ?_, ?_, ?_⟩
    · rw [hs, ← hd]
      simp
    · intro hg hn
      have hgr : ((to_int (2 * v.j_low + 1) : Int) : Rat) ≠ 0 := by exact_mod_cast hg
      have hf : ∀ a : Rat, fdiv a (to_int (2 * v.j_low + 1)) =
          fvalue.finite (a / ((to_int (2 * v.j_low + 1) : Int) : Rat)) := by
        intro a
        unfold fdiv
        rw [if_neg hg]
      rw [hs, hf, hf]
      simp only [deviates]
      rw [if_neg (div_ne_zero hn hgr)]
      simp
    · intro e he
      unfold line_entry at he
      split_ifs at he
      injection he with he
      subst he
      exact ⟨rfl, rfl, rfl⟩
  · intro junk k line rest values
    rw [read_values]
    cases line_entry lib to_string (read_line lib (junk k) line) with
    | none => simp
    | some e => simp
  · intro W argv fs junk
    refine ⟨?_, ?_⟩
    · simp only [program, main]
      split_ifs
      · rfl
      · cases fs (argv.getD 1 []) <;> rfl
    · intro hnan
      refine ⟨?_, W.perm _ hnan⟩
      refine (W.sorted _ hnan).imp ?_
      intro a b hab
      exact entry_lt_false a b hab

/-- Witness of C32 (amended): a file with a fitting line at 6000 (f = 1), a deviating line
at 4000, the line with g = 0 at 5000 and a fitting line at 6000 with f = 1/2. The deviating
line gives no entry, the other three do, and they are written with the wavelength 5000
first and, at the wavelength 6000, the f-value 1/2 first. -/
theorem entry_iff_not_deviating_witness :
    (line_entry Cxx.decimal_lib (fun _ => [])
      (read_line Cxx.decimal_lib line_vars_zero fitting_line)).isSome = true ∧
    (line_entry Cxx.decimal_lib (fun _ => [])
      (read_line Cxx.decimal_lib line_vars_zero deviating_line)).isSome = false ∧
    (main Cxx.decimal_lib (fun _ => []) ["toss_to_fplot".data, "lines".data]
      (fun _ => some [fitting_line, deviating_line, zero_g_line, fitting_line_half])
      (fun _ => line_vars_zero)).2.map (fun e => (e.wvl, e.f)) =
      [(6000, fvalue.finite 1), (5000, fvalue.inf false), (6000, fvalue.finite (1 / 2))] ∧
    (program Cxx.decimal_lib (fun _ => []) insertion_tuple_sort
      ["toss_to_fplot".data, "lines".data]
      (fun _ => some [fitting_line, deviating_line, zero_g_line, fitting_line_half])
      (fun _ => line_vars_zero)).2.map (fun e => (e.wvl, e.f)) =
      [(5000, fvalue.inf false), (6000, fvalue.finite (1 / 2)), (6000, fvalue.finite 1)] ∧
    List.Pairwise (fun a b : entry => a.wvl ≤ b.wvl ∧
        (a.wvl = b.wvl → b.f.lt a.f = false ∧
          (a.f = b.f → String.mk a.text ≤ String.mk b.text)))
      (program Cxx.decimal_lib (fun _ => []) insertion_tuple_sort
        ["toss_to_fplot".data, "lines".data]
        (fun _ => some [fitting_line, deviating_line, zero_g_line, fitting_line_half])
        (fun _ => line_vars_zero)).2 :=
  ⟨by decide!, by decide!, by decide!, by decide!,
    (((entry_iff_not_deviating Cxx.decimal_lib (fun _ => [])).2.2 insertion_tuple_sort
      ["toss_to_fplot".data, "lines".data]
      (fun _ => some [fitting_line, deviating_line, zero_g_line, fitting_line_half])
      (fun _ => line_vars_zero)).2 (by decide!)).1⟩

end Fplot
